import Mathlib

/-!
# herbstluftwm object/attribute registry

A shallow embedding of the C part of `src/object.cpp` (the `HSObject` /
`HSAttribute` registry): attribute assignment with validation and rollback,
path resolution, user attributes and the substitution commands.

Conventions of the embedding.

* A C string is a `List Char` (no terminating NUL, no embedded NUL).
* `GString*` fields that are allocated and released by the code are addresses
  into a `GHeap`; a released cell is `none`, so a dangling pointer is visible.
* A function returns `none` where the C code has undefined behaviour (reading
  an uninitialised local, dereferencing NULL or released storage, a failed
  `assert`).
* Machine integers are `Int`/`Nat` with explicit wrap-around where needed.
-/

namespace Herbstluft

/-! ## C strings and text output -/

/-- A C string; the terminating NUL is not represented. -/
abbrev CStr := List Char

/-- The double-quote character. -/
def dquote : Char := Char.ofNat 34

/-- The newline character. -/
def newline : Char := Char.ofNat 10

/-! ## Status codes -/

/-- Modelled from the spec: the status codes are declared in `ipc-protocol.h`,
which is not among the sources; the spec lists success (0), invalid-argument,
forbidden, need-more-args and unknown-error as distinct codes. -/
def HERBST_UNKNOWN_ERROR : Int := 1

/-- Modelled from the spec: see `HERBST_UNKNOWN_ERROR`. -/
def HERBST_INVALID_ARGUMENT : Int := 3

/-- Modelled from the spec: see `HERBST_UNKNOWN_ERROR`. -/
def HERBST_NEED_MORE_ARGS : Int := 5

/-- Modelled from the spec: see `HERBST_UNKNOWN_ERROR`. -/
def HERBST_FORBIDDEN : Int := 6

/-! ## Decimal text: `operator<<` and `sscanf` -/

/-- Text written by `output << u` for an `unsigned`. -/
def show_unsigned (u : Nat) : CStr := Nat.toDigits 10 u

/-- Text written by `output << i` for an `int`. -/
def show_int (i : Int) : CStr :=
  if i < 0 then '-' :: Nat.toDigits 10 i.natAbs else Nat.toDigits 10 i.natAbs

/-- C `isspace` in the "C" locale. -/
def isspace (c : Char) : Bool :=
  c.toNat = 32 || (9 ≤ c.toNat && c.toNat ≤ 13)

/-- C `isdigit`. -/
def isdigit (c : Char) : Bool := 48 ≤ c.toNat && c.toNat ≤ 57

/-- Value of a run of decimal digits, most significant first. -/
def dec_value (ds : CStr) : Nat :=
  ds.foldl (fun acc c => 10 * acc + (c.toNat - 48)) 0

/-- The optional sign read by a numeric conversion: whether it was `-`, and the
rest of the input. -/
def scan_sign : CStr → Bool × CStr
  | c :: cs => if c = '-' then (true, cs) else if c = '+' then (false, cs) else (false, c :: cs)
  | [] => (false, [])

/-- Wrap-around of a mathematical integer into a 32-bit `int`. -/
def wrap_int32 (z : Int) : Int := (z + 2 ^ 31) % 2 ^ 32 - 2 ^ 31

/-- Result of `sscanf(s, "%d", &x)`: `none` when the call does not return 1 (no
integer matched), otherwise the stored `int`.  White space is skipped, an
optional sign and the longest run of digits are read, and whatever follows is
left unread.  A value outside the range of `long` is clamped and the result is
truncated to 32 bits, as the C library does; C leaves that case undefined. -/
def sscanf_d (s : CStr) : Option Int :=
  let p := scan_sign (s.dropWhile isspace)
  let ds := p.2.takeWhile isdigit
  if ds = [] then none
  else
    let m : Int := dec_value ds
    let l : Int := if p.1 then max (-m) (-(2 ^ 63)) else min m (2 ^ 63 - 1)
    some (wrap_int32 l)

/-- Result of `sscanf(s, "%u", &x)`: `none` when no integer is matched,
otherwise the stored `unsigned`.  A leading `-` negates modulo the width of
`unsigned long`; the result is truncated to 32 bits. -/
def sscanf_u (s : CStr) : Option Nat :=
  let p := scan_sign (s.dropWhile isspace)
  let ds := p.2.takeWhile isdigit
  if ds = [] then none
  else
    let m : Nat := dec_value ds
    let l : Nat := if 2 ^ 64 ≤ m then 2 ^ 64 - 1 else if p.1 then (2 ^ 64 - m) % 2 ^ 64 else m
    some (l % 2 ^ 32)

/-! ## GString storage -/

/-- Storage of the `GString` objects reachable through `unparsed_value`:
cell `p` holds the text of the string at address `p`, or `none` once it has
been released with `g_string_free`. -/
abbrev GHeap := List (Option CStr)

/-- Text of the live string at address `p` (`p->str`); `none` if released. -/
def GHeap.str (h : GHeap) (p : Nat) : Option CStr := (h.get? p).join

/-- `g_string_new(s)`: a fresh string, with its address. -/
def g_string_new (h : GHeap) (s : CStr) : GHeap × Nat := (h ++ [some s], h.length)

/-- `g_string_free(p, true)`; undefined when `p` is not live. -/
def g_string_free (h : GHeap) (p : Nat) : Option GHeap :=
  match h.str p with
  | some _ => some (h.set p none)
  | none => none

/-- `g_string_assign(p, s)`; undefined when `p` is not live. -/
def g_string_assign (h : GHeap) (p : Nat) (s : CStr) : Option GHeap :=
  match h.str p with
  | some _ => some (h.set p (some s))
  | none => none

/-! ## Attributes -/

/-- Modelled from the spec: class `Color` is declared in `x11-types.h`, which is
not among the sources.  Only equality of colours and `Color::convert` /
`Color::fromStr` (taken as parameters, see `Externals`) are used. -/
structure Color where
  pixel : Nat
  deriving DecidableEq, Repr

/-- The attribute kinds `HSATTR_TYPE_*`. -/
inductive HSAttributeType where
  | BOOL | UINT | INT | COLOR | STRING | CUSTOM | CUSTOM_INT
  deriving DecidableEq, Repr

/-- The storage an attribute's `value` union points to, tagged with the kind:
`*value.b`, `*value.i`, `*value.u`, `(*value.str)->str`, `*value.color`, and
for the computed kinds the text / number the getter currently produces. -/
inductive HSAttributeValue where
  | b (v : Bool)
  | i (v : Int)
  | u (v : Nat)
  | str (v : CStr)
  | color (v : Color)
  | custom (get : CStr)
  | custom_int (get : Int)
  deriving DecidableEq, Repr

/-- The `type` field that goes with a stored value. -/
def HSAttributeValue.type : HSAttributeValue → HSAttributeType
  | .b _ => .BOOL
  | .i _ => .INT
  | .u _ => .UINT
  | .str _ => .STRING
  | .color _ => .COLOR
  | .custom _ => .CUSTOM
  | .custom_int _ => .CUSTOM_INT

/-- An `HSAttribute`.  `on_change` receives the attribute, of which the value
and the unparsed text are the parts an assignment changes; it returns NULL
(`none`) or a message.  `change_custom` receives the raw value string.  A
validator reads the attribute and does not write to it. -/
structure HSAttribute where
  name : CStr
  value : HSAttributeValue
  unparsed_value : Option Nat
  on_change : Option (HSAttributeValue → Option CStr → Option CStr)
  change_custom : Option (CStr → Option CStr)
  always_callback : Bool
  user_attribute : Bool

/-- The `type` field of an attribute. -/
def HSAttribute.type (attr : HSAttribute) : HSAttributeType := attr.value.type

/-- Parts of the program that `object.cpp` uses and that are not among the
sources. -/
structure Externals where
  /-- `string_to_bool_error(string, oldvalue, &error)` from `utils`: the result
  and the error flag. -/
  string_to_bool_error : CStr → Bool → Bool × Bool
  /-- `Color::convert(source, dest)`: `none` when it returns false. -/
  convert : CStr → Option Color
  /-- `Color::fromStr`. -/
  fromStr : CStr → Color
  /-- `USER_ATTRIBUTE_PREFIX` from `object.h`. -/
  user_attribute_marker : CStr
  /-- `TMP_OBJECT_PATH` from `object.h`. -/
  tmp_object_path : CStr

/-- `hsattribute_append_to_string` into an empty stream, i.e.
`hsattribute_to_string`; `none` when a colour attribute's `unparsed_value` is
NULL or dangling. -/
def hsattribute_to_string (heap : GHeap) (attr : HSAttribute) : Option CStr :=
  match attr.value with
  | .b v => some (if v then "true".toList else "false".toList)
  | .i v => some (show_int v)
  | .u v => some (show_unsigned v)
  | .str v => some v
  | .color _ => attr.unparsed_value.bind heap.str
  | .custom g => some g
  | .custom_int g => some (show_int g)

/-- `hsattribute_is_read_only`; `none` when its assertion fails. -/
def hsattribute_is_read_only (attr : HSAttribute) : Option Bool :=
  let custom := attr.type = .CUSTOM || attr.type = .CUSTOM_INT
  if custom && attr.on_change.isSome then none
  else if custom then some attr.change_custom.isNone
  else some attr.on_change.isNone

/-! ## Assignment -/

/-- The locals of `hsattribute_assign` after the `switch` that parses the new
value, backs up the old one and stores the new one: `error`, `nothing_to_do`,
`old_value` (`none` while uninitialised), the value now stored in the
attribute, and the text written to `output`. -/
structure Stored where
  error : Bool
  nothing_to_do : Bool
  old_value : Option HSAttributeValue
  value : HSAttributeValue
  output : CStr

/-- The macro `ATTR_DO_ASSIGN_COMPARE(NAME, MEM)`: `parsed` is `none` when
`error` is set and `new_value.MEM` otherwise; `cur` is `*attr->value.MEM`.
(The message really contains the words `<< new_value_str <<`: the quotes in
the macro are escaped.) -/
def ATTR_DO_ASSIGN_COMPARE (NAME : CStr) (parsed : Option HSAttributeValue)
    (cur : HSAttributeValue) : Stored :=
  match parsed with
  | none =>
    { error := true, nothing_to_do := false, old_value := none, value := cur,
      output := "Can not parse ".toList ++ NAME ++ " from ".toList ++ [dquote]
        ++ " << new_value_str << ".toList ++ [dquote] }
  | some new_value =>
    if cur = new_value then
      { error := false, nothing_to_do := true, old_value := some cur, value := cur, output := [] }
    else
      { error := false, nothing_to_do := false, old_value := some cur, value := new_value,
        output := [] }

/-- The value `new_value` that `hsattribute_assign` parses from the string for
an attribute currently holding `cur`, `none` when `error` is set: through
`string_to_bool_error`, `sscanf` with `%d` / `%u`, or `Color::convert`.  A
string attribute takes the string itself; nothing is parsed for the computed
kinds. -/
def parse_new_value (ext : Externals) (cur : HSAttributeValue) (new_value_str : CStr) :
    Option HSAttributeValue :=
  match cur with
  | .b v =>
    let r := ext.string_to_bool_error new_value_str v
    if r.2 then none else some (.b r.1)
  | .i _ => (sscanf_d new_value_str).map .i
  | .u _ => (sscanf_u new_value_str).map .u
  | .str _ => some (.str new_value_str)
  | .color _ => (ext.convert new_value_str).map .color
  | .custom g => some (.custom g)
  | .custom_int g => some (.custom_int g)

/-- The first `switch (attr->type)` of `hsattribute_assign`: "change the value
and backup the old value". -/
def assign_store (ext : Externals) (heap : GHeap) (attr : HSAttribute)
    (new_value_str : CStr) : Option Stored :=
  match attr.value with
  | .b v =>
    some (ATTR_DO_ASSIGN_COMPARE "boolean".toList (parse_new_value ext (.b v) new_value_str) (.b v))
  | .i v =>
    some (ATTR_DO_ASSIGN_COMPARE "integer".toList (parse_new_value ext (.i v) new_value_str) (.i v))
  | .u v =>
    some (ATTR_DO_ASSIGN_COMPARE "unsigned integer".toList
      (parse_new_value ext (.u v) new_value_str) (.u v))
  | .str v =>
    if new_value_str = v then
      some { error := false, nothing_to_do := true, old_value := none, value := .str v,
             output := [] }
    else
      some { error := false, nothing_to_do := false, old_value := some (.str v),
             value := .str new_value_str, output := [] }
  | .color c =>
    match parse_new_value ext (.color c) new_value_str with
    | none =>
      some { error := true, nothing_to_do := false, old_value := none, value := .color c,
             output := [dquote] ++ new_value_str ++ [dquote] ++ " is not a valid color.".toList }
    | some new_color =>
      match attr.unparsed_value.bind heap.str with
      | none => none
      | some unparsed =>
        if new_value_str = unparsed then
          some { error := false, nothing_to_do := true, old_value := none, value := .color c,
                 output := [] }
        else
          some { error := false, nothing_to_do := false, old_value := some (.color c),
                 value := new_color, output := [] }
  | .custom g =>
    some { error := false, nothing_to_do := false, old_value := none, value := .custom g,
           output := [] }
  | .custom_int g =>
    some { error := false, nothing_to_do := false, old_value := none, value := .custom_int g,
           output := [] }

/-- A call of one of the two validator callbacks, with what it was given. -/
inductive Call where
  | on_change (value : HSAttributeValue) (unparsed : Option CStr)
  | change_custom (new_value_str : CStr)
  deriving DecidableEq, Repr

/-- What `hsattribute_assign` leaves behind: the returned status, the
attribute, the string storage, the text written to `output` and the validator
calls made, in order. -/
structure AssignResult where
  status : Int
  attr : HSAttribute
  heap : GHeap
  output : CStr
  calls : List Call

/-- The validator's answer is a rejection: a non-NULL message of non-zero length. -/
def is_rejection (errormsg : Option CStr) : Bool :=
  match errormsg with
  | some msg => decide (0 < msg.length)
  | none => false

/-- The validator's message as printed: one trailing newline is removed. -/
def truncate_newline (msg : CStr) : CStr :=
  if msg.getLast? = some newline then msg.dropLast else msg

/-- "ask the attribute about the change": the callback that is called, and its
result.  `none` when both pointers are NULL. -/
def ask_attribute (attr : HSAttribute) (heap : GHeap) (new_value_str : CStr) :
    Option (Option CStr × Call) :=
  match attr.on_change with
  | some f =>
    let unparsed := attr.unparsed_value.bind heap.str
    some (f attr.value unparsed, Call.on_change attr.value unparsed)
  | none =>
    match attr.change_custom with
    | some g => some (g new_value_str, Call.change_custom new_value_str)
    | none => none

/-- The "restore old value" block, run when the validator rejected: the
temporary unparsed string is released and the old pointer put back, then the
stored value is restored from `old_value`. -/
def assign_restore (heap : GHeap) (attr : HSAttribute) (old_unparsed_value : Option Nat)
    (old_value : Option HSAttributeValue) : Option (GHeap × HSAttribute) :=
  let unparsed : Option (GHeap × Option Nat) :=
    match old_unparsed_value with
    | some p =>
      match attr.unparsed_value with
      | some q => (g_string_free heap q).map (fun h => (h, some p))
      | none => none
    | none => some (heap, attr.unparsed_value)
  match unparsed with
  | none => none
  | some (heap1, up) =>
    match attr.type with
    | .CUSTOM => some (heap1, { attr with unparsed_value := up })
    | .CUSTOM_INT => some (heap1, { attr with unparsed_value := up })
    | _ =>
      match old_value with
      | some v => some (heap1, { attr with unparsed_value := up, value := v })
      | none => none

/-- The "free old_value" `switch` and the release of `old_unparsed_value`. -/
def assign_free (heap : GHeap) (attr : HSAttribute) (new_value_str : CStr)
    (old_unparsed_value : Option Nat) (old_value : Option HSAttributeValue) : Option GHeap :=
  let heap1 : Option GHeap :=
    match attr.type with
    | .STRING => if old_value.isSome then some heap else none
    | .COLOR =>
      match attr.unparsed_value with
      | some p => g_string_assign heap p new_value_str
      | none => none
    | _ => some heap
  match heap1 with
  | none => none
  | some h =>
    match old_unparsed_value with
    | some p => g_string_free h p
    | none => some h

/-- The second half of `hsattribute_assign`, from `old_unparsed_value` on: the
tentative unparsed text, the validator call, the rollback on rejection and the
release of the backups.  `st` holds the locals left by the first `switch`. -/
def assign_validate (heap : GHeap) (attr : HSAttribute) (new_value_str : CStr) (st : Stored) :
    Option AssignResult :=
  let old_unparsed_value := attr.unparsed_value
  let fresh : GHeap × Option Nat :=
    match attr.unparsed_value with
    | some _ => ((g_string_new heap new_value_str).1, some (g_string_new heap new_value_str).2)
    | none => (heap, none)
  let attr1 : HSAttribute := { attr with value := st.value, unparsed_value := fresh.2 }
  match ask_attribute attr1 fresh.1 new_value_str with
  | none => none
  | some (errormsg, call) =>
    let after : Option (GHeap × HSAttribute × Int × CStr) :=
      if is_rejection errormsg then
        (assign_restore fresh.1 attr1 old_unparsed_value st.old_value).map
          (fun r => (r.1, r.2, HERBST_INVALID_ARGUMENT,
            st.output ++ "Can not write attribute ".toList ++ [dquote] ++ attr.name
              ++ [dquote] ++ ": ".toList ++ truncate_newline (errormsg.getD [])
              ++ [newline]))
      else some (fresh.1, attr1, 0, st.output)
    match after with
    | none => none
    | some (heap2, attr2, exit_status, out) =>
      match assign_free heap2 attr2 new_value_str old_unparsed_value st.old_value with
      | none => none
      | some heap3 =>
        some { status := exit_status, attr := attr2, heap := heap3, output := out,
               calls := [call] }

/-- `hsattribute_assign(attr, new_value_str, output)`. -/
def hsattribute_assign (ext : Externals) (heap : GHeap) (attr : HSAttribute)
    (new_value_str : CStr) : Option AssignResult :=
  match hsattribute_is_read_only attr with
  | none => none
  | some true =>
    some { status := HERBST_FORBIDDEN, attr := attr, heap := heap,
           output := "Can not write read-only attribute ".toList ++ [dquote] ++ attr.name
             ++ [dquote, newline],
           calls := [] }
  | some false =>
    match assign_store ext heap attr new_value_str with
    | none => none
    | some st =>
      if st.error then
        some { status := HERBST_INVALID_ARGUMENT, attr := { attr with value := st.value },
               heap := heap, output := st.output, calls := [] }
      else if (if attr.always_callback then false else st.nothing_to_do) then
        some { status := 0, attr := { attr with value := st.value }, heap := heap,
               output := st.output, calls := [] }
      else assign_validate heap attr new_value_str st

/-- `ATTR_ACCEPT_ALL`. -/
def ATTR_ACCEPT_ALL : HSAttributeValue → Option CStr → Option CStr := fun _ _ => none

/-- The `unparsed_value` pointer of an attribute is NULL or points to a live
string. -/
def unparsed_ok (heap : GHeap) (attr : HSAttribute) : Bool :=
  match attr.unparsed_value with
  | none => true
  | some p => (heap.str p).isSome

/-- The unparsed text the validator finds in the attribute while it is asked:
the new value string, when the attribute keeps an unparsed text at all. -/
def seen_unparsed (attr : HSAttribute) (new_value_str : CStr) : Option CStr :=
  attr.unparsed_value.map (fun _ => new_value_str)

/-! ## Objects and paths -/

/-- An entry of an object's child list (`HSObjectChild`): the name and the
address of the child object. -/
structure HSObjectChild where
  name : CStr
  child : Nat

/-- An `HSObject`: its attribute array and its list of children. -/
structure HSObject where
  attributes : List HSAttribute
  children : List HSObjectChild

/-- The objects of the registry by address. -/
abbrev Objects := List HSObject

/-- Address of `g_root_object` (`hsobject_root`). -/
def hsobject_root : Nat := 0

/-- Modelled from the spec: `OBJECT_PATH_SEPARATOR` is defined in `object.h`,
which is not among the sources; the spec's scenarios write `settings.gap`. -/
def OBJECT_PATH_SEPARATOR : Char := '.'

/-- `hsobject_find_child`: the child of the first entry with that name. -/
def hsobject_find_child (obj : HSObject) (name : CStr) : Option Nat :=
  (obj.children.find? (fun oc => oc.name = name)).map (fun oc => oc.child)

/-- Index of the first element satisfying `p`. -/
def first_index {α : Type} (p : α → Bool) : List α → Option Nat
  | [] => none
  | a :: l => if p a then some 0 else (first_index p l).map (fun i => i + 1)

/-- `hsobject_find_attribute`: the index of the first attribute with that name. -/
def hsobject_find_attribute (obj : HSObject) (name : CStr) : Option Nat :=
  first_index (fun (a : HSAttribute) => a.name = name) obj.attributes

/-- "skip separator characters". -/
def skip_separators (path : CStr) : CStr :=
  path.dropWhile (fun c => decide (c = OBJECT_PATH_SEPARATOR))

/-- The C string `curname`: the path up to the next separator (the separators
of the copy have been replaced by NUL). -/
def curname_of (path : CStr) : CStr :=
  path.takeWhile (fun c => !decide (c = OBJECT_PATH_SEPARATOR))

/-- What `hsobject_parse_path_verbose` yields: the returned object, the text
`*unparsable` points to, and what was written to `output`. -/
structure ParseResult where
  obj : Nat
  unparsable : CStr
  output : CStr

/-- The diagnostic of `hsobject_parse_path_verbose`. -/
def invalid_path_message (origpath curname lastname : CStr) : CStr :=
  "Invalid path ".toList ++ [dquote] ++ origpath ++ [dquote] ++ ": ".toList ++
    "No child ".toList ++ [dquote] ++ curname ++ [dquote] ++ " in object ".toList ++ lastname
    ++ [newline]

/-- The `while (strcmp("", path))` loop of `hsobject_parse_path_verbose`, with
`fuel` bounding the number of iterations.  `none` when the object address is
invalid or the fuel runs out. -/
def parse_path_loop (objs : Objects) (origpath : CStr) :
    Nat → Nat → CStr → CStr → Option ParseResult
  | fuel, obj, lastname, path =>
    if path = [] then some ⟨obj, [], []⟩
    else
      match fuel with
      | 0 => none
      | fuel + 1 =>
        match objs[obj]? with
        | none => none
        | some o =>
          match hsobject_find_child o (curname_of path) with
          | none =>
            some ⟨obj, path, invalid_path_message origpath (curname_of path) lastname⟩
          | some child =>
            parse_path_loop objs origpath fuel child (curname_of path)
              (skip_separators (path.drop (curname_of path).length))

/-- `hsobject_parse_path_verbose(path, &unparsable, output)`.  Every iteration
of the loop consumes at least one character, so `path.length` iterations are
enough (`parse_path_loop_fuel`). -/
def hsobject_parse_path_verbose (objs : Objects) (path : CStr) : Option ParseResult :=
  parse_path_loop objs path path.length hsobject_root "root".toList (skip_separators path)

/-- `hsobject_by_path`: the object, or NULL (`some none`) when the path was not
parsed entirely. -/
def hsobject_by_path (objs : Objects) (path : CStr) : Option (Option Nat) :=
  (hsobject_parse_path_verbose objs path).map
    (fun r => if r.unparsable = [] then some r.obj else none)

/-- The "Unknown attribute" diagnostic of `hsattribute_parse_path_verbose`. -/
def unknown_attribute_message (path unparsable : CStr) : CStr :=
  "Unknown attribute ".toList ++ [dquote] ++ unparsable ++ [dquote] ++ " in object ".toList
    ++ [dquote] ++ path.take (path.length - unparsable.length) ++ [dquote] ++ ".".toList
    ++ [newline]

/-- `hsattribute_parse_path_verbose(path, output)`: the attribute, as the
address of its object and its index in the attribute array, or NULL; and the
text written to `output`. -/
def hsattribute_parse_path_verbose (objs : Objects) (path : CStr) :
    Option (Option (Nat × Nat) × CStr) :=
  match hsobject_parse_path_verbose objs path with
  | none => none
  | some r =>
    if OBJECT_PATH_SEPARATOR ∈ r.unparsable then some (none, r.output)
    else
      match objs[r.obj]? with
      | none => none
      | some o =>
        match hsobject_find_attribute o r.unparsable with
        | some i => some (some (r.obj, i), [])
        | none => some (none, unknown_attribute_message path r.unparsable)

/-! ## The registry and its commands -/

/-- The state the commands work on: the objects (the root at address 0), the
string storage, the address of `g_tmp_object` and the `static int tmpcount` of
`tmpattribute_command`. -/
structure Registry where
  objects : Objects
  heap : GHeap
  tmp_object : Nat
  tmpcount : Int

/-- What a command leaves behind: the returned status, the text written to
`output`, the registry, and the calls of `call_command_substitute` it made
(identifier, replacement, argument list). -/
structure CommandResult where
  status : Int
  output : CStr
  reg : Registry
  dispatched : List (CStr × CStr × List CStr)

/-- `call_command_substitute(identifier, replacement, argc, argv, output)` from
`command.cpp`, which is not among the sources: the status it returns, the text
it writes and the registry it leaves. -/
abbrev Dispatcher := CStr → CStr → List CStr → Registry → Int × CStr × Registry

/-- The text `hsattribute_create` writes for an unknown type name. -/
def unknown_type_message (type_str : CStr) : CStr :=
  "Unknown attribute type ".toList ++ [dquote] ++ type_str ++ [dquote, newline]

/-- The text `userattribute_command` writes when the attribute exists already. -/
def attribute_exists_message (name : CStr) : CStr :=
  "Error: an attribute called ".toList ++ [dquote] ++ name ++ [dquote]
    ++ " already exists".toList ++ [newline]

/-- The text `userattribute_command` writes when the name lacks the reserved
beginning. -/
def user_attribute_name_message (marker name : CStr) : CStr :=
  "Error: the name of user attributes has to ".toList ++ "start with ".toList
    ++ [dquote] ++ marker ++ [dquote] ++ " but yours is ".toList
    ++ [dquote] ++ name ++ [dquote, newline]

/-- The text `userattribute_remove_command` writes for a built-in attribute. -/
def not_user_defined_message (path : CStr) : CStr :=
  "Can only user-defined attributes, but ".toList ++ [dquote] ++ path
    ++ [dquote] ++ " is not user-defined.".toList ++ [newline]

/-- The table `types` of `hsattribute_create` with the initial value of each
kind; `none` for an unknown type name. -/
def attribute_type_of_name (ext : Externals) (type_str : CStr) : Option HSAttributeValue :=
  if type_str = "bool".toList then some (.b false)
  else if type_str = "uint".toList then some (.u 0)
  else if type_str = "int".toList then some (.i 0)
  else if type_str = "string".toList then some (.str [])
  else if type_str = "color".toList then some (.color (ext.fromStr "#000000".toList))
  else none

/-- The attribute as `hsattribute_create` initialises it: zeroed by `memset`,
then `name`, `type` and the value, `on_change = ATTR_ACCEPT_ALL` and
`user_attribute = false`. -/
def initial_attribute (name : CStr) (value : HSAttributeValue) (unparsed : Option Nat) :
    HSAttribute :=
  { name := name, value := value, unparsed_value := unparsed,
    on_change := some ATTR_ACCEPT_ALL, change_custom := none,
    always_callback := false, user_attribute := false }

/-- Replace the object at address `obj`. -/
def Registry.set_object (reg : Registry) (obj : Nat) (o : HSObject) : Registry :=
  { reg with objects := reg.objects.set obj o }

/-- `hsattribute_create(obj, name, type_str, output)`: the index of the new
attribute or NULL, the text written, and the registry. -/
def hsattribute_create (ext : Externals) (reg : Registry) (obj : Nat) (name type_str : CStr) :
    Option (Option Nat × CStr × Registry) :=
  match attribute_type_of_name ext type_str with
  | none =>
    some (none, unknown_type_message type_str, reg)
  | some value =>
    match reg.objects[obj]? with
    | none => none
    | some o =>
      let unparsed : GHeap × Option Nat :=
        match value with
        | .color _ =>
          ((g_string_new reg.heap "#000000".toList).1,
            some (g_string_new reg.heap "#000000".toList).2)
        | _ => (reg.heap, none)
      let attr : HSAttribute := initial_attribute name value unparsed.2
      some (some o.attributes.length, [],
        { reg with
          objects := reg.objects.set obj { o with attributes := o.attributes ++ [attr] },
          heap := unparsed.1 })

/-- `attr->user_attribute = true` for the attribute at index `idx` of `obj`. -/
def set_user_attribute (reg : Registry) (obj idx : Nat) : Registry :=
  match reg.objects[obj]? with
  | none => reg
  | some o =>
    match o.attributes[idx]? with
    | none => reg
    | some a =>
      reg.set_object obj
        { o with attributes := o.attributes.set idx { a with user_attribute := true } }

/-- `userattribute_command(argc, argv, output)`. -/
def userattribute_command (ext : Externals) (reg : Registry) (argv : List CStr) :
    Option CommandResult :=
  match argv with
  | _ :: type_str :: path :: _ =>
    match hsobject_parse_path_verbose reg.objects path with
    | none => none
    | some r =>
      if OBJECT_PATH_SEPARATOR ∈ r.unparsable then
        some ⟨HERBST_INVALID_ARGUMENT, r.output, reg, []⟩
      else
        match reg.objects[r.obj]? with
        | none => none
        | some o =>
          if (hsobject_find_attribute o r.unparsable).isSome then
            some ⟨HERBST_FORBIDDEN, attribute_exists_message r.unparsable, reg, []⟩
          else if !(ext.user_attribute_marker.isPrefixOf r.unparsable) then
            some ⟨HERBST_INVALID_ARGUMENT,
              user_attribute_name_message ext.user_attribute_marker r.unparsable, reg, []⟩
          else
            match hsattribute_create ext reg r.obj r.unparsable type_str with
            | none => none
            | some (none, out, reg1) => some ⟨HERBST_INVALID_ARGUMENT, out, reg1, []⟩
            | some (some idx, out, reg1) => some ⟨0, out, set_user_attribute reg1 r.obj idx, []⟩
  | _ => some ⟨HERBST_NEED_MORE_ARGS, [], reg, []⟩

/-- `userattribute_remove(attr)`, the attribute given as the address of its
object and its index, or NULL: the returned `bool` and the registry.
`hsattribute_free` releases the unparsed string. -/
def userattribute_remove (reg : Registry) (attr : Option (Nat × Nat)) :
    Option (Bool × Registry) :=
  match attr with
  | none => none
  | some (obj, idx) =>
    match reg.objects[obj]? with
    | none => none
    | some o =>
      match o.attributes[idx]? with
      | none => some (false, reg)
      | some a =>
        let freed : Option GHeap :=
          match a.unparsed_value with
          | some p => g_string_free reg.heap p
          | none => some reg.heap
        match freed with
        | none => none
        | some heap1 =>
          some (false,
            { reg with
              objects := reg.objects.set obj { o with attributes := o.attributes.eraseIdx idx },
              heap := heap1 })

/-- The attribute at index `idx` of the object at address `obj`. -/
def Registry.attribute (reg : Registry) (obj idx : Nat) : Option HSAttribute :=
  reg.objects[obj]?.bind (fun o => o.attributes[idx]?)

/-- `userattribute_remove_command(argc, argv, output)`. -/
def userattribute_remove_command (reg : Registry) (argv : List CStr) : Option CommandResult :=
  match argv with
  | _ :: path :: _ =>
    match hsattribute_parse_path_verbose reg.objects path with
    | none => none
    | some (none, out) => some ⟨HERBST_INVALID_ARGUMENT, out, reg, []⟩
    | some (some (obj, idx), out) =>
      match reg.attribute obj idx with
      | none => none
      | some a =>
        if !a.user_attribute then
          some ⟨HERBST_FORBIDDEN, out ++ not_user_defined_message path, reg, []⟩
        else
          match userattribute_remove reg (some (obj, idx)) with
          | none => none
          | some (removed, reg1) =>
            some ⟨if removed then 0 else HERBST_UNKNOWN_ERROR, out, reg1, []⟩
  | _ => some ⟨HERBST_NEED_MORE_ARGS, [], reg, []⟩

/-- The name `g_strdup_printf("%stmp%d", USER_ATTRIBUTE_PREFIX, tmpcount)`. -/
def tmp_attribute_name (ext : Externals) (tmpcount : Int) : CStr :=
  ext.user_attribute_marker ++ "tmp".toList ++ show_int tmpcount

/-- `tmpattribute_command(argc, argv, output)`. -/
def tmpattribute_command (ext : Externals) (dispatch : Dispatcher) (reg : Registry)
    (argv : List CStr) : Option CommandResult :=
  match argv with
  | _ :: type_str :: identifier :: command :: args =>
    let reg0 : Registry := { reg with tmpcount := reg.tmpcount + 1 }
    let name := tmp_attribute_name ext reg0.tmpcount
    match hsattribute_create ext reg0 reg0.tmp_object name type_str with
    | none => none
    | some (none, out, reg1) =>
      some ⟨HERBST_INVALID_ARGUMENT, out, { reg1 with tmpcount := reg1.tmpcount - 1 }, []⟩
    | some (some _, out, reg1) =>
      let obj := reg0.tmp_object
      let path := ext.tmp_object_path ++ [OBJECT_PATH_SEPARATOR] ++ name
      let r := dispatch identifier path (command :: args) reg1
      let reg2 := r.2.2
      match reg2.objects[obj]? with
      | none => none
      | some o =>
        match userattribute_remove reg2 ((hsobject_find_attribute o name).map (fun i => (obj, i))) with
        | none => none
        | some (_, reg3) =>
          some ⟨r.1, out ++ r.2.1, { reg3 with tmpcount := reg3.tmpcount - 1 },
            [(identifier, path, command :: args)]⟩
  | _ => some ⟨HERBST_NEED_MORE_ARGS, [], reg, []⟩

/-- `FORMAT_CHAR`. -/
def FORMAT_CHAR : Char := '%'

/-- The `for` loop of `sprintf_command` from position `i` of the format on:
`params` are the arguments after the format (the last one is the command),
`nextarg` the next one to consider and `repl` the replacement built so far.
The result is the replacement and `nextarg`, or the text of the error. -/
def sprintf_loop (reg : Registry) (format : CStr) (params : List CStr) :
    CStr → Nat → Nat → CStr → Option (Except CStr (CStr × Nat))
  | [], _, nextarg, repl => some (.ok (repl, nextarg))
  | c :: rest, i, nextarg, repl =>
    if c = FORMAT_CHAR then
      match rest with
      | [] =>
        some (.error ("Error: unknown format specifier ".toList ++ [Char.ofNat 39, '?', Char.ofNat 39]
          ++ " in format ".toList ++ [dquote] ++ format ++ [dquote] ++ " at position ".toList
          ++ show_int i ++ [newline]))
      | d :: rest2 =>
        if d = FORMAT_CHAR then
          sprintf_loop reg format params rest2 (i + 2) nextarg (repl ++ "%%".toList)
        else if d = 's' then
          if nextarg + 1 ≥ params.length then
            some (.error ("Error: Too few parameters. A ".toList ++ show_int nextarg
              ++ " parameter missing. (treating ".toList ++ [dquote]
              ++ (params.getLast?.getD []) ++ [dquote]
              ++ " as the command to execute)".toList ++ [newline]))
          else
            match hsattribute_parse_path_verbose reg.objects (params.getD nextarg []) with
            | none => none
            | some (none, out) => some (.error out)
            | some (some (obj, idx), _) =>
              match (reg.attribute obj idx).bind (hsattribute_to_string reg.heap) with
              | none => none
              | some gs =>
                sprintf_loop reg format params rest2 (i + 2) (nextarg + 1) (repl ++ gs)
        else
          some (.error ("Error: unknown format specifier ".toList ++ [Char.ofNat 39, d, Char.ofNat 39]
            ++ " in format ".toList ++ [dquote] ++ format ++ [dquote] ++ " at position ".toList
            ++ show_int i ++ [newline]))
    else sprintf_loop reg format params rest (i + 1) nextarg (repl ++ [c])

/-- `sprintf_command(argc, argv, output)`. -/
def sprintf_command (dispatch : Dispatcher) (reg : Registry) (argv : List CStr) :
    Option CommandResult :=
  match argv with
  | _ :: identifier :: format :: param :: params =>
    match sprintf_loop reg format (param :: params) format 0 0 [] with
    | none => none
    | some (.error out) => some ⟨HERBST_INVALID_ARGUMENT, out, reg, []⟩
    | some (.ok (repl, nextarg)) =>
      let r := dispatch identifier repl ((param :: params).drop nextarg) reg
      some ⟨r.1, r.2.1, r.2.2, [(identifier, repl, (param :: params).drop nextarg)]⟩
  | _ => some ⟨HERBST_NEED_MORE_ARGS, [], reg, []⟩

/-! ## Reading, writing and comparing attributes -/

/-- `hsattribute_assign` applied to the attribute at index `idx` of the object
at address `obj`: the status and text of the assignment, and the registry with
the attribute and the string storage as the assignment left them. -/
def assign_attribute_at (ext : Externals) (reg : Registry) (obj idx : Nat)
    (new_value_str : CStr) : Option CommandResult :=
  match reg.objects[obj]? with
  | none => none
  | some o =>
    match o.attributes[idx]? with
    | none => none
    | some a =>
      match hsattribute_assign ext reg.heap a new_value_str with
      | none => none
      | some r =>
        some ⟨r.status, r.output,
          { reg with
            objects := reg.objects.set obj { o with attributes := o.attributes.set idx r.attr },
            heap := r.heap }, []⟩

/-- `hsattribute_get_command(argc, argv, output)`. -/
def hsattribute_get_command (reg : Registry) (argv : List CStr) : Option CommandResult :=
  match argv with
  | _ :: path :: _ =>
    match hsattribute_parse_path_verbose reg.objects path with
    | none => none
    | some (none, out) => some ⟨HERBST_INVALID_ARGUMENT, out, reg, []⟩
    | some (some (obj, idx), out) =>
      match (reg.attribute obj idx).bind (hsattribute_to_string reg.heap) with
      | none => none
      | some text => some ⟨0, out ++ text, reg, []⟩
  | _ => some ⟨HERBST_NEED_MORE_ARGS, [], reg, []⟩

/-- `hsattribute_set_command(argc, argv, output)`. -/
def hsattribute_set_command (ext : Externals) (reg : Registry) (argv : List CStr) :
    Option CommandResult :=
  match argv with
  | _ :: path :: value :: _ =>
    match hsattribute_parse_path_verbose reg.objects path with
    | none => none
    | some (none, out) => some ⟨HERBST_INVALID_ARGUMENT, out, reg, []⟩
    | some (some (obj, idx), out) =>
      (assign_attribute_at ext reg obj idx value).map
        (fun r => { r with output := out ++ r.output })
  | _ => some ⟨HERBST_NEED_MORE_ARGS, [], reg, []⟩

/-- `hsattribute_type_indicator`. -/
def hsattribute_type_indicator (type : HSAttributeType) : Char :=
  match type with
  | .BOOL => 'b'
  | .UINT => 'u'
  | .INT => 'i'
  | .STRING => 's'
  | .CUSTOM => 's'
  | .CUSTOM_INT => 'i'
  | .COLOR => 'c'

/-- `print_child_name`, as called by `g_list_foreach` for each child. -/
def print_child_name (output : CStr) (child : HSObjectChild) : CStr :=
  output ++ "  ".toList ++ child.name ++ [OBJECT_PATH_SEPARATOR] ++ [newline]

/-- The loop of `attr_command` that lists the attributes, from `output` on.
`none` when an assertion fails or an unparsed string cannot be read. -/
def list_attributes (heap : GHeap) : List HSAttribute → CStr → Option CStr
  | [], output => some output
  | a :: rest, output =>
    match hsattribute_is_read_only a with
    | none => none
    | some read_only =>
      match hsattribute_to_string heap a with
      | none => none
      | some text =>
        let write : Char := if read_only then '-' else 'w'
        let quote : CStr := if a.type = .STRING then [dquote] else []
        list_attributes heap rest
          (output ++ " ".toList ++ [hsattribute_type_indicator a.type] ++ " ".toList ++ [write]
            ++ " ".toList ++ a.name ++ " = ".toList ++ quote ++ text ++ quote ++ [newline])

/-- The branch `obj && !new_value` of `attr_command`: the listing of an object. -/
def list_object (heap : GHeap) (o : HSObject) : Option CStr :=
  let childcount := o.children.length
  let head : CStr :=
    show_int childcount ++ " children".toList ++ [if childcount ≠ 0 then ':' else '.']
      ++ [newline]
  let children : CStr := o.children.foldl print_child_name head
  let gap : CStr := if childcount > 0 then children ++ [newline] else children
  let attrs : CStr :=
    gap ++ show_int o.attributes.length ++ " attributes".toList ++
      (if o.attributes.length > 0 then
        ":".toList ++ [newline] ++ " .---- type".toList ++ [newline]
          ++ " | .-- writeable".toList ++ [newline] ++ " V V".toList ++ [newline]
      else ".".toList ++ [newline])
  list_attributes heap o.attributes attrs

/-- The diagnostic of `attr_command` for a value given together with an object. -/
def can_not_assign_message (argv0 new_value path : CStr) : CStr :=
  argv0 ++ ": Can not assign value ".toList ++ [dquote] ++ new_value ++ [dquote]
    ++ " to object ".toList ++ [dquote] ++ path ++ [dquote] ++ ",".toList

/-- `attr_command(argc, argv, output)`. -/
def attr_command (ext : Externals) (reg : Registry) (argv : List CStr) : Option CommandResult :=
  let path : CStr := argv.getD 1 []
  let new_value : Option CStr := argv[2]?
  match hsobject_parse_path_verbose reg.objects path with
  | none => none
  | some r =>
    if r.unparsable ≠ [] then
      match hsattribute_parse_path_verbose reg.objects path with
      | none => none
      | some (none, out) => some ⟨HERBST_INVALID_ARGUMENT, r.output ++ out, reg, []⟩
      | some (some (obj, idx), _) =>
        match new_value with
        | some value => assign_attribute_at ext reg obj idx value
        | none =>
          match (reg.attribute obj idx).bind (hsattribute_to_string reg.heap) with
          | none => none
          | some text => some ⟨0, text, reg, []⟩
    else
      match new_value with
      | some value =>
        some ⟨0, can_not_assign_message (argv.getD 0 []) value path, reg, []⟩
      | none =>
        match reg.objects[r.obj]? with
        | none => none
        | some o =>
          match list_object reg.heap o with
          | none => none
          | some text => some ⟨0, text, reg, []⟩

/-- `substitute_command(argc, argv, output)`. -/
def substitute_command (dispatch : Dispatcher) (reg : Registry) (argv : List CStr) :
    Option CommandResult :=
  match argv with
  | _ :: identifier :: attrpath :: command :: args =>
    match hsattribute_parse_path_verbose reg.objects attrpath with
    | none => none
    | some (none, out) => some ⟨HERBST_INVALID_ARGUMENT, out, reg, []⟩
    | some (some (obj, idx), out) =>
      match (reg.attribute obj idx).bind (hsattribute_to_string reg.heap) with
      | none => none
      | some replacement =>
        let r := dispatch identifier replacement (command :: args) reg
        some ⟨r.1, out ++ r.2.1, r.2.2, [(identifier, replacement, command :: args)]⟩
  | _ => some ⟨HERBST_NEED_MORE_ARGS, [], reg, []⟩

/-- Result of `sscanf(s, "%lld", &r)`: `none` when no integer is matched,
otherwise the stored `long long`, clamped to its range as the C library does. -/
def sscanf_lld (s : CStr) : Option Int :=
  let p := scan_sign (s.dropWhile isspace)
  let ds := p.2.takeWhile isdigit
  if ds = [] then none
  else
    let m : Int := dec_value ds
    some (if p.1 then max (-m) (-(2 ^ 63)) else min m (2 ^ 63 - 1))

/-- The inner `switch` of `compare_command`: the `long long l` of an attribute of
an integer kind. -/
def compare_lvalue (value : HSAttributeValue) : Option Int :=
  match value with
  | .i v => some v
  | .u v => some (v : Int)
  | .custom_int g => some g
  | _ => none

/-- The table `eval` of `compare_command`. -/
def compare_table (l r : Int) : List (CStr × Bool) :=
  [ ("=".toList, decide (l = r)),
    ("!=".toList, decide (l ≠ r)),
    ("le".toList, decide (l ≤ r)),
    ("lt".toList, decide (l < r)),
    ("ge".toList, decide (l ≥ r)),
    ("gt".toList, decide (l > r)) ]

/-- The loop over `eval`: `result` starts as -1 and becomes `!eval[i].result`
for every entry whose name is `op`. -/
def compare_lookup (table : List (CStr × Bool)) (op : CStr) : Int :=
  table.foldl (fun result e => if e.1 = op then (if e.2 then 0 else 1) else result) (-1)

/-- The text `compare_command` writes for an operator it does not know. -/
def invalid_operator_message (kind op : CStr) : CStr :=
  "Invalid ".toList ++ kind ++ "operator ".toList ++ [dquote] ++ op ++ [dquote]

/-- The two operators `=` and `!=` on values that can only be tested for
equality: 0 for true, 1 for false, `none` for another operator. -/
def compare_equality (equals : Bool) (op : CStr) : Option Int :=
  if op = "=".toList then some (if equals then 0 else 1)
  else if op = "!=".toList then some (if equals then 1 else 0)
  else none

/-- `compare_command(argc, argv, output)`. -/
def compare_command (ext : Externals) (reg : Registry) (argv : List CStr) :
    Option CommandResult :=
  match argv with
  | _ :: path :: op :: rvalue :: _ =>
    match hsattribute_parse_path_verbose reg.objects path with
    | none => none
    | some (none, out) => some ⟨HERBST_INVALID_ARGUMENT, out, reg, []⟩
    | some (some (obj, idx), out) =>
      match reg.attribute obj idx with
      | none => none
      | some attr =>
        match attr.value with
        | .b l =>
          let r := ext.string_to_bool_error rvalue l
          if r.2 then
            some ⟨HERBST_INVALID_ARGUMENT,
              out ++ "Can not parse boolean from ".toList ++ [dquote] ++ rvalue
                ++ [dquote, newline], reg, []⟩
          else
            match compare_equality (decide (l = r.1)) op with
            | some status => some ⟨status, out, reg, []⟩
            | none =>
              some ⟨HERBST_INVALID_ARGUMENT,
                out ++ invalid_operator_message "boolean ".toList op, reg, []⟩
        | .color l =>
          match compare_equality (decide (l = ext.fromStr rvalue)) op with
          | some status => some ⟨status, out, reg, []⟩
          | none =>
            some ⟨HERBST_INVALID_ARGUMENT,
              out ++ invalid_operator_message "color ".toList op, reg, []⟩
        | .str l =>
          match compare_equality (decide (l = rvalue)) op with
          | some status => some ⟨status, out, reg, []⟩
          | none =>
            some ⟨HERBST_INVALID_ARGUMENT,
              out ++ invalid_operator_message "string ".toList op, reg, []⟩
        | .custom l =>
          match compare_equality (decide (l = rvalue)) op with
          | some status => some ⟨status, out, reg, []⟩
          | none =>
            some ⟨HERBST_INVALID_ARGUMENT,
              out ++ invalid_operator_message "string ".toList op, reg, []⟩
        | value =>
          match sscanf_lld rvalue with
          | none =>
            some ⟨HERBST_INVALID_ARGUMENT,
              out ++ "Can not parse integer from ".toList ++ [dquote] ++ rvalue
                ++ [dquote, newline], reg, []⟩
          | some r =>
            match compare_lvalue value with
            | none => some ⟨HERBST_UNKNOWN_ERROR, out, reg, []⟩
            | some l =>
              let result := compare_lookup (compare_table l r) op
              if result = -1 then
                some ⟨HERBST_INVALID_ARGUMENT, out ++ invalid_operator_message [] op, reg, []⟩
              else some ⟨result, out, reg, []⟩
  | _ => some ⟨HERBST_NEED_MORE_ARGS, [], reg, []⟩

/-! ## Linking objects -/

/-- `child_check_name` returning 0: the entry has that name. -/
def child_check_name (name : CStr) (oc : HSObjectChild) : Bool := decide (oc.name = name)

/-- `child_check_object` returning 0: the entry refers to that object. -/
def child_check_object (obj : Nat) (oc : HSObjectChild) : Bool := decide (oc.child = obj)

/-- Apply `change` to the first entry that `found` accepts: what the code does
through the pointer returned by `g_list_find_custom`. -/
def change_first (found : HSObjectChild → Bool) (change : HSObjectChild → HSObjectChild) :
    List HSObjectChild → List HSObjectChild
  | [] => []
  | oc :: rest =>
    if found oc then change oc :: rest else oc :: change_first found change rest

/-- `hsobject_link(parent, child, name)`. -/
def hsobject_link (parent : HSObject) (child : Nat) (name : CStr) : HSObject :=
  match parent.children.find? (child_check_name name) with
  | none => { parent with children := parent.children ++ [⟨name, child⟩] }
  | some _ =>
    { parent with
      children := change_first (child_check_name name) (fun oc => { oc with child := child })
        parent.children }

/-- The loop of `hsobject_unlink_helper`: every entry for which the compare
function returns 0 is destroyed and taken out of the list. -/
def hsobject_unlink_helper (f : HSObjectChild → Bool) :
    List HSObjectChild → List HSObjectChild
  | [] => []
  | oc :: rest =>
    if f oc then hsobject_unlink_helper f rest else oc :: hsobject_unlink_helper f rest

/-- `hsobject_unlink(parent, child)`. -/
def hsobject_unlink (parent : HSObject) (child : Nat) : HSObject :=
  { parent with children := hsobject_unlink_helper (child_check_object child) parent.children }

/-- `hsobject_unlink_by_name(parent, name)`. -/
def hsobject_unlink_by_name (parent : HSObject) (name : CStr) : HSObject :=
  { parent with children := hsobject_unlink_helper (child_check_name name) parent.children }

/-- `hsobject_link_rename(parent, oldname, newname)`; `none` when no child is
called `oldname` (the code then dereferences NULL). -/
def hsobject_link_rename (parent : HSObject) (oldname newname : CStr) : Option HSObject :=
  if oldname = newname then some parent
  else
    let unlinked := hsobject_unlink_by_name parent newname
    match unlinked.children.find? (child_check_name oldname) with
    | none => none
    | some _ =>
      some { unlinked with
        children := change_first (child_check_name oldname)
          (fun oc => { oc with name := newname }) unlinked.children }

/-- `hsobject_link_rename_object(parent, child, newname)`. -/
def hsobject_link_rename_object (parent : HSObject) (child : Nat) (newname : CStr) : HSObject :=
  hsobject_link (hsobject_unlink parent child) child newname

/-! ## Floating clients -/

/-- `Rectangle`: position and size in pixels.  The fields are C `int`s; their
arithmetic is modelled on the integers, overflow being undefined in C. -/
structure Rectangle where
  x : Int
  y : Int
  width : Int
  height : Int
  deriving DecidableEq, Repr

/-- The part of `Monitor` that `Client::resize_floating` reads: the rectangle
`rect` and the results of `pad_up()`, `pad_right()`, `pad_down()` and
`pad_left()`. -/
structure Monitor where
  rect : Rectangle
  pad_up : Int
  pad_right : Int
  pad_down : Int
  pad_left : Int
  deriving DecidableEq, Repr

/-- The macro `CLAMP(x, low, high)` of glib, which is not among the sources:
`(((x) > (high)) ? (high) : (((x) < (low)) ? (low) : (x)))`. -/
def CLAMP (x low high : Int) : Int :=
  if x > high then high else if x < low then low else x

/-- The part of `Client` that `Client::resize_floating` reads. -/
structure Client where
  float_size_ : Rectangle
  deriving DecidableEq, Repr

/-- `static int g_monitor_float_treshold = 24;`, which nothing assigns to. -/
def g_monitor_float_treshold : Int := 24

/-- `Client::resize_floating(m, isFocused)`: the rectangle handed to
`dec->resize_inner`, `none` when `m` is NULL and the function returns at once. -/
def Client.resize_floating (c : Client) (m : Option Monitor) : Option Rectangle :=
  match m with
  | none => none
  | some m =>
    let rect := c.float_size_
    let rect := { rect with x := rect.x + m.rect.x }
    let rect := { rect with x := rect.x + m.rect.y }
    let rect := { rect with x := rect.x + m.pad_left }
    let rect := { rect with y := rect.y + m.pad_up }
    let space := g_monitor_float_treshold
    let rect := { rect with
      x := CLAMP rect.x (m.rect.x + m.pad_left - rect.width + space)
        (m.rect.x + m.rect.width - m.pad_left - m.pad_right - space) }
    let rect := { rect with
      y := CLAMP rect.y (m.rect.y + m.pad_up - rect.height + space)
        (m.rect.y + m.rect.height - m.pad_up - m.pad_down - space) }
    some rect

/-! ## The decoration theme -/

set_option linter.dupNamespace false

/-- The three `DecorationScheme` members of a `DecTriple`. -/
inductive SchemeState where
  | normal | active | urgent
  deriving DecidableEq, Repr

/-- The `DecorationScheme` objects of a `Theme`.  The class declarations are in
`theme.h`, which is not among the sources: `Theme` is taken to be a `DecTriple`
(its constructor uses the members `active`, `normal` and `urgent`) that holds
the array `dec` of triples; a `DecTriple` is a `DecorationScheme` (its
constructor calls `makeProxyFor` on itself) with the members `normal`,
`active` and `urgent`. -/
inductive SchemeRef where
  | theme
  | theme_member (s : SchemeState)
  | dec (i : Nat)
  | dec_member (i : Nat) (s : SchemeState)
  deriving DecidableEq, Repr

/-- The members listed in `proxyAttributes_`, in the order of the constructor
`DecorationScheme::DecorationScheme`; an attribute of a scheme is given by
its index in this list. -/
def proxyAttributes_ : List CStr :=
  [ "border_width".toList, "border_color".toList, "tight_decoration".toList,
    "inner_color".toList, "inner_width".toList, "outer_color".toList, "outer_width".toList,
    "padding_top".toList, "padding_right".toList, "padding_bottom".toList,
    "padding_left".toList, "background_color".toList ]

/-- For every scheme and every index into `proxyAttributes_`: the proxy targets
registered for that attribute so far, in the order of registration. -/
abbrev ProxyTargets := SchemeRef → Nat → List SchemeRef

/-- Modelled from the spec: `Attribute::addProxyTarget` is declared in
`attribute.h`, which is not among the sources.  The spec calls the proxy set
"an ordered list of target Attributes" that is written "in registration
order": the target is added at the end of the list. -/
def addProxyTarget (tbl : ProxyTargets) (scheme : SchemeRef) (it : Nat) (target : SchemeRef) :
    ProxyTargets :=
  fun r k => if r = scheme ∧ k = it then tbl r k ++ [target] else tbl r k

/-- `DecorationScheme::makeProxyFor(decs)`, called on `scheme`. -/
def DecorationScheme.makeProxyFor (tbl : ProxyTargets) (scheme : SchemeRef)
    (decs : List SchemeRef) : ProxyTargets :=
  (List.range proxyAttributes_.length).foldl
    (fun tbl it => decs.foldl (fun tbl target => addProxyTarget tbl scheme it target) tbl) tbl

/-- `DecTriple::DecTriple()` for the triple `self` with the members `member`:
the constructors of the three members register no proxy target. -/
def DecTriple.DecTriple (tbl : ProxyTargets) (self : SchemeRef)
    (member : SchemeState → SchemeRef) : ProxyTargets :=
  DecorationScheme.makeProxyFor tbl self [member .normal, member .active, member .urgent]

/-- Modelled from the spec: the enum `Theme::Type` is declared in `theme.h`,
which is not among the sources; its values are taken in the order of
`type_names` (fullscreen, tiling, floating, minimal), by which the constructor
names `dec[i]`. -/
def Type_Tiling : Nat := 1

/-- Modelled from the spec: see `Type_Tiling`. -/
def Type_Floating : Nat := 2

/-- Modelled from the spec: see `Type_Tiling`. -/
def Type_Count : Nat := 4

/-- `Theme::Theme()`: the proxy targets of every scheme attribute once the
theme is built (base class and members first, then the constructor's body). -/
def Theme.Theme : ProxyTargets :=
  let tbl : ProxyTargets := fun _ _ => []
  let tbl := DecTriple.DecTriple tbl .theme .theme_member
  let tbl := (List.range Type_Count).foldl
    (fun tbl i => DecTriple.DecTriple tbl (.dec i) (.dec_member i)) tbl
  let t := Type_Tiling
  let f := Type_Floating
  let tbl := DecorationScheme.makeProxyFor tbl (.theme_member .active)
    [.dec_member t .active, .dec_member f .active]
  let tbl := DecorationScheme.makeProxyFor tbl (.theme_member .normal)
    [.dec_member t .normal, .dec_member f .normal]
  DecorationScheme.makeProxyFor tbl (.theme_member .urgent)
    [.dec_member t .urgent, .dec_member f .urgent]

/-- The value held by each scheme attribute that owns its storage. -/
abbrev SchemeValues (α : Type) := SchemeRef → Nat → α

/-- Modelled from the spec: the write of an attribute is in `attribute_.h`,
which is not among the sources.  By the spec an attribute either owns its
value or has a proxy set, and a write to a proxy "applies to every target in
registration order"; the target of attribute `it` is the attribute `it` of
the target scheme.  `fuel` bounds the depth of forwarding. -/
def proxy_write {α : Type} (tbl : ProxyTargets) :
    Nat → SchemeValues α → SchemeRef → Nat → α → SchemeValues α
  | 0, vals, _, _, _ => vals
  | fuel + 1, vals, scheme, it, v =>
    match tbl scheme it with
    | [] => fun r k => if r = scheme ∧ k = it then v else vals r k
    | target :: targets =>
      (target :: targets).foldl (fun vals target => proxy_write tbl fuel vals target it v) vals

/-- Modelled from the spec: the read of an attribute is in `attribute_.h`,
which is not among the sources.  By the spec the read of a proxy "returns the
first target's current value".  `none` when the fuel runs out. -/
def proxy_read {α : Type} (tbl : ProxyTargets) :
    Nat → SchemeValues α → SchemeRef → Nat → Option α
  | 0, _, _, _ => none
  | fuel + 1, vals, scheme, it =>
    match tbl scheme it with
    | [] => some (vals scheme it)
    | target :: _ => proxy_read tbl fuel vals target it

/-! ## Predicates used to state the properties -/

/-- The non-empty segments of a path: the path split at the separators, empty
pieces discarded. -/
def segments (path : CStr) : List CStr :=
  (path.splitOnP (fun c => c = OBJECT_PATH_SEPARATOR)).filter (fun seg => !seg.isEmpty)

/-- Names joined by the separator. -/
def join_path (names : List CStr) : CStr := [OBJECT_PATH_SEPARATOR].intercalate names

/-- Walking down from `obj` along a list of child names: the object reached,
the last name resolved (`lastname` when none) and the names left over from the
first one that is not a child.  `none` when an object address is invalid. -/
def resolve_segments (objs : Objects) : Nat → CStr → List CStr → Option (Nat × CStr × List CStr)
  | obj, lastname, [] => some (obj, lastname, [])
  | obj, lastname, seg :: rest =>
    match objs[obj]? with
    | none => none
    | some o =>
      match hsobject_find_child o seg with
      | none => some (obj, lastname, seg :: rest)
      | some child => resolve_segments objs child seg rest

/-- The text written for the names left over by `resolve_segments`. -/
def leftover_message (origpath lastname : CStr) : List CStr → CStr
  | [] => []
  | seg :: _ => invalid_path_message origpath seg lastname

/-- A chain of nodes below `start`: each entry gives a non-empty,
separator-free name and the node linked under that name in the node before. -/
def linked_chain (objs : Objects) : Nat → List (CStr × Nat) → Bool
  | _, [] => true
  | start, (name, child) :: rest =>
    (match objs[start]? with
      | some o => decide (hsobject_find_child o name = some child)
      | none => false) &&
    decide (name ≠ []) && decide (OBJECT_PATH_SEPARATOR ∉ name) && linked_chain objs child rest

/-- The last node of a chain (`start` for the empty chain). -/
def chain_end : Nat → List (CStr × Nat) → Nat
  | start, [] => start
  | _, e :: rest => chain_end e.2 rest

/-- Index `i` holds the first attribute of the list whose name is `name`. -/
def first_named (attrs : List HSAttribute) (name : CStr) (i : Nat) : Prop :=
  (∃ a, attrs[i]? = some a ∧ a.name = name) ∧
    ∀ j, j < i → ∀ a, attrs[j]? = some a → a.name ≠ name

/-- The five type names a user attribute can be requested with, each with its
kind and the text its initial value serializes to. -/
def requested_kind (type_str : CStr) : Option (HSAttributeType × CStr) :=
  if type_str = "bool".toList then some (.BOOL, "false".toList)
  else if type_str = "uint".toList then some (.UINT, "0".toList)
  else if type_str = "int".toList then some (.INT, "0".toList)
  else if type_str = "string".toList then some (.STRING, [])
  else if type_str = "color".toList then some (.COLOR, "#000000".toList)
  else none

/-- The serialized value of the attribute a path resolves to. -/
def serialized_at (reg : Registry) (path : CStr) : Option CStr :=
  match hsattribute_parse_path_verbose reg.objects path with
  | some (some (obj, idx), _) => (reg.attribute obj idx).bind (hsattribute_to_string reg.heap)
  | _ => none

/-- A format string given by its pieces: each piece is literal text followed by
the placeholder `%s`; `tail` is the literal text after the last placeholder.
A piece also carries the attribute path for its placeholder and a text. -/
def format_of (pieces : List (CStr × CStr × CStr)) (tail : CStr) : CStr :=
  pieces.foldr (fun p acc => p.1 ++ FORMAT_CHAR :: 's' :: acc) tail

/-- The format with each placeholder replaced by the text of its piece. -/
def filled_format (pieces : List (CStr × CStr × CStr)) (tail : CStr) : CStr :=
  pieces.foldr (fun p acc => p.1 ++ p.2.2 ++ acc) tail

/-- One token of a format string: a character other than the escape character,
the escape character doubled, or the placeholder `%s` together with the
attribute path it consumes and the text that path serializes to. -/
inductive FormatItem where
  | lit (c : Char)
  | percent
  | value (path text : CStr)
  deriving DecidableEq

/-- The characters of the format that make up a token. -/
def FormatItem.source : FormatItem → CStr
  | .lit c => [c]
  | .percent => [FORMAT_CHAR, FORMAT_CHAR]
  | .value _ _ => [FORMAT_CHAR, 's']

/-- The attribute paths a token consumes. -/
def FormatItem.paths : FormatItem → List CStr
  | .value path _ => [path]
  | _ => []

/-- A token is well formed for a registry: a literal character is not the
escape character and a placeholder's path serializes to its text. -/
def FormatItem.ok (reg : Registry) : FormatItem → Bool
  | .lit c => decide (c ≠ FORMAT_CHAR)
  | .percent => true
  | .value path text => decide (serialized_at reg path = some text)

/-- The format string made of a list of tokens. -/
def format_source : List FormatItem → CStr
  | [] => []
  | it :: rest => it.source ++ format_source rest

/-- The attribute paths a list of tokens consumes, in order. -/
def format_paths : List FormatItem → List CStr
  | [] => []
  | it :: rest => it.paths ++ format_paths rest

/-- The text `sprintf_command` appends to the replacement for a list of
tokens: a literal character, the two characters of the string `%%` for a
doubled escape character, the text of the attribute for a placeholder. -/
def format_result : List FormatItem → CStr
  | [] => []
  | .lit c :: rest => c :: format_result rest
  | .percent :: rest => "%%".toList ++ format_result rest
  | .value _ text :: rest => text ++ format_result rest

/-- What the specification says a list of tokens stands for: a literal
character for itself, the doubled escape character for one escape character, a
placeholder for the text of its attribute. -/
def format_meaning : List FormatItem → CStr
  | [] => []
  | .lit c :: rest => c :: format_meaning rest
  | .percent :: rest => FORMAT_CHAR :: format_meaning rest
  | .value _ text :: rest => text ++ format_meaning rest

/-- The number of escape characters the doubled escapes of a token list stand
for: one each. -/
def escape_count : List FormatItem → Nat
  | [] => 0
  | .percent :: rest => escape_count rest + 1
  | _ :: rest => escape_count rest

/-- The format continues with something that is not a directive: an escape
character at its very end, or one followed by a character other than `s` and
the escape character. -/
def bad_escape (rest : CStr) : Bool :=
  match rest with
  | [] => false
  | [c] => decide (c = FORMAT_CHAR)
  | c :: d :: _ => decide (c = FORMAT_CHAR) && decide (d ≠ FORMAT_CHAR) && decide (d ≠ 's')

/-- The relation an operator of `compare` names, on mathematical integers. -/
def named_relation (op : CStr) : Option (Int → Int → Bool) :=
  if op = "=".toList then some (fun l r => decide (l = r))
  else if op = "!=".toList then some (fun l r => decide (l ≠ r))
  else if op = "le".toList then some (fun l r => decide (l ≤ r))
  else if op = "lt".toList then some (fun l r => decide (l < r))
  else if op = "ge".toList then some (fun l r => decide (l ≥ r))
  else if op = "gt".toList then some (fun l r => decide (l > r))
  else none

/-- The lookup that `hsobject_find_child` makes, on a child list. -/
def find_in (children : List HSObjectChild) (name : CStr) : Option Nat :=
  (children.find? (fun oc => oc.name = name)).map (fun oc => oc.child)

/-- The names in the child list of an object, in link order. -/
def child_names (o : HSObject) : List CStr := o.children.map (fun oc => oc.name)

/-- One line of a listing for a child: the name followed by the separator. -/
def child_line (oc : HSObjectChild) : CStr :=
  "  ".toList ++ oc.name ++ [OBJECT_PATH_SEPARATOR] ++ [newline]

/-- One line of a listing for an attribute: the type indicator, `-` for a
read-only attribute and `w` otherwise, the name, and the serialized value, in
double quotes exactly for the type `HSATTR_TYPE_STRING`. -/
def attribute_line (heap : GHeap) (a : HSAttribute) : CStr :=
  let text := (hsattribute_to_string heap a).getD []
  " ".toList ++ [hsattribute_type_indicator a.type] ++ " ".toList
    ++ [if hsattribute_is_read_only a = some true then '-' else 'w'] ++ " ".toList
    ++ a.name ++ " = ".toList
    ++ (if a.type = .STRING then [dquote] ++ text ++ [dquote] else text) ++ [newline]

/-- The listing of an object as the specification describes it: the header
with the number of children, one line per child, an empty line when there are
children, the header with the number of attributes (with a legend when there
are attributes), and one line per attribute. -/
def listing_text (heap : GHeap) (o : HSObject) : CStr :=
  show_int o.children.length ++ " children".toList
    ++ (if o.children.isEmpty then ".".toList else ":".toList) ++ [newline]
    ++ (o.children.map child_line).flatten
    ++ (if o.children.isEmpty then [] else [newline])
    ++ show_int o.attributes.length ++ " attributes".toList
    ++ (if o.attributes.isEmpty then ".".toList ++ [newline]
        else ":".toList ++ [newline] ++ " .---- type".toList ++ [newline]
          ++ " | .-- writeable".toList ++ [newline] ++ " V V".toList ++ [newline])
    ++ (o.attributes.map (attribute_line heap)).flatten

/-- The digits `sscanf` finds after optional white space and an optional sign. -/
def leading_digits (s : CStr) : CStr := (scan_sign (s.dropWhile isspace)).2.takeWhile isdigit

/-- The string is, in its entirety, the decimal text of an integer: an optional
minus sign followed by one or more digits and nothing else. -/
def is_integer_text (s : CStr) : Bool :=
  match s with
  | [] => false
  | c :: cs => if c = '-' then !cs.isEmpty && cs.all isdigit else (c :: cs).all isdigit

/-! ## Sample data for concrete evaluation -/

/-- A stand-in for `Color::convert` in concrete evaluations: it accepts `#`
followed by six characters. -/
def sample_convert (s : CStr) : Option Color :=
  match s with
  | [] => none
  | c :: ds => if c = '#' ∧ ds.length = 6 then some ⟨dec_value ds⟩ else none

/-- A stand-in for `string_to_bool_error` in concrete evaluations: it knows
`true` and `false` and reports an error for anything else. -/
def sample_string_to_bool (s : CStr) (oldvalue : Bool) : Bool × Bool :=
  if s = "true".toList then (true, false)
  else if s = "false".toList then (false, false)
  else (oldvalue, true)

/-- The external parts used in concrete evaluations. -/
def sample_ext : Externals :=
  { string_to_bool_error := sample_string_to_bool
    convert := sample_convert
    fromStr := fun s => (sample_convert s).getD ⟨0⟩
    user_attribute_marker := "my_".toList
    tmp_object_path := "tmp".toList }

/-- A validator that rejects every change with the message `no`. -/
def reject_all : HSAttributeValue → Option CStr → Option CStr := fun _ _ => some "no".toList

/-- The integer attribute `gap = 5` of the spec's scenario, accepting every change. -/
def gap_attr : HSAttribute :=
  { name := "gap".toList, value := .i 5, unparsed_value := none,
    on_change := some ATTR_ACCEPT_ALL, change_custom := none,
    always_callback := false, user_attribute := false }

/-- The attribute `gap = 5` with a validator that rejects every change. -/
def guarded_gap_attr : HSAttribute := { gap_attr with on_change := some reject_all }

/-- A read-only string attribute. -/
def title_attr : HSAttribute :=
  { name := "title".toList, value := .str "xterm".toList, unparsed_value := none,
    on_change := none, change_custom := none, always_callback := false,
    user_attribute := false }

/-- A colour attribute whose unparsed text lives at address 0 of `color_heap`,
with a validator that rejects every change. -/
def guarded_color_attr : HSAttribute :=
  { name := "border_color".toList, value := .color ⟨0⟩, unparsed_value := some 0,
    on_change := some reject_all, change_custom := none, always_callback := false,
    user_attribute := false }

/-- String storage holding the unparsed text `#000000` at address 0. -/
def color_heap : GHeap := [some "#000000".toList]

/-- A string attribute holding `LG3D` on an object whose attributes were marked
by `hsobject_set_attributes_always_callback`. -/
def wmname_attr : HSAttribute :=
  { name := "wmname".toList, value := .str "LG3D".toList, unparsed_value := none,
    on_change := some ATTR_ACCEPT_ALL, change_custom := none, always_callback := true,
    user_attribute := false }

/-- A small registry: the root (address 0) has the children `tmp` (1) and
`settings` (2); `settings` has the attributes `gap` and `title` and a child
that is also called `gap` (3). -/
def sample_objects : Objects :=
  [ { attributes := [], children := [⟨"tmp".toList, 1⟩, ⟨"settings".toList, 2⟩] },
    { attributes := [], children := [] },
    { attributes := [gap_attr, title_attr], children := [⟨"gap".toList, 3⟩] },
    { attributes := [], children := [] } ]

/-- A registry in which the scratch object `tmp` (address 1) already holds a
user attribute `my_tmp1 = 5`. -/
def tmp_clash_registry : Registry :=
  { objects :=
      [ { attributes := [], children := [⟨"tmp".toList, 1⟩, ⟨"settings".toList, 2⟩] },
        { attributes := [{ name := "my_tmp1".toList, value := .i 5, unparsed_value := none,
                           on_change := some ATTR_ACCEPT_ALL, change_custom := none,
                           always_callback := false, user_attribute := true }],
          children := [] },
        { attributes := [gap_attr, title_attr], children := [⟨"gap".toList, 3⟩] },
        { attributes := [], children := [] } ],
    heap := [], tmp_object := 1, tmpcount := 0 }

/-- The sample registry: `sample_objects`, no strings, scratch object `tmp`. -/
def sample_registry : Registry :=
  { objects := sample_objects, heap := [], tmp_object := 1, tmpcount := 0 }

/-- The registry of the spec's scenario: `settings` (address 1) below the root,
with the integer attribute `gap = 7`. -/
def scenario_registry : Registry :=
  { objects :=
      [ { attributes := [], children := [⟨"settings".toList, 1⟩] },
        { attributes := [{ gap_attr with value := .i 7 }], children := [] } ],
    heap := [], tmp_object := 0, tmpcount := 0 }

/-- A monitor of 1920 by 1080 pixels at the position (0, 10), without padding. -/
def sample_monitor : Monitor :=
  { rect := ⟨0, 10, 1920, 1080⟩, pad_up := 0, pad_right := 0, pad_down := 0, pad_left := 0 }

/-- A client whose floating rectangle is 100 by 100 pixels at (5, 5). -/
def sample_client : Client := { float_size_ := ⟨5, 5, 100, 100⟩ }

/-- The colour attribute of `guarded_color_attr` with `always_callback` set. -/
def callback_color_attr : HSAttribute := { guarded_color_attr with always_callback := true }

/-- The string attribute `wmname` with a validator that rejects every change. -/
def guarded_wmname_attr : HSAttribute := { wmname_attr with on_change := some reject_all }

/-- A command dispatcher whose commands change nothing and return the number
of attributes called `my_tmp1` that the object at address 1 holds. -/
def probe_dispatcher : Dispatcher := fun _ _ _ reg =>
  (((reg.objects[1]?.map (fun o => o.attributes)).getD []).countP
      (fun a => a.name = "my_tmp1".toList), [], reg)

/-- The integer attribute `gap = 5` on an object whose attributes were marked by
`hsobject_set_attributes_always_callback`. -/
def callback_gap_attr : HSAttribute := { gap_attr with always_callback := true }

/-- A computed string attribute with a `change_custom` callback that refuses
the string `bad`. -/
def geometry_attr : HSAttribute :=
  { name := "geometry".toList, value := .custom "800x600".toList, unparsed_value := none,
    on_change := none,
    change_custom := some (fun s =>
      if s = "bad".toList then some ("bad geometry".toList ++ [newline]) else none),
    always_callback := false, user_attribute := false }

/-- A stand-in for `string_to_bool_error` that, besides `true` and `false`,
knows `toggle`: the opposite of the old value it is given. -/
def toggle_string_to_bool (s : CStr) (oldvalue : Bool) : Bool × Bool :=
  if s = "true".toList then (true, false)
  else if s = "false".toList then (false, false)
  else if s = "toggle".toList then (!oldvalue, false)
  else (oldvalue, true)

/-- The external parts with the boolean parser that knows `toggle`. -/
def toggle_ext : Externals := { sample_ext with string_to_bool_error := toggle_string_to_bool }

/-- A writeable bool attribute holding `false`. -/
def flag_attr : HSAttribute :=
  { name := "flag".toList, value := .b false, unparsed_value := none,
    on_change := some ATTR_ACCEPT_ALL, change_custom := none, always_callback := false,
    user_attribute := false }

/-- A command dispatcher whose commands do nothing and return 0. -/
def idle_dispatcher : Dispatcher := fun _ _ _ reg => (0, [], reg)

/-! # Theorems -/

/-! ## String storage -/

theorem GHeap.str_append_lt (h : GHeap) (x : Option CStr) (p : Nat) (hp : p < h.length) :
    GHeap.str (h ++ [x]) p = GHeap.str h p := by
  simp [GHeap.str, List.getElem?_append_left hp]

theorem GHeap.str_lt_of_isSome (h : GHeap) (p : Nat) (hp : (GHeap.str h p).isSome) :
    p < h.length := by
  by_contra hlt
  have : h[p]? = none := List.getElem?_eq_none (by omega)
  simp [GHeap.str, this] at hp

theorem GHeap.str_append_length (h : GHeap) (x : Option CStr) :
    GHeap.str (h ++ [x]) h.length = x := by
  simp [GHeap.str]

theorem g_string_free_fresh (h : GHeap) (s : CStr) :
    g_string_free (h ++ [some s]) h.length = some (h ++ [none]) := by
  simp [g_string_free, GHeap.str_append_length]

theorem g_string_free_live (h : GHeap) (p : Nat) (hp : (GHeap.str h p).isSome) :
    g_string_free h p = some (h.set p none) := by
  unfold g_string_free
  cases hs : GHeap.str h p with
  | none => simp [hs] at hp
  | some v => rfl

theorem g_string_free_append_live (h : GHeap) (x : Option CStr) (p : Nat)
    (hp : (GHeap.str h p).isSome) :
    g_string_free (h ++ [x]) p = some (h.set p none ++ [x]) := by
  have hlt := GHeap.str_lt_of_isSome h p hp
  have h1 : (GHeap.str (h ++ [x]) p).isSome := by rw [GHeap.str_append_lt h x p hlt]; exact hp
  rw [g_string_free_live _ _ h1, List.set_append_left _ _ hlt]

theorem toDigitsCore_acc (fuel n : Nat) (ds : List Char) :
    Nat.toDigitsCore 10 fuel n ds = Nat.toDigitsCore 10 fuel n [] ++ ds := by
  induction fuel generalizing n ds with
  | zero => simp [Nat.toDigitsCore]
  | succ k ih =>
    simp only [Nat.toDigitsCore]
    split
    · simp
    · rw [ih (n / 10) (_ :: ds), ih (n / 10) [_]]; simp

theorem digitChar_isdigit (d : Nat) (h : d < 10) :
    isdigit (Nat.digitChar d) = true ∧ (Nat.digitChar d).toNat - 48 = d := by
  interval_cases d <;> decide

theorem dec_value_append (l : CStr) (c : Char) :
    dec_value (l ++ [c]) = 10 * dec_value l + (c.toNat - 48) := by
  simp [dec_value, List.foldl_append]

theorem toDigitsCore_spec (fuel n : Nat) (h : n < fuel) :
    (∀ c ∈ Nat.toDigitsCore 10 fuel n [], isdigit c = true) ∧
      Nat.toDigitsCore 10 fuel n [] ≠ [] ∧ dec_value (Nat.toDigitsCore 10 fuel n []) = n := by
  induction fuel generalizing n with
  | zero => omega
  | succ k ih =>
    have hd := digitChar_isdigit (n % 10) (Nat.mod_lt _ (by decide))
    simp only [Nat.toDigitsCore]
    split
    · rename_i h0
      have hn : n % 10 = n := by omega
      rw [hn] at hd
      refine ⟨by simpa [hn] using hd.1, by simp, ?_⟩
      simp only [dec_value, List.foldl_cons, List.foldl_nil, hn, hd.2]; omega
    · rename_i h0
      have hlt : n / 10 < k := by omega
      obtain ⟨h1, h2, h3⟩ := ih (n / 10) hlt
      rw [toDigitsCore_acc]
      refine ⟨?_, by simp, ?_⟩
      · intro c hc
        rcases List.mem_append.mp hc with hc | hc
        · exact h1 c hc
        · simp only [List.mem_singleton] at hc; rw [hc]; exact hd.1
      · rw [dec_value_append, h3, hd.2]; omega

theorem toDigits_spec (n : Nat) :
    (∀ c ∈ Nat.toDigits 10 n, isdigit c = true) ∧ Nat.toDigits 10 n ≠ [] ∧
      dec_value (Nat.toDigits 10 n) = n :=
  toDigitsCore_spec (n + 1) n (Nat.lt_succ_self n)

theorem takeWhile_all {α : Type} (p : α → Bool) (l : List α) (h : ∀ c ∈ l, p c = true) :
    l.takeWhile p = l := by
  induction l with
  | nil => rfl
  | cons a t ih =>
    simp only [List.takeWhile, h a (List.mem_cons_self a t)]
    rw [ih (fun c hc => h c (List.mem_cons_of_mem a hc))]

theorem isdigit_not_space_sign (c : Char) (h : isdigit c = true) :
    isspace c = false ∧ c ≠ '-' ∧ c ≠ '+' := by
  simp only [isdigit, Bool.and_eq_true, decide_eq_true_eq] at h
  refine ⟨?_, ?_, ?_⟩
  · simp only [isspace, Bool.or_eq_false_iff, decide_eq_false_iff_not, Bool.and_eq_false_iff]
    omega
  · rintro rfl; simp at h
  · rintro rfl; simp at h

/-- Scanning the digits of a natural number. -/
theorem scan_toDigits (n : Nat) :
    scan_sign ((Nat.toDigits 10 n).dropWhile isspace) = (false, Nat.toDigits 10 n) ∧
    (Nat.toDigits 10 n).takeWhile isdigit = Nat.toDigits 10 n := by
  obtain ⟨h1, h2, -⟩ := toDigits_spec n
  refine ⟨?_, takeWhile_all _ _ h1⟩
  cases hl : Nat.toDigits 10 n with
  | nil => exact absurd hl h2
  | cons c t =>
    have hc : isdigit c = true := h1 c (by rw [hl]; exact List.mem_cons_self c t)
    obtain ⟨a, b, d⟩ := isdigit_not_space_sign c hc
    simp [List.dropWhile, a, scan_sign, b, d]

theorem sscanf_u_show (u : Nat) (h : u < 2 ^ 32) : sscanf_u (show_unsigned u) = some u := by
  obtain ⟨-, h2, h3⟩ := toDigits_spec u
  obtain ⟨s1, s2⟩ := scan_toDigits u
  simp only [sscanf_u, show_unsigned, s1, s2, if_neg h2, h3]
  have : ¬ (2 ^ 64 ≤ u) := by omega
  simp only [if_neg this, Bool.false_eq_true, if_false]
  congr 1; omega

theorem sscanf_d_show (v : Int) (hlo : -(2 ^ 31) ≤ v) (hhi : v < 2 ^ 31) :
    sscanf_d (show_int v) = some v := by
  obtain ⟨h1, h2, h3⟩ := toDigits_spec v.natAbs
  obtain ⟨s1, s2⟩ := scan_toDigits v.natAbs
  by_cases hneg : v < 0
  · have hsp : isspace '-' = false := by decide
    simp only [sscanf_d, show_int, if_pos hneg, List.dropWhile, hsp, scan_sign, if_true,
      s2, if_neg h2, h3]
    congr 1
    simp only [wrap_int32]
    omega
  · simp only [sscanf_d, show_int, if_neg hneg, s1, s2, if_neg h2, h3, Bool.false_eq_true,
      if_false]
    congr 1
    simp only [wrap_int32]
    omega

/-- The locals after the first switch when a new, different value was parsed. -/
theorem assign_store_changed (ext : Externals) (heap : GHeap) (attr : HSAttribute) (s : CStr)
    (v : HSAttributeValue)
    (hkind : attr.type = .BOOL ∨ attr.type = .INT ∨ attr.type = .UINT ∨ attr.type = .STRING)
    (hparse : parse_new_value ext attr.value s = some v) (hne : v ≠ attr.value) :
    assign_store ext heap attr s = some ⟨false, false, some attr.value, v, []⟩ := by
  obtain ⟨name, value, up, oc, cc, ac, ua⟩ := attr
  simp only at hparse hne ⊢
  cases value <;> simp only [HSAttribute.type, HSAttributeValue.type, reduceCtorEq, or_self,
    or_false, false_or] at hkind
  · simp only [assign_store, hparse, ATTR_DO_ASSIGN_COMPARE, if_neg (Ne.symm hne)]
  · simp only [assign_store, hparse, ATTR_DO_ASSIGN_COMPARE, if_neg (Ne.symm hne)]
  · simp only [assign_store, hparse, ATTR_DO_ASSIGN_COMPARE, if_neg (Ne.symm hne)]
  · rename_i w
    simp only [parse_new_value, Option.some.injEq] at hparse
    subst hparse
    have : s ≠ w := fun h => hne (by rw [h])
    simp only [assign_store, if_neg this]

theorem assign_unfold_validate (ext : Externals) (heap : GHeap) (attr : HSAttribute) (s : CStr)
    (st : Stored) (hw : hsattribute_is_read_only attr = some false)
    (hst : assign_store ext heap attr s = some st) (herr : st.error = false)
    (hntd : attr.always_callback = true ∨ st.nothing_to_do = false) :
    hsattribute_assign ext heap attr s = assign_validate heap attr s st := by
  simp only [hsattribute_assign, hw, hst, herr]
  rcases hntd with h | h <;> simp [h]

theorem parse_new_value_type (ext : Externals) (cur v : HSAttributeValue) (s : CStr)
    (h : parse_new_value ext cur s = some v) : v.type = cur.type := by
  cases cur <;> simp only [parse_new_value] at h
  · split at h
    · simp at h
    · simp only [Option.some.injEq] at h; subst h; rfl
  · cases hs : sscanf_d s <;> simp [hs] at h; subst h; rfl
  · cases hs : sscanf_u s <;> simp [hs] at h; subst h; rfl
  · simp only [Option.some.injEq] at h; subst h; rfl
  · cases hs : ext.convert s <;> simp [hs] at h; subst h; rfl
  · simp only [Option.some.injEq] at h; subst h; rfl
  · simp only [Option.some.injEq] at h; subst h; rfl

/-- Claim C1. For a writeable bool, int, uint or string attribute whose
`always_callback` flag is false and a value string that parses to a value
different from the current one: if `on_change` answers with a non-empty
message, `hsattribute_assign` returns invalid-argument and the stored value and
the text given by `hsattribute_to_string` are what they were before the call. -/
theorem assign_rejected_rollback (ext : Externals) (heap : GHeap) (attr : HSAttribute) (s : CStr)
    (f : HSAttributeValue → Option CStr → Option CStr) (v : HSAttributeValue) (msg : CStr)
    (hkind : attr.type = .BOOL ∨ attr.type = .INT ∨ attr.type = .UINT ∨ attr.type = .STRING)
    (hf : attr.on_change = some f)
    (hac : attr.always_callback = false)
    (hup : unparsed_ok heap attr = true)
    (hparse : parse_new_value ext attr.value s = some v) (hne : v ≠ attr.value)
    (hmsg : f v (seen_unparsed attr s) = some msg) (hlen : msg ≠ []) :
    ∃ r, hsattribute_assign ext heap attr s = some r ∧ r.status = HERBST_INVALID_ARGUMENT ∧
      r.attr.value = attr.value ∧
      hsattribute_to_string r.heap r.attr = hsattribute_to_string heap attr := by
  have hpos : 0 < msg.length := List.length_pos.mpr hlen
  have hw : hsattribute_is_read_only attr = some false := by
    rcases hkind with h | h | h | h <;> simp [hsattribute_is_read_only, h, hf]
  rw [assign_unfold_validate ext heap attr s _ hw
    (assign_store_changed ext heap attr s v hkind hparse hne) rfl (Or.inr rfl)]
  have hvt := parse_new_value_type ext attr.value v s hparse
  obtain ⟨name, value, up, oc, cc, ac, ua⟩ := attr
  simp only at hf hac hparse hne hvt
  subst hf hac
  clear hparse hw
  cases up with
  | none =>
    simp only [seen_unparsed, Option.map_none'] at hmsg
    cases value <;> simp only [HSAttribute.type, HSAttributeValue.type, reduceCtorEq, or_self,
      or_false, false_or] at hkind <;> cases v <;>
      simp only [HSAttributeValue.type, reduceCtorEq] at hvt <;>
    simp [assign_validate, ask_attribute, hmsg, is_rejection, hpos, assign_restore,
      assign_free, HSAttribute.type, HSAttributeValue.type, hsattribute_to_string]
  | some p =>
    simp only [seen_unparsed, Option.map_some'] at hmsg
    have hp : (GHeap.str heap p).isSome = true := by simpa [unparsed_ok] using hup
    have hlt := GHeap.str_lt_of_isSome heap p hp
    cases value <;> simp only [HSAttribute.type, HSAttributeValue.type, reduceCtorEq, or_self,
      or_false, false_or] at hkind <;> cases v <;>
      simp only [HSAttributeValue.type, reduceCtorEq] at hvt <;>
    simp [assign_validate, ask_attribute, g_string_new, GHeap.str_append_length, hmsg,
      is_rejection, hpos, assign_restore, g_string_free_fresh,
      assign_free, HSAttribute.type, HSAttributeValue.type, hsattribute_to_string,
      g_string_free_append_live heap none p hp]

theorem list_set_append_length {α : Type} (h : List α) (x y : α) :
    (h ++ [x]).set h.length y = h ++ [y] := by
  induction h with
  | nil => rfl
  | cons a t ih => simp [List.set, ih]

theorem g_string_assign_fresh (h : GHeap) (s t : CStr) :
    g_string_assign (h ++ [some s]) h.length t = some (h ++ [some t]) := by
  simp [g_string_assign, GHeap.str_append_length, list_set_append_length]

/-- The accepted path of the second half of `hsattribute_assign`. -/
theorem assign_validate_accept (heap : GHeap) (attr : HSAttribute) (s : CStr) (st : Stored)
    (f : HSAttributeValue → Option CStr → Option CStr)
    (hf : attr.on_change = some f)
    (hty : st.value.type = attr.type)
    (hacc : is_rejection (f st.value (seen_unparsed attr s)) = false)
    (hup : unparsed_ok heap attr = true)
    (hstr : attr.type = .STRING → st.old_value.isSome = true)
    (hcol : attr.type = .COLOR → attr.unparsed_value.isSome = true) :
    assign_validate heap attr s st = some
      ⟨0, { attr with value := st.value,
                      unparsed_value := attr.unparsed_value.map (fun _ => heap.length) },
        (match attr.unparsed_value with
          | none => heap
          | some p => heap.set p none ++ [some s]),
        st.output, [Call.on_change st.value (seen_unparsed attr s)]⟩ := by
  obtain ⟨name, value, up, oc, cc, ac, ua⟩ := attr
  obtain ⟨e, n, ov, sv, so⟩ := st
  simp only [HSAttribute.type] at hf hty hstr hcol
  subst hf
  cases up with
  | none =>
    simp only [seen_unparsed, Option.map_none'] at hacc
    cases value <;> cases sv <;> simp only [HSAttributeValue.type, reduceCtorEq] at hty <;>
      simp_all [assign_validate, ask_attribute, assign_free, HSAttribute.type,
        HSAttributeValue.type, seen_unparsed]
  | some p =>
    simp only [seen_unparsed, Option.map_some'] at hacc
    have hp : (GHeap.str heap p).isSome = true := by simpa [unparsed_ok] using hup
    cases value <;> cases sv <;> simp only [HSAttributeValue.type, reduceCtorEq] at hty <;>
      simp_all [assign_validate, ask_attribute, assign_free, HSAttribute.type,
        HSAttributeValue.type, seen_unparsed, g_string_new, GHeap.str_append_length,
        g_string_assign_fresh, g_string_free_append_live heap _ p hp]

theorem writeable_of_on_change (attr : HSAttribute)
    (f : HSAttributeValue → Option CStr → Option CStr) (hf : attr.on_change = some f)
    (hk : attr.type ≠ .CUSTOM ∧ attr.type ≠ .CUSTOM_INT) :
    hsattribute_is_read_only attr = some false := by
  simp [hsattribute_is_read_only, hf, hk.1, hk.2]

/-- Assigning a string that parses to the current value is a no-op. -/
theorem assign_noop (ext : Externals) (heap : GHeap) (attr : HSAttribute) (s : CStr)
    (f : HSAttributeValue → Option CStr → Option CStr)
    (hf : attr.on_change = some f) (hac : attr.always_callback = false)
    (hcur : ((attr.type = .BOOL ∨ attr.type = .INT ∨ attr.type = .UINT ∨ attr.type = .STRING) ∧
        parse_new_value ext attr.value s = some attr.value) ∨
      (attr.type = .COLOR ∧ (parse_new_value ext attr.value s).isSome = true ∧
        attr.unparsed_value.bind heap.str = some s)) :
    hsattribute_assign ext heap attr s = some ⟨0, attr, heap, [], []⟩ := by
  have hw : hsattribute_is_read_only attr = some false := by
    apply writeable_of_on_change attr f hf
    rcases hcur with ⟨h | h | h | h, -⟩ | ⟨h, -⟩ <;> simp [h]
  obtain ⟨name, value, up, oc, cc, ac, ua⟩ := attr
  simp only [HSAttribute.type] at hf hac hcur
  subst hf hac
  simp only [hsattribute_assign, hw]
  rcases hcur with ⟨hk, hp⟩ | ⟨hk, hp, hu⟩
  · cases value <;> simp only [HSAttributeValue.type, reduceCtorEq, or_self,
      or_false, false_or] at hk
    · simp [assign_store, hp, ATTR_DO_ASSIGN_COMPARE]
    · simp [assign_store, hp, ATTR_DO_ASSIGN_COMPARE]
    · simp [assign_store, hp, ATTR_DO_ASSIGN_COMPARE]
    · simp only [parse_new_value, Option.some.injEq, HSAttributeValue.str.injEq] at hp
      simp [assign_store, hp]
  · cases value <;> simp only [HSAttributeValue.type, reduceCtorEq] at hk
    rename_i c
    cases hq : parse_new_value ext (HSAttributeValue.color c) s with
    | none => simp [hq] at hp
    | some nc => simp [assign_store, hq, hu]

/-- What the first switch leaves when it neither fails nor finds nothing to do. -/
theorem assign_store_inv (ext : Externals) (heap : GHeap) (attr : HSAttribute) (s : CStr)
    (st : Stored) (hk : attr.type ≠ .CUSTOM ∧ attr.type ≠ .CUSTOM_INT)
    (hst : assign_store ext heap attr s = some st) :
    (st.error = true → parse_new_value ext attr.value s = none ∧ st.value = attr.value) ∧
    (st.error = false → st.nothing_to_do = true → st.value = attr.value ∧ st.output = []) ∧
    (st.error = false → st.nothing_to_do = false →
      parse_new_value ext attr.value s = some st.value ∧ st.old_value = some attr.value ∧
        st.output = []) := by
  obtain ⟨name, value, up, oc, cc, ac, ua⟩ := attr
  simp only [HSAttribute.type] at hk ⊢
  cases value <;> simp only [HSAttributeValue.type, ne_eq, not_true_eq_false, and_false,
    false_and] at hk
  · rename_i b
    simp only [assign_store, Option.some.injEq] at hst
    cases hp : parse_new_value ext (.b b) s with
    | none => rw [hp] at hst; subst hst; simp [ATTR_DO_ASSIGN_COMPARE]
    | some v =>
      rw [hp] at hst; subst hst
      by_cases hv : HSAttributeValue.b b = v
      · simp [ATTR_DO_ASSIGN_COMPARE, hv]
      · simp [ATTR_DO_ASSIGN_COMPARE, hv]
  · rename_i b
    simp only [assign_store, Option.some.injEq] at hst
    cases hp : parse_new_value ext (.i b) s with
    | none => rw [hp] at hst; subst hst; simp [ATTR_DO_ASSIGN_COMPARE]
    | some v =>
      rw [hp] at hst; subst hst
      by_cases hv : HSAttributeValue.i b = v
      · simp [ATTR_DO_ASSIGN_COMPARE, hv]
      · simp [ATTR_DO_ASSIGN_COMPARE, hv]
  · rename_i b
    simp only [assign_store, Option.some.injEq] at hst
    cases hp : parse_new_value ext (.u b) s with
    | none => rw [hp] at hst; subst hst; simp [ATTR_DO_ASSIGN_COMPARE]
    | some v =>
      rw [hp] at hst; subst hst
      by_cases hv : HSAttributeValue.u b = v
      · simp [ATTR_DO_ASSIGN_COMPARE, hv]
      · simp [ATTR_DO_ASSIGN_COMPARE, hv]
  · rename_i w
    simp only [assign_store] at hst
    by_cases hs : s = w
    · simp only [hs, if_true, Option.some.injEq] at hst; subst hst; simp
    · simp only [if_neg hs, Option.some.injEq] at hst; subst hst
      simp [parse_new_value, hs]
  · rename_i c
    simp only [assign_store] at hst
    cases hp : parse_new_value ext (.color c) s with
    | none => rw [hp] at hst; simp only [Option.some.injEq] at hst; subst hst; simp
    | some v =>
      rw [hp] at hst
      cases hu : up.bind heap.str with
      | none => simp [hu] at hst
      | some t =>
        simp only [hu] at hst
        by_cases hs : s = t
        · simp only [hs, if_true, Option.some.injEq] at hst; subst hst; simp
        · simp only [if_neg hs, Option.some.injEq] at hst; subst hst
          simp

theorem assign_validate_rejected_status (heap : GHeap) (attr : HSAttribute) (s : CStr)
    (st : Stored) (f : HSAttributeValue → Option CStr → Option CStr) (r : AssignResult)
    (hf : attr.on_change = some f)
    (hrej : is_rejection (f st.value (seen_unparsed attr s)) = true)
    (hr : assign_validate heap attr s st = some r) :
    r.status = HERBST_INVALID_ARGUMENT := by
  obtain ⟨name, value, up, oc, cc, ac, ua⟩ := attr
  simp only at hf
  subst hf
  cases up with
  | none =>
    simp only [seen_unparsed, Option.map_none'] at hrej
    simp only [assign_validate, ask_attribute, Option.bind_none, hrej, if_true] at hr
    split at hr
    · cases hr
    · rename_i h2 a2 e2 o2 hafter
      split at hr
      · cases hr
      · simp only [Option.some.injEq] at hr
        subst hr
        simp only [Option.none_bind, Option.some_bind, GHeap.str_append_length, hrej, if_true,
          Option.map_eq_some'] at hafter
        obtain ⟨x, -, hx⟩ := hafter
        simp only [Prod.mk.injEq] at hx
        exact hx.2.2.1.symm
  | some p =>
    simp only [seen_unparsed, Option.map_some'] at hrej
    simp only [assign_validate, ask_attribute, g_string_new, Option.bind_some,
      GHeap.str_append_length, hrej, if_true] at hr
    split at hr
    · cases hr
    · rename_i h2 a2 e2 o2 hafter
      split at hr
      · cases hr
      · simp only [Option.some.injEq] at hr
        subst hr
        simp only [Option.none_bind, Option.some_bind, GHeap.str_append_length, hrej, if_true,
          Option.map_eq_some'] at hafter
        obtain ⟨x, -, hx⟩ := hafter
        simp only [Prod.mk.injEq] at hx
        exact hx.2.2.1.symm

theorem invalid_argument_ne_zero : HERBST_INVALID_ARGUMENT ≠ 0 := by decide

theorem parse_new_value_same_kind (ext : Externals) (cur v : HSAttributeValue) (s : CStr)
    (hk : cur.type = .INT ∨ cur.type = .UINT ∨ cur.type = .STRING ∨ cur.type = .COLOR)
    (hv : v.type = cur.type) :
    parse_new_value ext v s = parse_new_value ext cur s := by
  cases cur <;> simp only [HSAttributeValue.type, reduceCtorEq, or_self, or_false, false_or]
    at hk <;> cases v <;> simp only [HSAttributeValue.type, reduceCtorEq] at hv <;> rfl

theorem color_unparsed_of_store (ext : Externals) (heap : GHeap) (attr : HSAttribute) (s : CStr)
    (st : Stored) (hc : attr.type = .COLOR) (hst : assign_store ext heap attr s = some st)
    (he : st.error = false) : attr.unparsed_value.isSome = true := by
  obtain ⟨name, value, up, oc, cc, ac, ua⟩ := attr
  cases value with
  | color c =>
    cases up with
    | some p => rfl
    | none =>
      simp only [assign_store] at hst
      cases hq : parse_new_value ext (.color c) s with
      | none => rw [hq] at hst; simp only [Option.some.injEq] at hst; subst hst; simp at he
      | some w => rw [hq] at hst; simp at hst
  | _ => simp [HSAttribute.type, HSAttributeValue.type] at hc

/-- After a successful assignment the same assignment is a no-op. -/
theorem assign_twice (ext : Externals) (heap : GHeap) (attr : HSAttribute) (s : CStr)
    (f : HSAttributeValue → Option CStr → Option CStr) (r1 : AssignResult)
    (hf : attr.on_change = some f) (hac : attr.always_callback = false)
    (hk : attr.type ≠ .CUSTOM ∧ attr.type ≠ .CUSTOM_INT)
    (hup : unparsed_ok heap attr = true)
    (h1 : hsattribute_assign ext heap attr s = some r1) (h0 : r1.status = 0)
    (hstable : ∀ b, r1.attr.value = .b b → parse_new_value ext (.b b) s = some (.b b)) :
    hsattribute_assign ext r1.heap r1.attr s = some ⟨0, r1.attr, r1.heap, [], []⟩ := by
  have hw := writeable_of_on_change attr f hf hk
  cases hst : assign_store ext heap attr s with
  | none => simp [hsattribute_assign, hw, hst] at h1
  | some st =>
    obtain ⟨i1, i2, i3⟩ := assign_store_inv ext heap attr s st hk hst
    by_cases he : st.error = true
    · simp only [hsattribute_assign, hw, hst, he, if_true, Option.some.injEq] at h1
      subst h1
      exact absurd h0 invalid_argument_ne_zero
    · have he : st.error = false := by simpa using he
      by_cases hn : st.nothing_to_do = true
      · obtain ⟨j1, j2⟩ := i2 he hn
        have hnoop : hsattribute_assign ext heap attr s = some ⟨0, attr, heap, [], []⟩ := by
          obtain ⟨name, value, up, oc, cc, ac, ua⟩ := attr
          simp only at hac j1
          subst hac
          simp only [hsattribute_assign, hw, hst, he, hn, j1, j2]
          simp
        rw [hnoop, Option.some.injEq] at h1
        subst h1
        exact hnoop
      · have hn : st.nothing_to_do = false := by simpa using hn
        obtain ⟨j1, j2, j3⟩ := i3 he hn
        have hty := parse_new_value_type ext attr.value st.value s j1
        rw [assign_unfold_validate ext heap attr s st hw hst he (Or.inr hn)] at h1
        by_cases hrej : is_rejection (f st.value (seen_unparsed attr s)) = true
        · exact absurd ((assign_validate_rejected_status heap attr s st f r1 hf hrej h1).symm.trans h0)
            invalid_argument_ne_zero
        · have hrej : is_rejection (f st.value (seen_unparsed attr s)) = false := by
            simpa using hrej
          have hcol : attr.type = .COLOR → attr.unparsed_value.isSome = true :=
            fun hc => color_unparsed_of_store ext heap attr s st hc hst he
          rw [assign_validate_accept heap attr s st f hf hty hrej hup
            (fun _ => by rw [j2]; rfl) hcol, Option.some.injEq] at h1
          subst h1
          simp only at hstable ⊢
          refine assign_noop ext _ _ s f ?_ ?_ ?_
          · exact hf
          · exact hac
          simp only [HSAttribute.type] at hk hty hcol ⊢
          rw [hty]
          cases hv : attr.value with
          | b x =>
            left
            rw [hv] at hty
            refine ⟨Or.inl rfl, ?_⟩
            cases hsv : st.value <;> simp only [hsv, HSAttributeValue.type, reduceCtorEq] at hty
            exact hstable _ hsv
          | i x =>
            left
            refine ⟨Or.inr (Or.inl rfl), ?_⟩
            rw [parse_new_value_same_kind ext attr.value st.value s (by rw [hv]; simp [HSAttributeValue.type]) hty, j1]
          | u x =>
            left
            refine ⟨Or.inr (Or.inr (Or.inl rfl)), ?_⟩
            rw [parse_new_value_same_kind ext attr.value st.value s (by rw [hv]; simp [HSAttributeValue.type]) hty, j1]
          | str x =>
            left
            refine ⟨Or.inr (Or.inr (Or.inr rfl)), ?_⟩
            rw [parse_new_value_same_kind ext attr.value st.value s (by rw [hv]; simp [HSAttributeValue.type]) hty, j1]
          | color x =>
            right
            refine ⟨rfl, ?_, ?_⟩
            · rw [parse_new_value_same_kind ext attr.value st.value s (by rw [hv]; simp [HSAttributeValue.type]) hty, j1]; rfl
            · have := hcol (by rw [hv]; rfl)
              cases hu : attr.unparsed_value with
              | none => simp [hu] at this
              | some p =>
                have hl : (heap.set p none).length = heap.length := by simp
                simp only [Option.map_some', Option.some_bind]
                rw [← hl, GHeap.str_append_length]
          | custom x => simp [hv, HSAttributeValue.type] at hk
          | custom_int x => simp [hv, HSAttributeValue.type] at hk


/-- The text a read returns for a stored value; a colour attribute shows the
unparsed text `unparsed`. -/
theorem to_string_of_value (heap : GHeap) (attr : HSAttribute) :
    hsattribute_to_string heap attr =
      match attr.value with
      | .b v => some (if v then "true".toList else "false".toList)
      | .i v => some (show_int v)
      | .u v => some (show_unsigned v)
      | .str v => some v
      | .color _ => attr.unparsed_value.bind heap.str
      | .custom g => some g
      | .custom_int g => some (show_int g) := rfl

/-- An accepted assignment returns 0 and stores the new value, except in the one
case where `old_value` is used unwritten: a string attribute with
`always_callback` set that is assigned the string it holds. -/
theorem assign_accepted (ext : Externals) (heap : GHeap) (attr : HSAttribute) (s : CStr)
    (f : HSAttributeValue → Option CStr → Option CStr) (st : Stored)
    (hf : attr.on_change = some f)
    (hk : attr.type ≠ .CUSTOM ∧ attr.type ≠ .CUSTOM_INT)
    (hup : unparsed_ok heap attr = true)
    (hst : assign_store ext heap attr s = some st) (herr : st.error = false)
    (hacc : is_rejection (f st.value (seen_unparsed attr s)) = false)
    (hsafe : attr.type = .STRING → attr.always_callback = true → st.nothing_to_do = false) :
    ∃ r, hsattribute_assign ext heap attr s = some r ∧ r.status = 0 ∧
      r.attr.value = st.value ∧
      (attr.type = .COLOR → hsattribute_to_string r.heap r.attr = some s) := by
  have hw := writeable_of_on_change attr f hf hk
  obtain ⟨-, i2, i3⟩ := assign_store_inv ext heap attr s st hk hst
  have hcol := fun hc => color_unparsed_of_store ext heap attr s st hc hst herr
  by_cases hv : attr.always_callback = false ∧ st.nothing_to_do = true
  · obtain ⟨hac, hn⟩ := hv
    refine ⟨⟨0, { attr with value := st.value }, heap, st.output, []⟩, ?_, rfl, rfl, ?_⟩
    · simp [hsattribute_assign, hw, hst, herr, hac, hn]
    · intro hc
      obtain ⟨name, value, up, oc, cc, ac, ua⟩ := attr
      cases value <;> simp only [HSAttribute.type, HSAttributeValue.type, reduceCtorEq] at hc
      rename_i c
      simp only [assign_store] at hst
      cases hq : parse_new_value ext (.color c) s with
      | none => rw [hq] at hst; simp only [Option.some.injEq] at hst; subst hst; simp at herr
      | some w =>
        rw [hq] at hst
        cases hu : up.bind heap.str with
        | none => simp [hu] at hst
        | some t =>
          simp only [hu] at hst
          by_cases hs : s = t
          · subst hs
            simp only [if_true, Option.some.injEq] at hst
            subst hst
            simpa [hsattribute_to_string] using hu
          · simp only [if_neg hs, Option.some.injEq] at hst
            subst hst
            simp at hn
  · have hor : attr.always_callback = true ∨ st.nothing_to_do = false := by
      cases h1 : attr.always_callback <;> cases h2 : st.nothing_to_do <;> simp_all
    have hty : st.value.type = attr.type := by
      cases hn : st.nothing_to_do with
      | true => rw [(i2 herr hn).1]; rfl
      | false => exact parse_new_value_type ext attr.value st.value s (i3 herr hn).1
    have hstr : attr.type = .STRING → st.old_value.isSome = true := by
      intro h
      cases hn : st.nothing_to_do with
      | false => rw [(i3 herr hn).2.1]; rfl
      | true =>
        rcases hor with h1 | h1
        · rw [hsafe h h1] at hn; cases hn
        · rw [h1] at hn; cases hn
    rw [assign_unfold_validate ext heap attr s st hw hst herr hor,
      assign_validate_accept heap attr s st f hf hty hacc hup hstr hcol]
    refine ⟨_, rfl, rfl, rfl, ?_⟩
    intro hc
    have := hcol hc
    cases hu : attr.unparsed_value with
    | none => simp [hu] at this
    | some p =>
      have hl : (heap.set p none).length = heap.length := by simp
      have hv : ∃ c, st.value = .color c := by
        rw [← hty] at hc
        cases hsv : st.value <;> simp [hsv, HSAttributeValue.type] at hc
        exact ⟨_, rfl⟩
      obtain ⟨c, hv⟩ := hv
      simp only [to_string_of_value, hv, Option.map_some', Option.some_bind]
      rw [← hl, GHeap.str_append_length]

/-! ## Assignment: the claims -/

/-- Claim C3. For a read-only attribute (a non-computed kind without `on_change`,
or a computed kind without `change_custom`) and any value string,
`hsattribute_assign` returns the forbidden status, calls no validator and
leaves the attribute, the string storage and the serialized form unchanged. -/
theorem assign_read_only (ext : Externals) (heap : GHeap) (attr : HSAttribute) (s : CStr)
    (hro : (attr.type ≠ .CUSTOM ∧ attr.type ≠ .CUSTOM_INT ∧ attr.on_change = none) ∨
      ((attr.type = .CUSTOM ∨ attr.type = .CUSTOM_INT) ∧ attr.change_custom = none ∧
        attr.on_change = none)) :
    ∃ r, hsattribute_assign ext heap attr s = some r ∧ r.status = HERBST_FORBIDDEN ∧
      r.calls = [] ∧ r.attr = attr ∧ r.heap = heap ∧
      hsattribute_to_string r.heap r.attr = hsattribute_to_string heap attr := by
  have h : hsattribute_is_read_only attr = some true := by
    rcases hro with ⟨h1, h2, h3⟩ | ⟨h1 | h1, h2, h3⟩ <;>
      simp [hsattribute_is_read_only, h1, h2, h3]
  refine ⟨_, by simp only [hsattribute_assign, h]; rfl, rfl, rfl, rfl, rfl, rfl⟩

/-- A value string that does not parse leaves everything as it was. -/
theorem assign_unparsable (ext : Externals) (heap : GHeap) (attr : HSAttribute) (s : CStr)
    (hw : hsattribute_is_read_only attr = some false)
    (hparse : parse_new_value ext attr.value s = none) :
    ∃ r, hsattribute_assign ext heap attr s = some r ∧ r.status = HERBST_INVALID_ARGUMENT ∧
      r.calls = [] ∧ r.attr = attr ∧ r.heap = heap := by
  obtain ⟨name, value, up, oc, cc, ac, ua⟩ := attr
  cases value <;>
    simp_all [hsattribute_assign, assign_store, ATTR_DO_ASSIGN_COMPARE, parse_new_value]

/-- Claim C5. When the value string does not parse for the attribute's kind,
`hsattribute_assign` returns invalid-argument, calls no validator and leaves
the attribute, the string storage and the serialized form unchanged. -/
theorem assign_parse_error (ext : Externals) (heap : GHeap) (attr : HSAttribute) (s : CStr)
    (hw : hsattribute_is_read_only attr = some false)
    (hparse : parse_new_value ext attr.value s = none) :
    ∃ r, hsattribute_assign ext heap attr s = some r ∧ r.status = HERBST_INVALID_ARGUMENT ∧
      r.calls = [] ∧ r.attr = attr ∧ r.heap = heap ∧
      hsattribute_to_string r.heap r.attr = hsattribute_to_string heap attr := by
  obtain ⟨r, h1, h2, h3, h4, h5⟩ := assign_unparsable ext heap attr s hw hparse
  exact ⟨r, h1, h2, h3, h4, h5, by rw [h4, h5]⟩

/-- Witness for claim C1: `gap = 5` with a rejecting validator, assigned `7`. -/
theorem assign_rejected_rollback_witness :
    ∃ r, hsattribute_assign sample_ext [] guarded_gap_attr "7".toList = some r ∧
      r.status = HERBST_INVALID_ARGUMENT ∧ r.attr.value = guarded_gap_attr.value ∧
      hsattribute_to_string r.heap r.attr = hsattribute_to_string [] guarded_gap_attr :=
  assign_rejected_rollback sample_ext [] guarded_gap_attr "7".toList reject_all (.i 7)
    "no".toList (Or.inr (Or.inl rfl)) rfl rfl rfl (by decide) (by decide) rfl (by decide)

/-- Claim C2, evaluated on the code: a colour attribute holds the unparsed text
`#000000`; the valid colour `#ff0000` is assigned and the validator rejects it.
The stored colour is restored, but the old unparsed string is first overwritten
and then released, so `unparsed_value` is left dangling and a read no longer
yields the text from before the call. -/
theorem color_rollback_releases_unparsed :
    hsattribute_to_string color_heap guarded_color_attr = some "#000000".toList ∧
    (sample_ext.convert "#ff0000".toList).isSome = true ∧
    ∃ r, hsattribute_assign sample_ext color_heap guarded_color_attr "#ff0000".toList = some r ∧
      r.status = HERBST_INVALID_ARGUMENT ∧
      r.attr.value = .color ⟨0⟩ ∧
      r.attr.unparsed_value = some 0 ∧
      r.heap.str 0 = none ∧
      hsattribute_to_string r.heap r.attr = none := by
  refine ⟨by decide, by decide, _, rfl, ?_, ?_, ?_, ?_, ?_⟩ <;> decide

/-- Witness for claim C3: assigning to the read-only attribute `title`. -/
theorem assign_read_only_witness :
    ∃ r, hsattribute_assign sample_ext [] title_attr "urxvt".toList = some r ∧
      r.status = HERBST_FORBIDDEN ∧ r.calls = [] ∧ r.attr = title_attr ∧ r.heap = [] ∧
      hsattribute_to_string r.heap r.attr = hsattribute_to_string [] title_attr :=
  assign_read_only sample_ext [] title_attr "urxvt".toList (Or.inl ⟨by decide, by decide, rfl⟩)

/-- Witness for claim C5: assigning `abc` to the integer attribute `gap`. -/
theorem assign_parse_error_witness :
    ∃ r, hsattribute_assign sample_ext [] gap_attr "abc".toList = some r ∧
      r.status = HERBST_INVALID_ARGUMENT ∧ r.calls = [] ∧ r.attr = gap_attr ∧ r.heap = [] ∧
      hsattribute_to_string r.heap r.attr = hsattribute_to_string [] gap_attr :=
  assign_parse_error sample_ext [] gap_attr "abc".toList (by decide) (by decide)

theorem takeWhile_append_stop {α : Type} (p : α → Bool) (l r : List α)
    (hl : ∀ c ∈ l, p c = true) (hr : ∀ c, r.head? = some c → p c = false) :
    (l ++ r).takeWhile p = l := by
  induction l with
  | nil =>
    cases r with
    | nil => rfl
    | cons a t => simp [List.takeWhile, hr a rfl]
  | cons a t ih =>
    have := ih (fun c hc => hl c (List.mem_cons_of_mem a hc))
    simp [List.takeWhile, hl a (List.mem_cons_self a t), this]

/-- Scanning the digits of a natural number followed by other text. -/
theorem scan_toDigits_append (n : Nat) (rest : CStr)
    (hr : ∀ c, rest.head? = some c → isdigit c = false) :
    scan_sign ((Nat.toDigits 10 n ++ rest).dropWhile isspace) = (false, Nat.toDigits 10 n ++ rest) ∧
    (Nat.toDigits 10 n ++ rest).takeWhile isdigit = Nat.toDigits 10 n := by
  obtain ⟨h1, h2, -⟩ := toDigits_spec n
  refine ⟨?_, takeWhile_append_stop _ _ _ h1 hr⟩
  cases hl : Nat.toDigits 10 n with
  | nil => exact absurd hl h2
  | cons c t =>
    have hc : isdigit c = true := h1 c (by rw [hl]; exact List.mem_cons_self c t)
    obtain ⟨a, b, d⟩ := isdigit_not_space_sign c hc
    simp [List.dropWhile, a, scan_sign, b, d]

theorem sscanf_d_show_append (v : Int) (rest : CStr) (hlo : -(2 ^ 31) ≤ v) (hhi : v < 2 ^ 31)
    (hr : ∀ c, rest.head? = some c → isdigit c = false) :
    sscanf_d (show_int v ++ rest) = some v := by
  obtain ⟨h1, h2, h3⟩ := toDigits_spec v.natAbs
  obtain ⟨s1, s2⟩ := scan_toDigits_append v.natAbs rest hr
  by_cases hneg : v < 0
  · have hsp : isspace '-' = false := by decide
    simp only [sscanf_d, show_int, if_pos hneg, List.cons_append, List.dropWhile, hsp, scan_sign,
      if_true, s2, if_neg h2, h3]
    congr 1
    simp only [wrap_int32]
    omega
  · simp only [sscanf_d, show_int, if_neg hneg, s1, s2, if_neg h2, h3, Bool.false_eq_true,
      if_false]
    congr 1
    simp only [wrap_int32]
    omega

/-- Counterexample to claim C4: with a boolean parser that knows `toggle`, the
bool attribute `flag = false` is assigned `toggle` twice.  Both assignments
return 0 and both call the validator; the first leaves `true`, the second
`false`, which is not the state the first one left. -/
theorem toggle_twice_is_not_once :
    ∃ r1 r2, hsattribute_assign toggle_ext [] flag_attr "toggle".toList = some r1 ∧
      r1.status = 0 ∧ r1.attr.value = .b true ∧ r1.calls = [Call.on_change (.b true) none] ∧
      hsattribute_assign toggle_ext r1.heap r1.attr "toggle".toList = some r2 ∧
      r2.status = 0 ∧ r2.attr.value = .b false ∧ r2.calls = [Call.on_change (.b false) none] ∧
      r2.attr.value ≠ r1.attr.value :=
  ⟨_, _, rfl, rfl, rfl, rfl, rfl, rfl, rfl, rfl, by decide⟩

/-- Claim C4, amended. For a writeable attribute of a non-computed kind with
`always_callback` false: assigning a string that parses to the current value
(for a colour attribute: a string that `Color::convert` accepts and that is
equal to the stored unparsed text) returns 0, calls no validator and changes
nothing; and after a successful assignment, the same assignment again returns
0 without calling the validator and leaves the state as the first one left
it, provided, for a bool attribute, that the string parses to the value just
stored when the parser is given that value. -/
theorem assign_current_value_is_noop (ext : Externals) (heap : GHeap) (attr : HSAttribute)
    (s : CStr) (f : HSAttributeValue → Option CStr → Option CStr)
    (hf : attr.on_change = some f) (hac : attr.always_callback = false)
    (hk : attr.type ≠ .CUSTOM ∧ attr.type ≠ .CUSTOM_INT)
    (hup : unparsed_ok heap attr = true) :
    ((((attr.type = .BOOL ∨ attr.type = .INT ∨ attr.type = .UINT ∨ attr.type = .STRING) ∧
          parse_new_value ext attr.value s = some attr.value) ∨
        (attr.type = .COLOR ∧ (parse_new_value ext attr.value s).isSome = true ∧
          attr.unparsed_value.bind heap.str = some s)) →
      hsattribute_assign ext heap attr s = some ⟨0, attr, heap, [], []⟩) ∧
    (∀ r1, hsattribute_assign ext heap attr s = some r1 → r1.status = 0 →
      (∀ b, r1.attr.value = .b b → parse_new_value ext (.b b) s = some (.b b)) →
      hsattribute_assign ext r1.heap r1.attr s = some ⟨0, r1.attr, r1.heap, [], []⟩) :=
  ⟨fun hcur => assign_noop ext heap attr s f hf hac hcur,
   fun r1 h1 h0 hst => assign_twice ext heap attr s f r1 hf hac hk hup h1 h0 hst⟩

/-- Witness for the amended claim C4: `gap = 5` assigned `5`, `gap` assigned `7`
twice, and `flag = false` assigned `true` twice. -/
theorem assign_current_value_is_noop_witness :
    hsattribute_assign sample_ext [] gap_attr "5".toList = some ⟨0, gap_attr, [], [], []⟩ ∧
    (∃ r1, hsattribute_assign sample_ext [] gap_attr "7".toList = some r1 ∧
      r1.attr.value = .i 7 ∧ r1.calls = [Call.on_change (.i 7) none] ∧
      hsattribute_assign sample_ext r1.heap r1.attr "7".toList =
        some ⟨0, r1.attr, r1.heap, [], []⟩) ∧
    (∃ r1, hsattribute_assign toggle_ext [] flag_attr "true".toList = some r1 ∧
      r1.attr.value = .b true ∧ r1.calls = [Call.on_change (.b true) none] ∧
      hsattribute_assign toggle_ext r1.heap r1.attr "true".toList =
        some ⟨0, r1.attr, r1.heap, [], []⟩) :=
  ⟨(assign_current_value_is_noop sample_ext [] gap_attr "5".toList ATTR_ACCEPT_ALL rfl rfl
      (by decide) rfl).1 (Or.inl ⟨Or.inr (Or.inl rfl), by decide⟩),
   ⟨_, rfl, rfl, rfl,
    (assign_current_value_is_noop sample_ext [] gap_attr "7".toList ATTR_ACCEPT_ALL rfl rfl
      (by decide) rfl).2 _ rfl rfl (fun b hb => by cases hb)⟩,
   ⟨_, rfl, rfl, rfl,
    (assign_current_value_is_noop toggle_ext [] flag_attr "true".toList ATTR_ACCEPT_ALL rfl rfl
      (by decide) rfl).2 _ rfl rfl (fun b hb => by
        have hb' : b = true := by
          have : HSAttributeValue.b true = HSAttributeValue.b b := hb
          exact (HSAttributeValue.b.inj this).symm
        subst hb'
        decide)⟩⟩

/-- Claim C6, evaluated on the code: a writeable string attribute with
`always_callback` set holds `LG3D` and is assigned `LG3D`; the string parses and
the validator accepts, but the first switch leaves `old_value` unwritten and
the release of `old_value.str` is undefined, so no status 0 is guaranteed. -/
theorem assign_same_string_always_callback_undefined :
    hsattribute_is_read_only wmname_attr = some false ∧
    parse_new_value sample_ext wmname_attr.value "LG3D".toList = some (.str "LG3D".toList) ∧
    is_rejection (ATTR_ACCEPT_ALL (.str "LG3D".toList) none) = false ∧
    (assign_store sample_ext [] wmname_attr "LG3D".toList).map (fun st => st.old_value)
      = some none ∧
    hsattribute_assign sample_ext [] wmname_attr "LG3D".toList = none := by
  refine ⟨by decide, by decide, by decide, by decide, rfl⟩

/-- Counterexample to claim C7: `7abc` and `7 8` are not, in their entirety, the
decimal text of an integer, yet assigning them to the integer attribute `gap`
returns 0 and stores 7. -/
theorem int_assign_accepts_trailing_text :
    is_integer_text "7abc".toList = false ∧ is_integer_text "7 8".toList = false ∧
    (∃ r, hsattribute_assign sample_ext [] gap_attr "7abc".toList = some r ∧
      r.status = 0 ∧ r.attr.value = .i 7) ∧
    (∃ r, hsattribute_assign sample_ext [] gap_attr "7 8".toList = some r ∧
      r.status = 0 ∧ r.attr.value = .i 7) := by
  refine ⟨by decide, by decide, ⟨_, rfl, rfl, rfl⟩, ⟨_, rfl, rfl, rfl⟩⟩

/-- A string from which `sscanf` with `%d` reads `v` is accepted by a writeable
int attribute: status 0 and value `v` when the validator accepts. -/
theorem int_assign_accepts_parsed (ext : Externals) (heap : GHeap) (attr : HSAttribute)
    (s : CStr) (cur v : Int) (f : HSAttributeValue → Option CStr → Option CStr)
    (hv : attr.value = .i cur) (hf : attr.on_change = some f)
    (hup : unparsed_ok heap attr = true)
    (hp : parse_new_value ext attr.value s = some (.i v))
    (hacc : is_rejection (f (.i v) (seen_unparsed attr s)) = false) :
    ∃ r, hsattribute_assign ext heap attr s = some r ∧ r.status = 0 ∧ r.attr.value = .i v := by
  have hk : attr.type ≠ .CUSTOM ∧ attr.type ≠ .CUSTOM_INT := by
    simp [HSAttribute.type, hv, HSAttributeValue.type]
  have hw := writeable_of_on_change attr f hf hk
  have hst : assign_store ext heap attr s =
      some (ATTR_DO_ASSIGN_COMPARE "integer".toList (some (.i v)) (.i cur)) := by
    rw [hv] at hp
    obtain ⟨name, value, up, oc, cc, ac, ua⟩ := attr
    simp only at hv
    subst hv
    simp only [assign_store, hp]
  by_cases hc : cur = v
  · subst hc
    have hst2 : assign_store ext heap attr s = some ⟨false, true, some (.i cur), .i cur, []⟩ := by
      rw [hst]; simp [ATTR_DO_ASSIGN_COMPARE]
    cases hac : attr.always_callback with
    | false =>
      refine ⟨⟨0, { attr with value := .i cur }, heap, [], []⟩, ?_, rfl, rfl⟩
      simp [hsattribute_assign, hw, hst2, hac]
    | true =>
      rw [assign_unfold_validate ext heap attr s _ hw hst2 rfl (Or.inl hac),
        assign_validate_accept heap attr s _ f hf (by simp [HSAttribute.type, hv]) hacc hup
          (by simp [HSAttribute.type, hv, HSAttributeValue.type])
          (by simp [HSAttribute.type, hv, HSAttributeValue.type])]
      exact ⟨_, rfl, rfl, rfl⟩
  · have hst2 : assign_store ext heap attr s = some ⟨false, false, some (.i cur), .i v, []⟩ := by
      rw [hst]; simp [ATTR_DO_ASSIGN_COMPARE, hc]
    rw [assign_unfold_validate ext heap attr s _ hw hst2 rfl (Or.inr rfl),
      assign_validate_accept heap attr s _ f hf
        (by simp [HSAttribute.type, hv, HSAttributeValue.type]) hacc hup
        (by simp [HSAttribute.type, hv, HSAttributeValue.type])
        (by simp [HSAttribute.type, hv, HSAttributeValue.type])]
    exact ⟨_, rfl, rfl, rfl⟩

/-- Claim C7, amended. For a writeable int attribute, `hsattribute_assign` returns
invalid-argument and changes nothing when no digit follows the optional white
space and sign at the start of the string.  Every other string is accepted
whatever follows its digits: it returns 0 when the validator accepts, and the
value stored is the one `sscanf` reads.  When the string starts with the
decimal text of an integer `v` of the 32-bit range, followed by anything that
does not begin with a digit, the value stored is `v`. -/
theorem int_assign_parses_leading_integer (ext : Externals) (heap : GHeap) (attr : HSAttribute)
    (s : CStr) (cur : Int) (f : HSAttributeValue → Option CStr → Option CStr)
    (hv : attr.value = .i cur) (hf : attr.on_change = some f)
    (hup : unparsed_ok heap attr = true) :
    (leading_digits s = [] →
      ∃ r, hsattribute_assign ext heap attr s = some r ∧ r.status = HERBST_INVALID_ARGUMENT ∧
        r.calls = [] ∧ r.attr = attr ∧ r.heap = heap) ∧
    (leading_digits s ≠ [] →
      ∃ v, sscanf_d s = some v ∧
        (is_rejection (f (.i v) (seen_unparsed attr s)) = false →
          ∃ r, hsattribute_assign ext heap attr s = some r ∧ r.status = 0 ∧
            r.attr.value = .i v)) ∧
    (∀ (v : Int) (rest : CStr), -(2 ^ 31) ≤ v → v < 2 ^ 31 →
      (∀ c, rest.head? = some c → isdigit c = false) → s = show_int v ++ rest →
      is_rejection (f (.i v) (seen_unparsed attr s)) = false →
      ∃ r, hsattribute_assign ext heap attr s = some r ∧ r.status = 0 ∧
        r.attr.value = .i v) := by
  have hk : attr.type ≠ .CUSTOM ∧ attr.type ≠ .CUSTOM_INT := by
    simp [HSAttribute.type, hv, HSAttributeValue.type]
  have hw := writeable_of_on_change attr f hf hk
  refine ⟨?_, ?_, ?_⟩
  · intro hd
    have hp : parse_new_value ext attr.value s = none := by
      have : sscanf_d s = none := by
        simp only [leading_digits] at hd
        simp [sscanf_d, hd]
      simp [hv, parse_new_value, this]
    exact assign_unparsable ext heap attr s hw hp
  · intro hd
    have hsome : ∃ v, sscanf_d s = some v := by
      simp only [leading_digits] at hd
      simp only [sscanf_d, hd, if_false]
      exact ⟨_, rfl⟩
    obtain ⟨v, hs⟩ := hsome
    refine ⟨v, hs, fun hacc => ?_⟩
    exact int_assign_accepts_parsed ext heap attr s cur v f hv hf hup
      (by simp [hv, parse_new_value, hs]) hacc
  · intro v rest hlo hhi hrest hs hacc
    exact int_assign_accepts_parsed ext heap attr s cur v f hv hf hup
      (by simp [hv, parse_new_value, hs, sscanf_d_show_append v rest hlo hhi hrest]) hacc

/-- Witness for the amended claim C7: `abc`, `-12abc` and a number beyond the
32-bit range assigned to `gap`. -/
theorem int_assign_parses_leading_integer_witness :
    (∃ r, hsattribute_assign sample_ext [] gap_attr "abc".toList = some r ∧
      r.status = HERBST_INVALID_ARGUMENT ∧ r.calls = [] ∧ r.attr = gap_attr ∧ r.heap = []) ∧
    (∃ v, sscanf_d "2147483648".toList = some v ∧
      ∃ r, hsattribute_assign sample_ext [] gap_attr "2147483648".toList = some r ∧
        r.status = 0 ∧ r.attr.value = .i v) ∧
    (∃ r, hsattribute_assign sample_ext [] gap_attr "-12abc".toList = some r ∧ r.status = 0 ∧
      r.attr.value = .i (-12)) :=
  ⟨(int_assign_parses_leading_integer sample_ext [] gap_attr "abc".toList 5 ATTR_ACCEPT_ALL
      rfl rfl rfl).1 (by decide),
   have ⟨v, h1, h2⟩ := (int_assign_parses_leading_integer sample_ext [] gap_attr
     "2147483648".toList 5 ATTR_ACCEPT_ALL rfl rfl rfl).2.1 (by decide)
   ⟨v, h1, h2 rfl⟩,
   (int_assign_parses_leading_integer sample_ext [] gap_attr "-12abc".toList 5 ATTR_ACCEPT_ALL
      rfl rfl rfl).2.2 (-12) "abc".toList (by decide) (by decide)
      (by intro c hc; cases hc; decide) (by decide) (by decide)⟩

/-- Claim C8. For an int attribute holding a 32-bit value, a uint attribute
holding a 32-bit value, or a string attribute: the text of
`hsattribute_to_string` parses back (`%d`, `%u`) to the stored number, is equal
to the stored string for a string attribute, and assigning it is recognised as
nothing to do by the first switch of `hsattribute_assign`. -/
theorem own_serialized_form_is_nothing_to_do (ext : Externals) (heap : GHeap)
    (attr : HSAttribute)
    (hk : (∃ v : Int, attr.value = .i v ∧ -(2 ^ 31) ≤ v ∧ v < 2 ^ 31) ∨
      (∃ u : Nat, attr.value = .u u ∧ u < 2 ^ 32) ∨ (∃ w, attr.value = .str w)) :
    ∃ t, hsattribute_to_string heap attr = some t ∧
      (∀ v, attr.value = .i v → t = show_int v ∧ sscanf_d t = some v) ∧
      (∀ u, attr.value = .u u → t = show_unsigned u ∧ sscanf_u t = some u) ∧
      (∀ w, attr.value = .str w → t = w) ∧
      ∃ st, assign_store ext heap attr t = some st ∧ st.error = false ∧
        st.nothing_to_do = true ∧ st.value = attr.value := by
  obtain ⟨name, value, up, oc, cc, ac, ua⟩ := attr
  simp only at hk ⊢
  rcases hk with ⟨v, rfl, hlo, hhi⟩ | ⟨u, rfl, hu⟩ | ⟨w, rfl⟩
  · have h := sscanf_d_show v hlo hhi
    refine ⟨show_int v, rfl, ?_, ?_, ?_, ?_⟩
    · intro v2 hv2; cases hv2; exact ⟨rfl, h⟩
    · intro u hu; cases hu
    · intro w hw; cases hw
    · exact ⟨_, rfl, by simp [parse_new_value, h, ATTR_DO_ASSIGN_COMPARE],
        by simp [parse_new_value, h, ATTR_DO_ASSIGN_COMPARE],
        by simp [parse_new_value, h, ATTR_DO_ASSIGN_COMPARE]⟩
  · have h := sscanf_u_show u hu
    refine ⟨show_unsigned u, rfl, ?_, ?_, ?_, ?_⟩
    · intro v2 hv2; cases hv2
    · intro u2 hu2; cases hu2; exact ⟨rfl, h⟩
    · intro w hw; cases hw
    · exact ⟨_, rfl, by simp [parse_new_value, h, ATTR_DO_ASSIGN_COMPARE],
        by simp [parse_new_value, h, ATTR_DO_ASSIGN_COMPARE],
        by simp [parse_new_value, h, ATTR_DO_ASSIGN_COMPARE]⟩
  · refine ⟨w, rfl, ?_, ?_, ?_, ?_⟩
    · intro v2 hv2; cases hv2
    · intro u2 hu2; cases hu2
    · intro w2 hw2; cases hw2; rfl
    · exact ⟨_, by simp only [assign_store, if_true]; rfl, rfl, rfl, rfl⟩

/-- Witness for claim C8: the attribute `gap = 5`. -/
theorem own_serialized_form_is_nothing_to_do_witness :
    ∃ t, hsattribute_to_string [] gap_attr = some t ∧
      (∀ v, gap_attr.value = .i v → t = show_int v ∧ sscanf_d t = some v) ∧
      (∀ u, gap_attr.value = .u u → t = show_unsigned u ∧ sscanf_u t = some u) ∧
      (∀ w, gap_attr.value = .str w → t = w) ∧
      ∃ st, assign_store sample_ext [] gap_attr t = some st ∧ st.error = false ∧
        st.nothing_to_do = true ∧ st.value = gap_attr.value :=
  own_serialized_form_is_nothing_to_do sample_ext [] gap_attr
    (Or.inl ⟨5, rfl, by decide, by decide⟩)


/-! ## Path resolution -/

theorem splitOnP_takeWhile (P : Char → Bool) (q : CStr) :
    q.splitOnP P = q.takeWhile (fun c => !P c) ::
      (match q.dropWhile (fun c => !P c) with
        | [] => []
        | _ :: r => r.splitOnP P) := by
  induction q with
  | nil => simp [List.splitOnP_nil]
  | cons c t ih =>
    rw [List.splitOnP_cons]
    by_cases hc : P c = true
    · simp [hc, List.takeWhile, List.dropWhile]
    · simp only [hc, Bool.false_eq_true, if_false]
      rw [ih]
      simp [List.takeWhile, List.dropWhile, hc, List.modifyHead]

theorem segments_nil : segments [] = [] := by
  simp [segments, List.splitOnP_nil]

theorem segments_cons_sep (t : CStr) : segments (OBJECT_PATH_SEPARATOR :: t) = segments t := by
  simp [segments, List.splitOnP_cons]

theorem segments_skip (q : CStr) : segments (skip_separators q) = segments q := by
  induction q with
  | nil => rfl
  | cons c t ih =>
    by_cases hc : c = OBJECT_PATH_SEPARATOR
    · subst hc
      simp only [skip_separators, List.dropWhile, decide_True] at ih ⊢
      rw [ih, segments_cons_sep]
    · simp [skip_separators, List.dropWhile, hc]

theorem drop_curname (q : CStr) :
    q.drop (curname_of q).length =
      q.dropWhile (fun c => !decide (c = OBJECT_PATH_SEPARATOR)) := by
  induction q with
  | nil => rfl
  | cons c t ih =>
    by_cases hc : c = OBJECT_PATH_SEPARATOR
    · simp [curname_of, List.takeWhile, List.dropWhile, hc]
    · simp only [curname_of] at ih
      simp [curname_of, List.takeWhile, List.dropWhile, hc, ih]

theorem dropWhile_not_sep_head (q : CStr) (a : Char) (r : CStr)
    (h : q.dropWhile (fun c => !decide (c = OBJECT_PATH_SEPARATOR)) = a :: r) :
    a = OBJECT_PATH_SEPARATOR := by
  induction q with
  | nil => simp at h
  | cons c t ih =>
    by_cases hc : c = OBJECT_PATH_SEPARATOR
    · simp only [List.dropWhile, hc, decide_True, Bool.not_true, List.cons.injEq] at h
      exact h.1.symm
    · simp only [List.dropWhile, hc, decide_False, Bool.not_false] at h
      exact ih h

/-- A path that does not start with a separator splits into its first segment
and the segments of what follows it. -/
theorem segments_first (q : CStr) (c : Char) (t : CStr) (hq : q = c :: t)
    (hc : c ≠ OBJECT_PATH_SEPARATOR) :
    curname_of q ≠ [] ∧
      segments q = curname_of q :: segments (skip_separators (q.drop (curname_of q).length)) := by
  have h1 : curname_of q ≠ [] := by
    subst hq; simp [curname_of, List.takeWhile, hc]
  refine ⟨h1, ?_⟩
  rw [segments_skip, drop_curname]
  have hsplit := splitOnP_takeWhile (fun c => decide (c = OBJECT_PATH_SEPARATOR)) q
  have htw : q.takeWhile (fun c => !decide (c = OBJECT_PATH_SEPARATOR)) = curname_of q := rfl
  rw [htw] at hsplit
  have hne : (curname_of q).isEmpty = false := by
    cases h : curname_of q with
    | nil => exact absurd h h1
    | cons a b => rfl
  cases hd : q.dropWhile (fun c => !decide (c = OBJECT_PATH_SEPARATOR)) with
  | nil =>
    rw [hd] at hsplit
    simp [segments, hsplit, hne, segments_nil]
  | cons a r =>
    rw [hd] at hsplit
    have ha : a = OBJECT_PATH_SEPARATOR := dropWhile_not_sep_head q a r hd
    subst ha
    rw [segments_cons_sep]
    simp [segments, hsplit, hne]

theorem skip_separators_suffix (q : CStr) : skip_separators q <:+ q :=
  List.dropWhile_suffix _

theorem skip_separators_head (q : CStr) (c : Char) (h : (skip_separators q).head? = some c) :
    c ≠ OBJECT_PATH_SEPARATOR := by
  induction q with
  | nil => simp [skip_separators] at h
  | cons a t ih =>
    by_cases ha : a = OBJECT_PATH_SEPARATOR
    · simp only [skip_separators, List.dropWhile, ha, decide_True] at h
      exact ih h
    · simp only [skip_separators, List.dropWhile, ha, decide_False, List.head?_cons,
        Option.some.injEq] at h
      rw [← h]; exact ha

theorem skip_separators_length_le (q : CStr) : (skip_separators q).length ≤ q.length :=
  (skip_separators_suffix q).length_le

/-- The loop of `hsobject_parse_path_verbose` walks down the non-empty segments
of the path. -/
theorem parse_path_loop_spec (objs : Objects) (orig : CStr) :
    ∀ (fuel obj : Nat) (last q : CStr), (skip_separators q).length ≤ fuel →
      match resolve_segments objs obj last (segments q) with
      | none => parse_path_loop objs orig fuel obj last (skip_separators q) = none
      | some (n, l, rem) =>
        ∃ u, parse_path_loop objs orig fuel obj last (skip_separators q) =
            some ⟨n, u, leftover_message orig l rem⟩ ∧
          segments u = rem ∧ u <:+ q ∧ (rem = [] → u = []) ∧
          (∀ c, u.head? = some c → c ≠ OBJECT_PATH_SEPARATOR) := by
  intro fuel
  induction fuel with
  | zero =>
    intro obj last q hlen
    have hq : skip_separators q = [] := List.length_eq_zero.mp (Nat.le_zero.mp hlen)
    have hs : segments q = [] := by rw [← segments_skip, hq, segments_nil]
    rw [hs, hq]
    simp only [resolve_segments]
    exact ⟨[], by simp [parse_path_loop, leftover_message], segments_nil, List.nil_suffix,
      fun _ => rfl, by simp⟩
  | succ k ih =>
    intro obj last q hlen
    cases hq : skip_separators q with
    | nil =>
      have hs : segments q = [] := by rw [← segments_skip, hq, segments_nil]
      rw [hs]
      simp only [resolve_segments]
      exact ⟨[], by simp [parse_path_loop, leftover_message], segments_nil, List.nil_suffix,
        fun _ => rfl, by simp⟩
    | cons c t =>
      have hc : c ≠ OBJECT_PATH_SEPARATOR := skip_separators_head q c (by rw [hq]; rfl)
      obtain ⟨hne, hseg⟩ := segments_first (c :: t) c t rfl hc
      have hs : segments q = segments (c :: t) := by rw [← segments_skip, hq]
      rw [hs, hseg]
      have hsuf : (c :: t) <:+ q := by rw [← hq]; exact skip_separators_suffix q
      simp only [resolve_segments]
      rw [parse_path_loop]
      simp only [reduceCtorEq, if_false]
      cases ho : objs[obj]? with
      | none => simp
      | some o =>
        simp only
        cases hf : hsobject_find_child o (curname_of (c :: t)) with
        | none =>
          simp only
          refine ⟨c :: t, rfl, hseg, hsuf, by simp, ?_⟩
          intro c2 h2
          simp only [List.head?_cons, Option.some.injEq] at h2
          rw [← h2]; exact hc
        | some child =>
          simp only
          have hlen2 : (skip_separators ((c :: t).drop (curname_of (c :: t)).length)).length ≤ k := by
            have h1 := skip_separators_length_le ((c :: t).drop (curname_of (c :: t)).length)
            have h2 : ((c :: t).drop (curname_of (c :: t)).length).length < (c :: t).length := by
              rw [List.length_drop]
              have : 0 < (curname_of (c :: t)).length := List.length_pos.mpr hne
              simp only [List.length_cons] at *
              omega
            rw [hq] at hlen
            omega
          have := ih child (curname_of (c :: t)) ((c :: t).drop (curname_of (c :: t)).length) hlen2
          rw [segments_skip]
          revert this
          cases resolve_segments objs child (curname_of (c :: t))
              (segments ((c :: t).drop (curname_of (c :: t)).length)) with
          | none => exact fun h => h
          | some r =>
            obtain ⟨n, l, rem⟩ := r
            rintro ⟨u, h1, h2, h3, h4, h5⟩
            exact ⟨u, h1, h2, (h3.trans (List.drop_suffix _ _)).trans hsuf, h4, h5⟩

theorem parse_path_verbose_spec (objs : Objects) (path : CStr) :
    match resolve_segments objs hsobject_root "root".toList (segments path) with
    | none => hsobject_parse_path_verbose objs path = none
    | some (n, l, rem) =>
      ∃ u, hsobject_parse_path_verbose objs path = some ⟨n, u, leftover_message path l rem⟩ ∧
        segments u = rem ∧ u <:+ path ∧ (rem = [] → u = []) ∧
        (∀ c, u.head? = some c → c ≠ OBJECT_PATH_SEPARATOR) :=
  parse_path_loop_spec objs path path.length hsobject_root "root".toList path
    (skip_separators_length_le path)

/-- `hsobject_by_path` depends on the non-empty segments of the path only. -/
theorem by_path_spec (objs : Objects) (path : CStr) :
    hsobject_by_path objs path =
      (resolve_segments objs hsobject_root "root".toList (segments path)).map
        (fun r => if r.2.2 = [] then some r.1 else none) := by
  have h := parse_path_verbose_spec objs path
  revert h
  cases resolve_segments objs hsobject_root "root".toList (segments path) with
  | none => intro h; simp [hsobject_by_path, h]
  | some r =>
    obtain ⟨n, l, rem⟩ := r
    rintro ⟨u, h1, h2, -, h4, -⟩
    simp only [hsobject_by_path, h1, Option.map_some', Option.some.injEq]
    by_cases hr : rem = []
    · simp [hr, h4 hr]
    · have hu : u ≠ [] := by
        intro hu; rw [hu, segments_nil] at h2; exact hr h2.symm
      simp [hr, hu]

theorem segments_of_name (b : CStr) (h1 : b ≠ []) (h2 : OBJECT_PATH_SEPARATOR ∉ b) :
    segments b = [b] := by
  have h := List.splitOnP_eq_single (fun c => decide (c = OBJECT_PATH_SEPARATOR)) b
    (by intro x hx; simp; rintro rfl; exact h2 hx)
  have hne : b.isEmpty = false := by cases b <;> simp_all
  simp [segments, h, hne]

theorem splitOnP_append_sep (P : Char → Bool) (p r : CStr) (sep : Char) (hsep : P sep = true) :
    (p ++ sep :: r).splitOnP P = p.splitOnP P ++ r.splitOnP P := by
  induction p with
  | nil => simp [List.splitOnP_cons, hsep, List.splitOnP_nil]
  | cons c t ih =>
    rw [List.cons_append, List.splitOnP_cons, List.splitOnP_cons, ih]
    by_cases hc : P c = true
    · simp [hc]
    · simp only [hc, Bool.false_eq_true, if_false]
      cases hs : List.splitOnP P t with
      | nil => exact absurd hs (List.splitOnP_ne_nil P t)
      | cons a l => simp [List.modifyHead]

theorem segments_append_sep (p r : CStr) :
    segments (p ++ OBJECT_PATH_SEPARATOR :: r) = segments p ++ segments r := by
  unfold segments
  rw [splitOnP_append_sep _ p r OBJECT_PATH_SEPARATOR (by simp), List.filter_append]

theorem segments_join (names : List CStr)
    (h : ∀ n ∈ names, n ≠ [] ∧ OBJECT_PATH_SEPARATOR ∉ n) :
    segments (join_path names) = names := by
  induction names with
  | nil => exact segments_nil
  | cons a t ih =>
    have ha := h a (List.mem_cons_self a t)
    have ht := ih (fun n hn => h n (List.mem_cons_of_mem a hn))
    cases t with
    | nil => simpa [join_path, List.intercalate] using segments_of_name a ha.1 ha.2
    | cons b t2 =>
      have : join_path (a :: b :: t2) = a ++ OBJECT_PATH_SEPARATOR :: join_path (b :: t2) := by
        simp [join_path, List.intercalate, List.intersperse]
      rw [this, segments_append_sep, ht, segments_of_name a ha.1 ha.2]
      rfl

theorem chain_end_cons (start : Nat) (e : CStr × Nat) (rest : List (CStr × Nat)) :
    chain_end start (e :: rest) = chain_end e.2 rest := by
  rfl

theorem resolve_chain_segments (objs : Objects) :
    ∀ (chain : List (CStr × Nat)) (start : Nat) (last : CStr),
      linked_chain objs start chain = true →
      (∀ n ∈ chain.map Prod.fst, n ≠ [] ∧ OBJECT_PATH_SEPARATOR ∉ n) ∧
      ∃ l, resolve_segments objs start last (chain.map Prod.fst) =
        some (chain_end start chain, l, []) := by
  intro chain
  induction chain with
  | nil => intro start last _; exact ⟨by simp, last, rfl⟩
  | cons e rest ih =>
    intro start last h
    obtain ⟨name, child⟩ := e
    simp only [linked_chain, Bool.and_eq_true, decide_eq_true_eq] at h
    obtain ⟨⟨⟨h1, h2⟩, h3⟩, h4⟩ := h
    obtain ⟨i1, l, i2⟩ := ih child name h4
    refine ⟨?_, l, ?_⟩
    · intro n hn
      simp only [List.map_cons, List.mem_cons] at hn
      rcases hn with rfl | hn
      · exact ⟨h2, h3⟩
      · exact i1 n hn
    · rw [chain_end_cons]
      simp only [List.map_cons, resolve_segments]
      cases ho : objs[start]? with
      | none => simp [ho] at h1
      | some o =>
        simp only [ho, decide_eq_true_eq] at h1
        simp only [h1]
        exact i2

/-- Claim C9. For a chain of nodes below the root, each linked in the one before
under a non-empty, separator-free name, `hsobject_parse_path_verbose` on the
names joined by the separator returns the last node with an empty remainder and
no diagnostic, and `hsobject_by_path` returns that node. -/
theorem resolve_linked_chain (objs : Objects) (chain : List (CStr × Nat))
    (h : linked_chain objs hsobject_root chain = true) :
    hsobject_parse_path_verbose objs (join_path (chain.map Prod.fst)) =
        some ⟨chain_end hsobject_root chain, [], []⟩ ∧
      hsobject_by_path objs (join_path (chain.map Prod.fst)) =
        some (some (chain_end hsobject_root chain)) := by
  obtain ⟨h1, l, h2⟩ := resolve_chain_segments objs chain hsobject_root "root".toList h
  have hspec := parse_path_verbose_spec objs (join_path (chain.map Prod.fst))
  rw [segments_join _ h1, h2] at hspec
  obtain ⟨u, e1, -, -, e4, -⟩ := hspec
  have hu : u = [] := e4 rfl
  subst hu
  have e1 : hsobject_parse_path_verbose objs (join_path (chain.map Prod.fst)) =
      some ⟨chain_end hsobject_root chain, [], []⟩ := e1
  exact ⟨e1, by simp [hsobject_by_path, e1]⟩

/-- Witness for claim C9: the chain `settings`, `gap` of the sample registry. -/
theorem resolve_linked_chain_witness :
    hsobject_parse_path_verbose sample_objects "settings.gap".toList = some ⟨3, [], []⟩ ∧
      hsobject_by_path sample_objects "settings.gap".toList = some (some 3) :=
  resolve_linked_chain sample_objects [("settings".toList, 2), ("gap".toList, 3)] (by decide)

theorem resolve_segments_append (objs : Objects) :
    ∀ (segs : List CStr) (obj : Nat) (last : CStr) (n : Nat) (l : CStr) (more : List CStr),
      resolve_segments objs obj last segs = some (n, l, []) →
      l = segs.getLast?.getD last ∧
        resolve_segments objs obj last (segs ++ more) = resolve_segments objs n l more := by
  intro segs
  induction segs with
  | nil =>
    intro obj last n l more h
    simp only [resolve_segments, Option.some.injEq, Prod.mk.injEq, and_true] at h
    obtain ⟨rfl, rfl⟩ := h
    exact ⟨rfl, rfl⟩
  | cons s rest ih =>
    intro obj last n l more h
    simp only [resolve_segments, List.cons_append] at h ⊢
    cases ho : objs[obj]? with
    | none => simp [ho] at h
    | some o =>
      simp only [ho] at h ⊢
      cases hf : hsobject_find_child o s with
      | none => simp [hf] at h
      | some c =>
        simp only [hf] at h ⊢
        obtain ⟨i1, i2⟩ := ih c s n l more h
        refine ⟨?_, i2⟩
        rw [i1]
        cases rest with
        | nil => rfl
        | cons a t =>
          rw [List.getLast?_cons_cons]
          cases hgl : (a :: t).getLast? with
          | none => simp at hgl
          | some x => rfl

theorem suffix_of_append_name (b u : CStr) (hb1 : b ≠ []) (hb2 : OBJECT_PATH_SEPARATOR ∉ b) :
    ∀ p : CStr, u <:+ p ++ OBJECT_PATH_SEPARATOR :: b → segments u = [b] →
      (∀ c, u.head? = some c → c ≠ OBJECT_PATH_SEPARATOR) → u = b := by
  intro p
  induction p with
  | nil =>
    intro hs hseg hhead
    rcases List.suffix_cons_iff.mp hs with h | h
    · exact absurd rfl (hhead OBJECT_PATH_SEPARATOR (by rw [h]; rfl))
    · have hu2 : OBJECT_PATH_SEPARATOR ∉ u := fun hm => hb2 (h.subset hm)
      cases hu : u with
      | nil => rw [hu, segments_nil] at hseg; cases hseg
      | cons a t =>
        rw [segments_of_name u (by rw [hu]; simp) hu2] at hseg
        rw [← hu]
        simpa using hseg
  | cons c t ih =>
    intro hs hseg hhead
    rcases List.suffix_cons_iff.mp hs with h | h
    · have hc : c ≠ OBJECT_PATH_SEPARATOR := hhead c (by rw [h]; rfl)
      have h : u = (c :: t) ++ OBJECT_PATH_SEPARATOR :: b := h
      rw [h, segments_append_sep] at hseg
      obtain ⟨-, h2⟩ := segments_first (c :: t) c t rfl hc
      rw [h2] at hseg
      simp at hseg
      have := hseg.2.2
      rw [segments_of_name b hb1 hb2] at this
      cases this
    · exact ih h hseg hhead

theorem by_path_resolved (objs : Objects) (p : CStr) (N : Nat)
    (hp : hsobject_by_path objs p = some (some N)) :
    ∃ l, resolve_segments objs hsobject_root "root".toList (segments p) = some (N, l, []) := by
  rw [by_path_spec] at hp
  cases hr : resolve_segments objs hsobject_root "root".toList (segments p) with
  | none => rw [hr] at hp; simp at hp
  | some r =>
    obtain ⟨n, l, rem⟩ := r
    simp only [hr, Option.map_some', Option.some.injEq] at hp
    by_cases h : rem = []
    · subst h
      simp only [if_true, Option.some.injEq] at hp
      subst hp
      exact ⟨l, rfl⟩
    · simp [h] at hp

/-- Resolution of a resolvable path followed by a name that is not a child. -/
theorem parse_stops_at_missing_child (objs : Objects) (p b : CStr) (N : Nat) (o : HSObject)
    (hp : hsobject_by_path objs p = some (some N)) (hN : objs[N]? = some o)
    (hb1 : b ≠ []) (hb2 : OBJECT_PATH_SEPARATOR ∉ b)
    (hnc : hsobject_find_child o b = none) :
    hsobject_parse_path_verbose objs (p ++ OBJECT_PATH_SEPARATOR :: b) =
        some ⟨N, b, invalid_path_message (p ++ OBJECT_PATH_SEPARATOR :: b) b
          ((segments p).getLast?.getD "root".toList)⟩ ∧
      hsobject_by_path objs (p ++ OBJECT_PATH_SEPARATOR :: b) = some none := by
  obtain ⟨l, hr⟩ := by_path_resolved objs p N hp
  obtain ⟨hl, happ⟩ := resolve_segments_append objs (segments p) hsobject_root "root".toList
    N l [b] hr
  have hres : resolve_segments objs hsobject_root "root".toList
      (segments (p ++ OBJECT_PATH_SEPARATOR :: b)) = some (N, l, [b]) := by
    rw [segments_append_sep, segments_of_name b hb1 hb2, happ]
    simp [resolve_segments, hN, hnc]
  have hspec := parse_path_verbose_spec objs (p ++ OBJECT_PATH_SEPARATOR :: b)
  rw [hres] at hspec
  obtain ⟨u, e1, e2, e3, -, e5⟩ := hspec
  have hu : u = b := suffix_of_append_name b u hb1 hb2 p e3 e2 e5
  subst hu
  have e1 : hsobject_parse_path_verbose objs (p ++ OBJECT_PATH_SEPARATOR :: u) =
      some ⟨N, u, invalid_path_message (p ++ OBJECT_PATH_SEPARATOR :: u) u l⟩ := e1
  rw [← hl]
  exact ⟨e1, by simp [hsobject_by_path, e1, hb1]⟩

/-- Claim C10. For a path `p` that resolves to node `N` and a non-empty,
separator-free name `b` that is not a child name of `N`: resolving `p`, a
separator and `b` returns `N` with `b` as the unparsed remainder and the text
`Invalid path "<path>": No child "<b>" in object <last>` with a newline, where
`<last>` is the last segment of `p` (`root` when `p` has none);
`hsobject_by_path` returns NULL. -/
theorem bogus_segment_stops_resolution (objs : Objects) (p b : CStr) (N : Nat) (o : HSObject)
    (hp : hsobject_by_path objs p = some (some N)) (hN : objs[N]? = some o)
    (hb1 : b ≠ []) (hb2 : OBJECT_PATH_SEPARATOR ∉ b)
    (hnc : hsobject_find_child o b = none) :
    hsobject_parse_path_verbose objs (p ++ OBJECT_PATH_SEPARATOR :: b) =
        some ⟨N, b,
          "Invalid path ".toList ++ [dquote] ++ (p ++ OBJECT_PATH_SEPARATOR :: b) ++ [dquote]
            ++ ": ".toList ++ "No child ".toList ++ [dquote] ++ b ++ [dquote]
            ++ " in object ".toList ++ (segments p).getLast?.getD "root".toList ++ [newline]⟩ ∧
      hsobject_by_path objs (p ++ OBJECT_PATH_SEPARATOR :: b) = some none :=
  parse_stops_at_missing_child objs p b N o hp hN hb1 hb2 hnc

/-- Witness for claim C10: `settings.bogus` in the sample registry, and `bogus`
directly below the root. -/
theorem bogus_segment_stops_resolution_witness :
    hsobject_parse_path_verbose sample_objects "settings.bogus".toList =
        some ⟨2, "bogus".toList,
          "Invalid path ".toList ++ [dquote] ++ "settings.bogus".toList ++ [dquote]
            ++ ": No child ".toList ++ [dquote] ++ "bogus".toList ++ [dquote]
            ++ " in object settings".toList ++ [newline]⟩ ∧
      hsobject_by_path sample_objects "settings.bogus".toList = some none ∧
    hsobject_parse_path_verbose sample_objects ".bogus".toList =
        some ⟨0, "bogus".toList,
          "Invalid path ".toList ++ [dquote] ++ ".bogus".toList ++ [dquote]
            ++ ": No child ".toList ++ [dquote] ++ "bogus".toList ++ [dquote]
            ++ " in object root".toList ++ [newline]⟩ :=
  ⟨(bogus_segment_stops_resolution sample_objects "settings".toList "bogus".toList 2
      { attributes := [gap_attr, title_attr], children := [⟨"gap".toList, 3⟩] }
      (by decide) rfl (by decide) (by decide) (by decide)).1,
   (bogus_segment_stops_resolution sample_objects "settings".toList "bogus".toList 2
      { attributes := [gap_attr, title_attr], children := [⟨"gap".toList, 3⟩] }
      (by decide) rfl (by decide) (by decide) (by decide)).2,
   (bogus_segment_stops_resolution sample_objects [] "bogus".toList 0
      { attributes := [], children := [⟨"tmp".toList, 1⟩, ⟨"settings".toList, 2⟩] }
      (by decide) rfl (by decide) (by decide) (by decide)).1⟩

theorem segments_replicate_append (k : Nat) (p : CStr) :
    segments (List.replicate k OBJECT_PATH_SEPARATOR ++ p) = segments p := by
  induction k with
  | zero => rfl
  | succ n ih => rw [List.replicate_succ, List.cons_append, segments_cons_sep, ih]

theorem segments_append_replicate (k : Nat) (p : CStr) :
    segments (p ++ List.replicate k OBJECT_PATH_SEPARATOR) = segments p := by
  cases k with
  | zero => simp
  | succ n =>
    rw [List.replicate_succ, segments_append_sep]
    have := segments_replicate_append n []
    rw [List.append_nil, segments_nil] at this
    rw [this, List.append_nil]

/-- Claim C12. `hsobject_by_path` gives the same result when separators are
added in front of a path, behind it, or next to one of its separators; a path
made of separators only (the empty path included) resolves to the root with an
empty remainder. -/
theorem by_path_ignores_empty_segments (objs : Objects) (p a b : CStr) (k : Nat) :
    hsobject_by_path objs (List.replicate k OBJECT_PATH_SEPARATOR ++ p) =
        hsobject_by_path objs p ∧
      hsobject_by_path objs (p ++ List.replicate k OBJECT_PATH_SEPARATOR) =
        hsobject_by_path objs p ∧
      hsobject_by_path objs
          (a ++ OBJECT_PATH_SEPARATOR :: (List.replicate k OBJECT_PATH_SEPARATOR ++ b)) =
        hsobject_by_path objs (a ++ OBJECT_PATH_SEPARATOR :: b) ∧
      hsobject_parse_path_verbose objs (List.replicate k OBJECT_PATH_SEPARATOR) =
        some ⟨hsobject_root, [], []⟩ := by
  refine ⟨?_, ?_, ?_, ?_⟩
  · rw [by_path_spec, by_path_spec, segments_replicate_append]
  · rw [by_path_spec, by_path_spec, segments_append_replicate]
  · rw [by_path_spec, by_path_spec, segments_append_sep, segments_append_sep,
      segments_replicate_append]
  · have hspec := parse_path_verbose_spec objs (List.replicate k OBJECT_PATH_SEPARATOR)
    have hs : segments (List.replicate k OBJECT_PATH_SEPARATOR) = [] := by
      have := segments_replicate_append k []
      rwa [List.append_nil, segments_nil] at this
    rw [hs] at hspec
    simp only [resolve_segments] at hspec
    obtain ⟨u, e1, -, -, e4, -⟩ := hspec
    rw [e4 trivial] at e1
    exact e1

theorem first_index_none {α : Type} (p : α → Bool) (l : List α) :
    first_index p l = none ↔ ∀ a ∈ l, p a = false := by
  induction l with
  | nil => simp [first_index]
  | cons a t ih =>
    by_cases ha : p a = true
    · simp [first_index, ha]
    · simp [first_index, ha, ih]

theorem first_index_some {α : Type} (p : α → Bool) (l : List α) (i : Nat) :
    first_index p l = some i ↔
      (∃ a, l[i]? = some a ∧ p a = true) ∧ ∀ j, j < i → ∀ a, l[j]? = some a → p a = false := by
  induction l generalizing i with
  | nil => simp [first_index]
  | cons a t ih =>
    by_cases ha : p a = true
    · simp only [first_index, ha, if_true, Option.some.injEq]
      constructor
      · rintro rfl
        exact ⟨⟨a, by simp, ha⟩, fun j hj => absurd hj (Nat.not_lt_zero j)⟩
      · rintro ⟨-, h2⟩
        cases i with
        | zero => rfl
        | succ n =>
          have := h2 0 (Nat.succ_pos n) a (by simp)
          rw [ha] at this; cases this
    · have ha2 : p a = false := by simpa using ha
      simp only [first_index, ha2, Bool.false_eq_true, if_false, Option.map_eq_some']
      constructor
      · rintro ⟨k, hk, rfl⟩
        obtain ⟨⟨x, hx1, hx2⟩, h2⟩ := (ih k).mp hk
        refine ⟨⟨x, by simpa using hx1, hx2⟩, ?_⟩
        intro j hj y hy
        cases j with
        | zero => simp at hy; rw [← hy]; exact ha2
        | succ m => exact h2 m (by omega) y (by simpa using hy)
      · rintro ⟨⟨x, hx1, hx2⟩, h2⟩
        cases i with
        | zero =>
          simp at hx1; rw [hx1] at ha2; rw [ha2] at hx2; cases hx2
        | succ n =>
          refine ⟨n, (ih n).mpr ⟨⟨x, by simpa using hx1, hx2⟩, ?_⟩, rfl⟩
          intro j hj y hy
          exact h2 (j + 1) (by omega) y (by simpa using hy)

theorem find_attribute_first_named (o : HSObject) (name : CStr) (i : Nat) :
    hsobject_find_attribute o name = some i ↔ first_named o.attributes name i := by
  simp only [hsobject_find_attribute, first_index_some, first_named, decide_eq_true_eq,
    decide_eq_false_iff_not, ne_eq]

theorem find_attribute_none (o : HSObject) (name : CStr) :
    hsobject_find_attribute o name = none ↔ ∀ a ∈ o.attributes, a.name ≠ name := by
  simp only [hsobject_find_attribute, first_index_none, decide_eq_false_iff_not, ne_eq]

/-- The three outcomes of `hsattribute_parse_path_verbose`. -/
theorem attribute_path_outcomes (objs : Objects) (path : CStr) (r : ParseResult)
    (o : HSObject) (hr : hsobject_parse_path_verbose objs path = some r)
    (ho : objs[r.obj]? = some o) :
    (∀ A : Nat × Nat,
      (∃ out, hsattribute_parse_path_verbose objs path = some (some A, out)) ↔
        (OBJECT_PATH_SEPARATOR ∉ r.unparsable ∧ A.1 = r.obj ∧
          first_named o.attributes r.unparsable A.2)) ∧
    (OBJECT_PATH_SEPARATOR ∉ r.unparsable → (∀ a ∈ o.attributes, a.name ≠ r.unparsable) →
      hsattribute_parse_path_verbose objs path =
        some (none, unknown_attribute_message path r.unparsable)) ∧
    (OBJECT_PATH_SEPARATOR ∈ r.unparsable →
      hsattribute_parse_path_verbose objs path = some (none, r.output)) := by
  refine ⟨?_, ?_, ?_⟩
  · rintro ⟨a1, a2⟩
    simp only [hsattribute_parse_path_verbose, hr]
    by_cases hs : OBJECT_PATH_SEPARATOR ∈ r.unparsable
    · simp [hs]
    · simp only [hs, if_false, ho, not_false_eq_true, true_and]
      rw [← find_attribute_first_named]
      cases hf : hsobject_find_attribute o r.unparsable with
      | none => simp
      | some i =>
        simp only [Option.some.injEq, Prod.mk.injEq, exists_and_left, exists_eq', and_true]
        constructor
        · rintro ⟨rfl, rfl⟩; exact ⟨rfl, rfl⟩
        · rintro ⟨rfl, rfl⟩; exact ⟨rfl, rfl⟩
  · intro hs hn
    simp [hsattribute_parse_path_verbose, hr, hs, ho, (find_attribute_none o _).mpr hn]
  · intro hs
    simp [hsattribute_parse_path_verbose, hr, hs]

/-- Claim C11. When object resolution of `path` stops at node `r.obj` with the
remainder `r.unparsable`: `hsattribute_parse_path_verbose` returns attribute
`A` exactly when the remainder contains no separator and `A` is the first
attribute of that node whose name is the remainder; it returns NULL with the
text `Unknown attribute "<remainder>" in object "<path before it>".` and a
newline when the remainder has no separator and the node has no attribute of
that name, and NULL with the text of the object resolution when the remainder
contains a separator. -/
theorem attribute_path_resolution (objs : Objects) (path : CStr) (r : ParseResult)
    (o : HSObject) (hr : hsobject_parse_path_verbose objs path = some r)
    (ho : objs[r.obj]? = some o) :
    (∀ A : Nat × Nat,
      (∃ out, hsattribute_parse_path_verbose objs path = some (some A, out)) ↔
        (OBJECT_PATH_SEPARATOR ∉ r.unparsable ∧ A.1 = r.obj ∧
          first_named o.attributes r.unparsable A.2)) ∧
    (OBJECT_PATH_SEPARATOR ∉ r.unparsable → (∀ a ∈ o.attributes, a.name ≠ r.unparsable) →
      hsattribute_parse_path_verbose objs path =
        some (none,
          "Unknown attribute ".toList ++ [dquote] ++ r.unparsable ++ [dquote]
            ++ " in object ".toList ++ [dquote]
            ++ path.take (path.length - r.unparsable.length) ++ [dquote] ++ ".".toList
            ++ [newline])) ∧
    (OBJECT_PATH_SEPARATOR ∈ r.unparsable →
      hsattribute_parse_path_verbose objs path = some (none, r.output)) :=
  attribute_path_outcomes objs path r o hr ho

/-- Witness for claim C11: `settings.x.y`, `settings.x` and `settings.title` in
the sample registry. -/
theorem attribute_path_resolution_witness :
    hsattribute_parse_path_verbose sample_objects "settings.x.y".toList =
        some (none,
          "Invalid path ".toList ++ [dquote] ++ "settings.x.y".toList ++ [dquote]
            ++ ": No child ".toList ++ [dquote] ++ "x".toList ++ [dquote]
            ++ " in object settings".toList ++ [newline]) ∧
      hsattribute_parse_path_verbose sample_objects "settings.x".toList =
        some (none,
          "Unknown attribute ".toList ++ [dquote] ++ "x".toList ++ [dquote]
            ++ " in object ".toList ++ [dquote] ++ "settings.".toList ++ [dquote]
            ++ ".".toList ++ [newline]) ∧
      ∃ out, hsattribute_parse_path_verbose sample_objects "settings.title".toList =
        some (some (2, 1), out) :=
  ⟨(attribute_path_resolution sample_objects "settings.x.y".toList
      ⟨2, "x.y".toList, invalid_path_message "settings.x.y".toList "x".toList "settings".toList⟩
      { attributes := [gap_attr, title_attr], children := [⟨"gap".toList, 3⟩] } rfl rfl).2.2
      (by decide),
   (attribute_path_resolution sample_objects "settings.x".toList
      ⟨2, "x".toList, invalid_path_message "settings.x".toList "x".toList "settings".toList⟩
      { attributes := [gap_attr, title_attr], children := [⟨"gap".toList, 3⟩] } rfl rfl).2.1
      (by decide) (by decide),
   ((attribute_path_resolution sample_objects "settings.title".toList
      ⟨2, "title".toList,
        invalid_path_message "settings.title".toList "title".toList "settings".toList⟩
      { attributes := [gap_attr, title_attr], children := [⟨"gap".toList, 3⟩] } rfl rfl).1
      (2, 1)).mpr ⟨by decide, rfl, ⟨title_attr, rfl, rfl⟩, by
        intro j hj a ha
        have hj0 : j = 0 := by omega
        subst hj0
        simp only [List.getElem?_cons_zero, Option.some.injEq] at ha
        subst ha
        decide⟩⟩

/-- Counterexample to claim C13: `settings` has both a child and an attribute
called `gap`; the node path `settings.gap` gives the child, and the attribute
path `settings.gap` gives NULL ("Unknown attribute" with the empty name), not
the attribute `gap` of `settings`. -/
theorem child_shadows_attribute :
    hsobject_by_path sample_objects "settings".toList = some (some 2) ∧
    (sample_objects[2]?.map (fun o => hsobject_find_child o "gap".toList)) = some (some 3) ∧
    (sample_objects[2]?.map (fun o => hsobject_find_attribute o "gap".toList)) = some (some 0) ∧
    hsobject_by_path sample_objects "settings.gap".toList = some (some 3) ∧
    hsattribute_parse_path_verbose sample_objects "settings.gap".toList =
      some (none, unknown_attribute_message "settings.gap".toList []) := by
  refine ⟨by decide, by decide, by decide, by decide, rfl⟩

/-- Claim C13, amended. When node `N` has a child named `n`, the path to `N`
followed by `n` resolves, as a node path, to that child; as an attribute path
it is resolved to the child as well and the attribute with the empty name is
looked up there, whether or not `N` has an attribute named `n`. -/
theorem child_wins_over_attribute (objs : Objects) (p n : CStr) (N c : Nat) (o oc : HSObject)
    (hp : hsobject_by_path objs p = some (some N)) (hN : objs[N]? = some o)
    (hn1 : n ≠ []) (hn2 : OBJECT_PATH_SEPARATOR ∉ n)
    (hchild : hsobject_find_child o n = some c) (hc : objs[c]? = some oc) :
    hsobject_by_path objs (p ++ OBJECT_PATH_SEPARATOR :: n) = some (some c) ∧
    hsattribute_parse_path_verbose objs (p ++ OBJECT_PATH_SEPARATOR :: n) =
      some (match hsobject_find_attribute oc [] with
        | some i => (some (c, i), [])
        | none => (none, unknown_attribute_message (p ++ OBJECT_PATH_SEPARATOR :: n) [])) := by
  obtain ⟨l, hr⟩ := by_path_resolved objs p N hp
  obtain ⟨-, happ⟩ := resolve_segments_append objs (segments p) hsobject_root "root".toList
    N l [n] hr
  have hres : resolve_segments objs hsobject_root "root".toList
      (segments (p ++ OBJECT_PATH_SEPARATOR :: n)) = some (c, n, []) := by
    rw [segments_append_sep, segments_of_name n hn1 hn2, happ]
    simp [resolve_segments, hN, hchild]
  have hspec := parse_path_verbose_spec objs (p ++ OBJECT_PATH_SEPARATOR :: n)
  rw [hres] at hspec
  obtain ⟨u, e1, -, -, e4, -⟩ := hspec
  rw [e4 rfl] at e1
  have e1 : hsobject_parse_path_verbose objs (p ++ OBJECT_PATH_SEPARATOR :: n) =
      some ⟨c, [], []⟩ := e1
  refine ⟨by simp [hsobject_by_path, e1], ?_⟩
  simp only [hsattribute_parse_path_verbose, e1, List.not_mem_nil, if_false, hc]
  cases hsobject_find_attribute oc [] <;> rfl

/-- Witness for the amended claim C13: `settings.gap` in the sample registry. -/
theorem child_wins_over_attribute_witness :
    hsobject_by_path sample_objects "settings.gap".toList = some (some 3) ∧
    hsattribute_parse_path_verbose sample_objects "settings.gap".toList =
      some (match hsobject_find_attribute { attributes := [], children := [] } [] with
        | some i => (some (3, i), [])
        | none => (none, unknown_attribute_message "settings.gap".toList [])) :=
  child_wins_over_attribute sample_objects "settings".toList "gap".toList 2 3
    { attributes := [gap_attr, title_attr], children := [⟨"gap".toList, 3⟩] }
    { attributes := [], children := [] } (by decide) rfl (by decide) (by decide) (by decide) rfl


/-! ## User attributes and substitution commands -/

/-- What `hsattribute_create` does for a known type name. -/
theorem show_zero : show_unsigned 0 = "0".toList ∧ show_int 0 = "0".toList := by decide

theorem hsattribute_create_spec (ext : Externals) (reg : Registry) (N : Nat) (o : HSObject)
    (name type_str : CStr) (ty : HSAttributeType) (text : CStr)
    (hk : requested_kind type_str = some (ty, text)) (hN : reg.objects[N]? = some o) :
    ∃ (a : HSAttribute) (extra : GHeap),
      hsattribute_create ext reg N name type_str =
        some (some o.attributes.length, [],
          { reg with
            objects := reg.objects.set N { o with attributes := o.attributes ++ [a] },
            heap := reg.heap ++ extra }) ∧
      a.name = name ∧ a.type = ty ∧ a.user_attribute = false ∧
      a.on_change = some ATTR_ACCEPT_ALL ∧ a.always_callback = false ∧
      hsattribute_to_string (reg.heap ++ extra) a = some text := by
  simp only [requested_kind] at hk
  split_ifs at hk with h1 h2 h3 h4 h5 <;>
    simp only [Option.some.injEq, Prod.mk.injEq, reduceCtorEq] at hk <;>
    obtain ⟨rfl, rfl⟩ := hk
  · exact ⟨initial_attribute name (.b false) none, [],
      by simp [hsattribute_create, attribute_type_of_name, h1, hN],
      rfl, rfl, rfl, rfl, rfl, rfl⟩
  · exact ⟨initial_attribute name (.u 0) none, [],
      by simp [hsattribute_create, attribute_type_of_name, h1, h2, hN],
      rfl, rfl, rfl, rfl, rfl, congrArg some show_zero.1⟩
  · exact ⟨initial_attribute name (.i 0) none, [],
      by simp [hsattribute_create, attribute_type_of_name, h1, h2, h3, hN],
      rfl, rfl, rfl, rfl, rfl, congrArg some show_zero.2⟩
  · exact ⟨initial_attribute name (.str []) none, [],
      by simp [hsattribute_create, attribute_type_of_name, h1, h2, h3, h4, hN],
      rfl, rfl, rfl, rfl, rfl, rfl⟩
  · refine ⟨initial_attribute name (.color (ext.fromStr "#000000".toList))
        (some reg.heap.length), [some "#000000".toList],
      by simp [hsattribute_create, attribute_type_of_name, h1, h2, h3, h4, h5, hN,
        g_string_new],
      rfl, rfl, rfl, rfl, rfl, ?_⟩
    simp [hsattribute_to_string, initial_attribute, GHeap.str_append_length]

/-- Claim C14. `userattribute_command` with one of the type names bool, uint,
int, string, color and a path made of a resolvable node path, a separator and a
last segment `m` that begins with the user-attribute marker, has no separator
and names neither a child nor an attribute of the node returns 0 and leaves the
node's attribute list equal to the old list with one attribute appended: named
`m`, of the requested kind, user-defined, writeable and serializing to the
kind's initial text.  Strings stored before stay as they were. -/
theorem userattribute_command_creates (ext : Externals) (reg : Registry) (cmd type_str p m : CStr)
    (ty : HSAttributeType) (text : CStr) (N : Nat) (o : HSObject)
    (hk : requested_kind type_str = some (ty, text))
    (hp : hsobject_by_path reg.objects p = some (some N)) (hN : reg.objects[N]? = some o)
    (hm1 : m ≠ []) (hm2 : OBJECT_PATH_SEPARATOR ∉ m)
    (hpre : ext.user_attribute_marker.isPrefixOf m = true)
    (hchild : hsobject_find_child o m = none)
    (hattr : hsobject_find_attribute o m = none) :
    ∃ (r : CommandResult) (a : HSAttribute) (extra : GHeap),
      userattribute_command ext reg [cmd, type_str, p ++ OBJECT_PATH_SEPARATOR :: m] = some r ∧
      r.status = 0 ∧
      r.reg.objects = reg.objects.set N { o with attributes := o.attributes ++ [a] } ∧
      r.reg.heap = reg.heap ++ extra ∧
      a.name = m ∧ a.type = ty ∧ a.user_attribute = true ∧
      hsattribute_is_read_only a = some false ∧
      hsattribute_to_string r.reg.heap a = some text := by
  obtain ⟨hparse, -⟩ := parse_stops_at_missing_child reg.objects p m N o hp hN hm1 hm2 hchild
  obtain ⟨a, extra, hc, a1, a2, a3, a4, a5, a6⟩ :=
    hsattribute_create_spec ext reg N o m type_str ty text hk hN
  have hlt : N < reg.objects.length := by
    rcases Nat.lt_or_ge N reg.objects.length with h | h
    · exact h
    · rw [List.getElem?_eq_none h] at hN; cases hN
  have hset : set_user_attribute
      { reg with
        objects := reg.objects.set N { o with attributes := o.attributes ++ [a] },
        heap := reg.heap ++ extra } N o.attributes.length =
      { reg with
        objects := reg.objects.set N
          { o with attributes := o.attributes ++ [{ a with user_attribute := true }] },
        heap := reg.heap ++ extra } := by
    simp only [set_user_attribute, Registry.set_object, List.getElem?_set_self hlt,
      List.set_set, List.getElem?_concat_length, list_set_append_length]
  have hcmd : userattribute_command ext reg [cmd, type_str, p ++ OBJECT_PATH_SEPARATOR :: m] =
      some ⟨0, [],
        { reg with
          objects := reg.objects.set N
            { o with attributes := o.attributes ++ [{ a with user_attribute := true }] },
          heap := reg.heap ++ extra }, []⟩ := by
    simp only [userattribute_command, hparse, hm2, if_false, hN, hattr, Option.isSome_none,
      Bool.false_eq_true, hpre, Bool.not_true, hc, hset]
  refine ⟨_, { a with user_attribute := true }, extra, hcmd, rfl, rfl, rfl, a1, ?_, rfl,
    ?_, ?_⟩
  · simpa [HSAttribute.type] using a2
  · have : a.type ≠ .CUSTOM ∧ a.type ≠ .CUSTOM_INT := by
      simp only [requested_kind] at hk
      split_ifs at hk <;> simp only [Option.some.injEq, Prod.mk.injEq, reduceCtorEq] at hk <;>
        obtain ⟨rfl, -⟩ := hk <;> rw [a2] <;> decide
    simp only [HSAttribute.type] at this
    simp [hsattribute_is_read_only, HSAttribute.type, a4, this.1, this.2]
  · rw [← a6]
    cases hv : a.value <;> simp [hsattribute_to_string, hv]

/-- Witness for claim C14: `new_attr color settings.my_color` in the sample registry. -/
theorem userattribute_command_creates_witness :
    ∃ (r : CommandResult) (a : HSAttribute) (extra : GHeap),
      userattribute_command sample_ext sample_registry
        ["new_attr".toList, "color".toList, "settings.my_color".toList] = some r ∧
      r.status = 0 ∧
      r.reg.objects = sample_registry.objects.set 2
        { attributes := [gap_attr, title_attr] ++ [a], children := [⟨"gap".toList, 3⟩] } ∧
      r.reg.heap = sample_registry.heap ++ extra ∧
      a.name = "my_color".toList ∧ a.type = .COLOR ∧ a.user_attribute = true ∧
      hsattribute_is_read_only a = some false ∧
      hsattribute_to_string r.reg.heap a = some "#000000".toList :=
  userattribute_command_creates sample_ext sample_registry "new_attr".toList "color".toList
    "settings".toList "my_color".toList .COLOR "#000000".toList 2
    { attributes := [gap_attr, title_attr], children := [⟨"gap".toList, 3⟩] }
    (by decide) (by decide) rfl (by decide) (by decide) (by decide) (by decide) (by decide)

theorem unknown_type_name (ext : Externals) (type_str : CStr)
    (h : requested_kind type_str = none) : attribute_type_of_name ext type_str = none := by
  simp only [requested_kind] at h
  split_ifs at h with h1 h2 h3 h4 h5
  simp only [attribute_type_of_name, if_neg h1, if_neg h2, if_neg h3, if_neg h4, if_neg h5]

/-- Claim C15. `userattribute_command` fails and leaves the registry as it was
when the unparsed remainder of the path still contains a separator
(invalid-argument), when the node already has an attribute of that name
(forbidden, whatever the name looks like), when the name does not begin with
the user-attribute marker (invalid-argument; the empty name never begins with a
non-empty marker), and when the type name is none of the five known ones
(invalid-argument). -/
theorem userattribute_command_failures (ext : Externals) (reg : Registry)
    (cmd type_str path : CStr) (rest : List CStr) (r0 : ParseResult) (o : HSObject)
    (hparse : hsobject_parse_path_verbose reg.objects path = some r0)
    (ho : reg.objects[r0.obj]? = some o) :
    (OBJECT_PATH_SEPARATOR ∈ r0.unparsable →
      userattribute_command ext reg (cmd :: type_str :: path :: rest) =
        some ⟨HERBST_INVALID_ARGUMENT, r0.output, reg, []⟩) ∧
    (OBJECT_PATH_SEPARATOR ∉ r0.unparsable →
      (hsobject_find_attribute o r0.unparsable).isSome = true →
      userattribute_command ext reg (cmd :: type_str :: path :: rest) =
        some ⟨HERBST_FORBIDDEN, attribute_exists_message r0.unparsable, reg, []⟩) ∧
    (OBJECT_PATH_SEPARATOR ∉ r0.unparsable → hsobject_find_attribute o r0.unparsable = none →
      ext.user_attribute_marker.isPrefixOf r0.unparsable = false →
      userattribute_command ext reg (cmd :: type_str :: path :: rest) =
        some ⟨HERBST_INVALID_ARGUMENT,
          user_attribute_name_message ext.user_attribute_marker r0.unparsable, reg, []⟩) ∧
    (OBJECT_PATH_SEPARATOR ∉ r0.unparsable → hsobject_find_attribute o r0.unparsable = none →
      ext.user_attribute_marker.isPrefixOf r0.unparsable = true →
      requested_kind type_str = none →
      userattribute_command ext reg (cmd :: type_str :: path :: rest) =
        some ⟨HERBST_INVALID_ARGUMENT, unknown_type_message type_str, reg, []⟩) ∧
    (ext.user_attribute_marker ≠ [] → ext.user_attribute_marker.isPrefixOf [] = false) := by
  refine ⟨?_, ?_, ?_, ?_, ?_⟩
  · intro hs
    simp [userattribute_command, hparse, hs]
  · intro hs hf
    simp only [userattribute_command, hparse, hs, ho, hf, if_true, if_false]
  · intro hs hf hp
    simp only [userattribute_command, hparse, hs, ho, hf, hp, if_false, Option.isSome_none,
      Bool.false_eq_true, Bool.not_false, if_true]
  · intro hs hf hp ht
    simp only [userattribute_command, hparse, hs, ho, hf, hp, if_false, Option.isSome_none,
      Bool.false_eq_true, Bool.not_true, hsattribute_create, unknown_type_name ext type_str ht]
  · intro hne
    cases hm : ext.user_attribute_marker with
    | nil => exact absurd hm hne
    | cons a t => rfl

/-- Witness for claim C15: `new_attr int settings.title` in the sample registry. -/
theorem userattribute_command_failures_witness :
    (OBJECT_PATH_SEPARATOR ∈ "title".toList →
      userattribute_command sample_ext sample_registry
          ["new_attr".toList, "int".toList, "settings.title".toList] =
        some ⟨HERBST_INVALID_ARGUMENT,
          invalid_path_message "settings.title".toList "title".toList "settings".toList,
          sample_registry, []⟩) ∧
    userattribute_command sample_ext sample_registry
        ["new_attr".toList, "int".toList, "settings.title".toList] =
      some ⟨HERBST_FORBIDDEN, attribute_exists_message "title".toList, sample_registry, []⟩ :=
  ⟨(userattribute_command_failures sample_ext sample_registry "new_attr".toList "int".toList
      "settings.title".toList []
      ⟨2, "title".toList,
        invalid_path_message "settings.title".toList "title".toList "settings".toList⟩
      { attributes := [gap_attr, title_attr], children := [⟨"gap".toList, 3⟩] } rfl rfl).1,
   (userattribute_command_failures sample_ext sample_registry "new_attr".toList "int".toList
      "settings.title".toList []
      ⟨2, "title".toList,
        invalid_path_message "settings.title".toList "title".toList "settings".toList⟩
      { attributes := [gap_attr, title_attr], children := [⟨"gap".toList, 3⟩] } rfl rfl).2.1
      (by decide) (by decide)⟩

/-- Claim C18. `userattribute_remove_command` given a path that resolves to an
attribute whose `user_attribute` flag is false returns the forbidden status,
and given a path that resolves to no attribute returns invalid-argument; in
both cases the registry is unchanged. -/
theorem userattribute_remove_command_refuses (reg : Registry) (cmd path : CStr)
    (rest : List CStr) (A : Option (Nat × Nat)) (out : CStr)
    (hres : hsattribute_parse_path_verbose reg.objects path = some (A, out))
    (hA : ∀ obj idx, A = some (obj, idx) →
      ∃ a, reg.attribute obj idx = some a ∧ a.user_attribute = false) :
    userattribute_remove_command reg (cmd :: path :: rest) =
      some ⟨if A.isSome then HERBST_FORBIDDEN else HERBST_INVALID_ARGUMENT,
        if A.isSome then out ++ not_user_defined_message path else out, reg, []⟩ := by
  cases A with
  | none =>
    simp only [userattribute_remove_command, hres, Option.isSome_none, Bool.false_eq_true,
      if_false]
  | some A =>
    obtain ⟨obj, idx⟩ := A
    obtain ⟨a, h1, h2⟩ := hA obj idx rfl
    simp only [userattribute_remove_command, hres, h1, h2, Bool.not_false, if_true,
      Option.isSome_some]

/-- Witness for claim C18: removing `settings.title` and `settings.bogus`. -/
theorem userattribute_remove_command_refuses_witness :
    userattribute_remove_command sample_registry
        ["remove_attr".toList, "settings.title".toList] =
      some ⟨HERBST_FORBIDDEN, not_user_defined_message "settings.title".toList,
        sample_registry, []⟩ ∧
    userattribute_remove_command sample_registry
        ["remove_attr".toList, "settings.bogus".toList] =
      some ⟨HERBST_INVALID_ARGUMENT,
        unknown_attribute_message "settings.bogus".toList "bogus".toList,
        sample_registry, []⟩ :=
  ⟨userattribute_remove_command_refuses sample_registry "remove_attr".toList
      "settings.title".toList [] (some (2, 1)) [] rfl
      (fun obj idx h => by cases h; exact ⟨title_attr, rfl, rfl⟩),
   userattribute_remove_command_refuses sample_registry "remove_attr".toList
      "settings.bogus".toList [] none
      (unknown_attribute_message "settings.bogus".toList "bogus".toList) rfl
      (fun obj idx h => by cases h)⟩

/-- Claim C17, evaluated on the code: `tmp.my_tmp1` is an existing user-defined
attribute; `userattribute_remove_command` removes it, yet `userattribute_remove`
returns false and the command returns the unknown-error status, not 0. -/
theorem userattribute_remove_command_reports_failure :
    (tmp_clash_registry.attribute 1 0).map (fun a => (a.name, a.user_attribute)) =
      some ("my_tmp1".toList, true) ∧
    ∃ r, userattribute_remove_command tmp_clash_registry
        ["remove_attr".toList, "tmp.my_tmp1".toList] = some r ∧
      r.status = HERBST_UNKNOWN_ERROR ∧ r.status ≠ 0 ∧
      r.reg.objects[1]?.map (fun o => o.attributes.length) = some 0 ∧
      userattribute_remove tmp_clash_registry (some (1, 0)) = some (false, r.reg) := by
  refine ⟨by decide, _, rfl, rfl, by decide, by decide, rfl⟩

/-- Path resolution looks at the child lists only. -/
theorem parse_path_loop_congr (objs objs2 : Objects) (orig : CStr)
    (h : ∀ n : Nat, objs2[n]?.map (fun (o : HSObject) => o.children) =
      objs[n]?.map (fun (o : HSObject) => o.children)) :
    ∀ (fuel obj : Nat) (last path : CStr),
      parse_path_loop objs2 orig fuel obj last path = parse_path_loop objs orig fuel obj last path := by
  intro fuel
  induction fuel with
  | zero => intro obj last path; simp [parse_path_loop]
  | succ k ih =>
    intro obj last path
    rw [parse_path_loop, parse_path_loop]
    by_cases hp : path = []
    · simp [hp]
    · simp only [hp, if_false]
      have hn := h obj
      cases h1 : objs[obj]? with
      | none =>
        rw [h1] at hn
        cases h2 : objs2[obj]? with
        | none => rfl
        | some o2 => rw [h2] at hn; cases hn
      | some o =>
        rw [h1] at hn
        cases h2 : objs2[obj]? with
        | none => rw [h2] at hn; cases hn
        | some o2 =>
          rw [h2] at hn
          simp only [Option.map_some', Option.some.injEq] at hn
          simp only [hsobject_find_child, hn]
          cases List.find? (fun oc => decide (oc.name = curname_of path)) o.children with
          | none => rfl
          | some c => exact ih _ _ _

theorem set_attributes_children (objs : Objects) (N : Nat) (o : HSObject)
    (attrs : List HSAttribute) (hN : objs[N]? = some o) (n : Nat) :
    (objs.set N { o with attributes := attrs })[n]?.map (fun o => o.children) =
      objs[n]?.map (fun o => o.children) := by
  by_cases hn : N = n
  · subst hn
    have hlt : N < objs.length := by
      rcases Nat.lt_or_ge N objs.length with h | h
      · exact h
      · rw [List.getElem?_eq_none h] at hN; cases hN
    rw [List.getElem?_set_self hlt, hN]
    rfl
  · rw [List.getElem?_set_ne hn]

theorem eraseIdx_no_name (l : List HSAttribute) :
    ∀ (i : Nat) (a : HSAttribute), (l.map (fun b => b.name)).Nodup → l[i]? = some a →
      ∀ b ∈ l.eraseIdx i, b.name ≠ a.name := by
  induction l with
  | nil => intro i a _ h; simp at h
  | cons x t ih =>
    intro i a hnd h b hb
    simp only [List.map_cons, List.nodup_cons, List.mem_map, not_exists, not_and] at hnd
    cases i with
    | zero =>
      simp only [List.getElem?_cons_zero, Option.some.injEq] at h
      subst h
      simp only [List.eraseIdx_cons_zero] at hb
      exact fun hbn => hnd.1 b hb hbn
    | succ n =>
      simp only [List.getElem?_cons_succ] at h
      simp only [List.eraseIdx_cons_succ, List.mem_cons] at hb
      rcases hb with rfl | hb
      · intro hbn
        exact hnd.1 a (List.getElem?_mem h) hbn.symm
      · exact ih n a hnd.2 h b hb

/-- What `userattribute_remove` does to the attribute list of the node. -/
theorem userattribute_remove_erases (reg : Registry) (N i : Nat) (o : HSObject)
    (a : HSAttribute) (hN : reg.objects[N]? = some o) (ha : o.attributes[i]? = some a)
    (hup : unparsed_ok reg.heap a = true) :
    ∃ (b : Bool) (reg2 : Registry), userattribute_remove reg (some (N, i)) = some (b, reg2) ∧
      reg2.objects = reg.objects.set N { o with attributes := o.attributes.eraseIdx i } ∧
      (o.attributes.eraseIdx i).length + 1 = o.attributes.length ∧
      ((o.attributes.map (fun x => x.name)).Nodup →
        ∀ (path : CStr) (r0 : ParseResult),
          hsobject_parse_path_verbose reg.objects path = some r0 → r0.obj = N →
          r0.unparsable = a.name → OBJECT_PATH_SEPARATOR ∉ a.name →
          hsattribute_parse_path_verbose reg2.objects path =
            some (none, unknown_attribute_message path a.name)) := by
  have hlt : N < reg.objects.length := by
    rcases Nat.lt_or_ge N reg.objects.length with h | h
    · exact h
    · rw [List.getElem?_eq_none h] at hN; cases hN
  have hi : i < o.attributes.length := by
    rcases Nat.lt_or_ge i o.attributes.length with h | h
    · exact h
    · rw [List.getElem?_eq_none h] at ha; cases ha
  have hfree : ∃ heap1, (match a.unparsed_value with
      | some p => g_string_free reg.heap p
      | none => some reg.heap) = some heap1 := by
    cases hu : a.unparsed_value with
    | none => exact ⟨_, rfl⟩
    | some p =>
      simp only [unparsed_ok, hu] at hup
      exact ⟨_, g_string_free_live reg.heap p hup⟩
  obtain ⟨heap1, hfree⟩ := hfree
  refine ⟨false, { reg with
      objects := reg.objects.set N { o with attributes := o.attributes.eraseIdx i },
      heap := heap1 }, ?_, rfl, ?_, ?_⟩
  · simp only [userattribute_remove, hN, ha, hfree]
  · rw [List.length_eraseIdx, if_pos hi]; omega
  · intro hnd path r0 hparse hobj hun hsep
    have hparse2 : hsobject_parse_path_verbose
        (reg.objects.set N { o with attributes := o.attributes.eraseIdx i }) path = some r0 := by
      rw [← hparse]
      exact parse_path_loop_congr reg.objects _ path
        (set_attributes_children reg.objects N o _ hN) _ _ _ _
    have hnone : hsobject_find_attribute
        { o with attributes := o.attributes.eraseIdx i } a.name = none :=
      (find_attribute_none _ _).mpr (eraseIdx_no_name o.attributes i a hnd ha)
    simp only [hsattribute_parse_path_verbose, hparse2, hun, hsep, if_false, hobj,
      List.getElem?_set_self hlt, hnone]

/-- Claim C16. `userattribute_remove` applied to the attribute at index `i` of
node `N` leaves `N`'s attribute list equal to the old list with element `i`
deleted (one element fewer, the others in their order and unchanged); when the
attribute names on `N` are distinct, a path that resolved to the removed
attribute then resolves to no attribute, with the text
`Unknown attribute "<name>" in object "<path before the name>".` and a
newline. -/
theorem userattribute_remove_deletes (reg : Registry) (N i : Nat) (o : HSObject)
    (a : HSAttribute) (hN : reg.objects[N]? = some o) (ha : o.attributes[i]? = some a)
    (hup : unparsed_ok reg.heap a = true) :
    ∃ (b : Bool) (reg2 : Registry), userattribute_remove reg (some (N, i)) = some (b, reg2) ∧
      reg2.objects = reg.objects.set N { o with attributes := o.attributes.eraseIdx i } ∧
      (o.attributes.eraseIdx i).length + 1 = o.attributes.length ∧
      ((o.attributes.map (fun x => x.name)).Nodup →
        ∀ (path : CStr) (r0 : ParseResult),
          hsobject_parse_path_verbose reg.objects path = some r0 → r0.obj = N →
          r0.unparsable = a.name → OBJECT_PATH_SEPARATOR ∉ a.name →
          hsattribute_parse_path_verbose reg2.objects path =
            some (none,
              "Unknown attribute ".toList ++ [dquote] ++ a.name ++ [dquote]
                ++ " in object ".toList ++ [dquote]
                ++ path.take (path.length - a.name.length) ++ [dquote] ++ ".".toList
                ++ [newline])) :=
  userattribute_remove_erases reg N i o a hN ha hup

/-- Witness for claim C16: removing `tmp.my_tmp1`. -/
theorem userattribute_remove_deletes_witness :
    ∃ (b : Bool) (reg2 : Registry),
      userattribute_remove tmp_clash_registry (some (1, 0)) = some (b, reg2) ∧
      reg2.objects = tmp_clash_registry.objects.set 1 { attributes := [], children := [] } ∧
      hsattribute_parse_path_verbose tmp_clash_registry.objects "tmp.my_tmp1".toList =
        some (some (1, 0), []) ∧
      hsattribute_parse_path_verbose reg2.objects "tmp.my_tmp1".toList =
        some (none,
          "Unknown attribute ".toList ++ [dquote] ++ "my_tmp1".toList ++ [dquote]
            ++ " in object ".toList ++ [dquote] ++ "tmp.".toList ++ [dquote] ++ ".".toList
            ++ [newline]) := by
  obtain ⟨b, reg2, h1, h2, -, h4⟩ := userattribute_remove_deletes tmp_clash_registry 1 0
    { attributes := [{ name := "my_tmp1".toList, value := .i 5, unparsed_value := none,
                       on_change := some ATTR_ACCEPT_ALL, change_custom := none,
                       always_callback := false, user_attribute := true }],
      children := [] }
    { name := "my_tmp1".toList, value := .i 5, unparsed_value := none,
      on_change := some ATTR_ACCEPT_ALL, change_custom := none,
      always_callback := false, user_attribute := true } rfl rfl rfl
  exact ⟨b, reg2, h1, h2, rfl, h4 (by decide) "tmp.my_tmp1".toList
    ⟨1, "my_tmp1".toList,
      invalid_path_message "tmp.my_tmp1".toList "my_tmp1".toList "tmp".toList⟩
    rfl rfl rfl (by decide)⟩

theorem sprintf_loop_literal (reg : Registry) (fmt : CStr) (params : List CStr) :
    ∀ (lit rest : CStr) (i nextarg : Nat) (repl : CStr), FORMAT_CHAR ∉ lit →
      sprintf_loop reg fmt params (lit ++ rest) i nextarg repl =
        sprintf_loop reg fmt params rest (i + lit.length) nextarg (repl ++ lit) := by
  intro lit
  induction lit with
  | nil => intro rest i nextarg repl _; simp
  | cons c t ih =>
    intro rest i nextarg repl h
    simp only [List.mem_cons, not_or] at h
    have hc : c ≠ FORMAT_CHAR := fun e => h.1 e.symm
    rw [List.cons_append, sprintf_loop.eq_def]
    simp only [if_neg hc]
    rw [ih rest (i + 1) nextarg (repl ++ [c]) h.2]
    simp [Nat.add_assoc, Nat.add_comm 1]

theorem sprintf_loop_pieces (reg : Registry) (fmt : CStr) (command : CStr) (args : List CStr)
    (tail : CStr) (htail : FORMAT_CHAR ∉ tail) :
    ∀ (pieces : List (CStr × CStr × CStr)) (pre : List CStr) (i : Nat) (repl : CStr),
      (∀ p ∈ pieces, FORMAT_CHAR ∉ p.1) →
      (∀ p ∈ pieces, serialized_at reg p.2.1 = some p.2.2) →
      sprintf_loop reg fmt (pre ++ pieces.map (fun p => p.2.1) ++ command :: args)
          (format_of pieces tail) i pre.length repl =
        some (.ok (repl ++ filled_format pieces tail, pre.length + pieces.length)) := by
  intro pieces
  induction pieces with
  | nil =>
    intro pre i repl _ _
    have := sprintf_loop_literal reg fmt (pre ++ command :: args) tail [] i pre.length repl htail
    simp only [List.append_nil] at this
    simp only [format_of, filled_format, List.foldr_nil, List.map_nil, List.append_nil,
      List.length_nil, Nat.add_zero, this, sprintf_loop]
  | cons p rest ih =>
    intro pre i repl hlit hres
    obtain ⟨lit, path, text⟩ := p
    have h1 : FORMAT_CHAR ∉ lit := hlit _ (List.mem_cons_self _ _)
    have h2 : serialized_at reg path = some text := hres _ (List.mem_cons_self _ _)
    have hrec := ih (pre ++ [path]) (i + lit.length + 2) (repl ++ lit ++ text)
      (fun q hq => hlit q (List.mem_cons_of_mem _ hq))
      (fun q hq => hres q (List.mem_cons_of_mem _ hq))
    have hparams : pre ++ List.map (fun p => p.2.1) ((lit, path, text) :: rest) ++ command :: args
        = pre ++ [path] ++ List.map (fun p => p.2.1) rest ++ command :: args := by simp
    rw [hparams]
    have hfmt : format_of ((lit, path, text) :: rest) tail =
        lit ++ (FORMAT_CHAR :: 's' :: format_of rest tail) := rfl
    rw [hfmt, sprintf_loop_literal reg fmt _ lit _ i pre.length repl h1]
    have hs : ('s' : Char) ≠ FORMAT_CHAR := by decide
    have hget : (pre ++ [path] ++ List.map (fun p => p.2.1) rest ++ command :: args).getD
        pre.length [] = path := by
      have : (pre ++ [path] ++ List.map (fun p => p.2.1) rest ++ command :: args)[pre.length]? =
          some path := by
        rw [List.append_assoc, List.append_assoc, List.getElem?_append_right (Nat.le_refl _)]
        simp
      rw [List.getD_eq_getElem?_getD, this]
      rfl
    have hlen : ¬ (pre.length + 1 ≥
        (pre ++ [path] ++ List.map (fun p => p.2.1) rest ++ command :: args).length) := by
      simp only [List.length_append, List.length_cons, List.length_nil, List.length_map]
      omega
    rw [sprintf_loop.eq_def]
    simp only [if_true, hs, if_false, hlen, hget]
    simp only [serialized_at] at h2
    cases hp : hsattribute_parse_path_verbose reg.objects path with
    | none => simp [hp] at h2
    | some r =>
      obtain ⟨A, out⟩ := r
      cases A with
      | none => simp [hp] at h2
      | some A =>
        obtain ⟨obj, idx⟩ := A
        simp only [hp] at h2
        simp only [h2]
        have hl : (pre ++ [path]).length = pre.length + 1 := by simp
        rw [hl] at hrec
        rw [hrec]
        simp [filled_format, Nat.add_assoc, Nat.add_comm 1]

/-- Claim C20. For a format whose escape characters are each followed by `s`
(`k` literal pieces each followed by `%s`, then a literal tail), followed by `k`
attribute paths that resolve and serialize and by at least one command word,
`sprintf_command` makes exactly one call of `call_command_substitute`: with the
identifier `argv[1]`, the format with the i-th placeholder replaced by the i-th
serialized value, and the words after the paths; it returns that call's status,
output and registry. -/
theorem sprintf_command_substitutes (dispatch : Dispatcher) (reg : Registry)
    (cmd0 identifier : CStr) (pieces : List (CStr × CStr × CStr)) (tail command : CStr)
    (args : List CStr)
    (hlit : ∀ p ∈ pieces, FORMAT_CHAR ∉ p.1) (htail : FORMAT_CHAR ∉ tail)
    (hres : ∀ p ∈ pieces, serialized_at reg p.2.1 = some p.2.2) :
    sprintf_command dispatch reg
        (cmd0 :: identifier :: format_of pieces tail ::
          (pieces.map (fun p => p.2.1) ++ command :: args)) =
      some ⟨(dispatch identifier (filled_format pieces tail) (command :: args) reg).1,
        (dispatch identifier (filled_format pieces tail) (command :: args) reg).2.1,
        (dispatch identifier (filled_format pieces tail) (command :: args) reg).2.2,
        [(identifier, filled_format pieces tail, command :: args)]⟩ := by
  have hloop := sprintf_loop_pieces reg (format_of pieces tail) command args tail htail pieces []
    0 [] hlit hres
  simp only [List.nil_append, List.length_nil, Nat.zero_add] at hloop
  have hdrop : (pieces.map (fun p => p.2.1) ++ command :: args).drop pieces.length =
      command :: args := by
    have : pieces.length = (pieces.map (fun p => p.2.1)).length := by simp
    rw [this, List.drop_left]
  cases hparams : pieces.map (fun p => p.2.1) ++ command :: args with
  | nil =>
    have := congrArg List.length hparams
    simp at this
  | cons param params =>
    rw [hparams] at hloop hdrop
    simp only [sprintf_command, hloop, hdrop]

/-- Witness for claim C20: `sprintf tmp gap=%s settings.gap echo tmp` with `gap = 7`. -/
theorem sprintf_command_substitutes_witness :
    sprintf_command idle_dispatcher scenario_registry
        ["sprintf".toList, "tmp".toList, "gap=%s".toList, "settings.gap".toList,
          "echo".toList, "tmp".toList] =
      some ⟨0, [], scenario_registry,
        [("tmp".toList, "gap=7".toList, ["echo".toList, "tmp".toList])]⟩ :=
  sprintf_command_substitutes idle_dispatcher scenario_registry "sprintf".toList "tmp".toList
    [("gap=".toList, "settings.gap".toList, "7".toList)] [] "echo".toList ["tmp".toList]
    (by decide) (by decide) (by decide)

/-- Claim C19, evaluated on the code: the scratch object already holds the user
attribute `my_tmp1 = 5`; `tmp int X echo X` with an inner command that does
nothing creates a second `my_tmp1`, then removes the first attribute of that
name.  Afterwards the scratch object holds the attribute the call created
instead of the one it held before. -/
theorem tmpattribute_removes_other_attribute :
    tmp_clash_registry.objects[1]?.map
        (fun o => o.attributes.map (fun a => (a.name, a.value, a.user_attribute))) =
      some [("my_tmp1".toList, .i 5, true)] ∧
    ∃ r, tmpattribute_command sample_ext idle_dispatcher tmp_clash_registry
        ["tmp".toList, "int".toList, "X".toList, "echo".toList, "X".toList] = some r ∧
      r.status = 0 ∧
      r.dispatched = [("X".toList, "tmp.my_tmp1".toList, ["echo".toList, "X".toList])] ∧
      r.reg.tmpcount = tmp_clash_registry.tmpcount ∧
      r.reg.objects[1]?.map
          (fun o => o.attributes.map (fun a => (a.name, a.value, a.user_attribute))) =
        some [("my_tmp1".toList, .i 0, false)] := by
  refine ⟨by decide, _, rfl, rfl, ?_, ?_, ?_⟩ <;> decide


theorem first_index_append_last {α : Type} (p : α → Bool) (l : List α) (a : α)
    (hl : first_index p l = none) (ha : p a = true) :
    first_index p (l ++ [a]) = some l.length := by
  induction l with
  | nil => simp [first_index, ha]
  | cons b t ih =>
    simp only [first_index] at hl
    by_cases hb : p b = true
    · simp [hb] at hl
    · simp only [hb, Bool.false_eq_true, if_false, Option.map_eq_none'] at hl
      simp [first_index, hb, ih hl]

theorem eraseIdx_append_last {α : Type} (l : List α) (a : α) :
    (l ++ [a]).eraseIdx l.length = l := by
  induction l with
  | nil => rfl
  | cons b t ih => simp [List.eraseIdx_cons_succ, ih]

/-- When the generated name is not in use on the scratch object and the inner
command, started on the registry that holds the new attribute, leaves the
scratch object's attribute list as it found it (it may assign to the temporary
attribute), `tmpattribute_command` completes, dispatches that command once and
the scratch object ends with the list it began with. -/
theorem tmpattribute_restores_scratch (ext : Externals) (dispatch : Dispatcher) (reg : Registry)
    (cmd type_str identifier command : CStr) (args : List CStr) (o : HSObject)
    (ty : HSAttributeType) (text : CStr)
    (hk : requested_kind type_str = some (ty, text))
    (ho : reg.objects[reg.tmp_object]? = some o)
    (hfresh : hsobject_find_attribute o (tmp_attribute_name ext (reg.tmpcount + 1)) = none)
    (hinner : ∀ (idx : Nat) (out : CStr) (reg1 : Registry),
      hsattribute_create ext { reg with tmpcount := reg.tmpcount + 1 } reg.tmp_object
        (tmp_attribute_name ext (reg.tmpcount + 1)) type_str = some (some idx, out, reg1) →
      ∃ (o2 : HSObject) (a2 : HSAttribute),
        (dispatch identifier
          (ext.tmp_object_path ++ [OBJECT_PATH_SEPARATOR] ++
            tmp_attribute_name ext (reg.tmpcount + 1))
          (command :: args) reg1).2.2.objects[reg.tmp_object]? = some o2 ∧
        o2.attributes = o.attributes ++ [a2] ∧
        a2.name = tmp_attribute_name ext (reg.tmpcount + 1) ∧
        unparsed_ok (dispatch identifier
          (ext.tmp_object_path ++ [OBJECT_PATH_SEPARATOR] ++
            tmp_attribute_name ext (reg.tmpcount + 1))
          (command :: args) reg1).2.2.heap a2 = true) :
    ∃ (r : CommandResult) (o3 : HSObject),
      tmpattribute_command ext dispatch reg (cmd :: type_str :: identifier :: command :: args)
        = some r ∧
      r.reg.objects[reg.tmp_object]? = some o3 ∧ o3.attributes = o.attributes ∧
      r.dispatched = [(identifier,
        ext.tmp_object_path ++ [OBJECT_PATH_SEPARATOR] ++
          tmp_attribute_name ext (reg.tmpcount + 1), command :: args)] := by
  obtain ⟨a, extra, hc, -⟩ := hsattribute_create_spec ext
    { reg with tmpcount := reg.tmpcount + 1 } reg.tmp_object o
    (tmp_attribute_name ext (reg.tmpcount + 1)) type_str ty text hk ho
  obtain ⟨o2, a2, h1, h2, h3, h4⟩ := hinner _ _
    { reg with
      objects := reg.objects.set reg.tmp_object { o with attributes := o.attributes ++ [a] },
      heap := reg.heap ++ extra, tmpcount := reg.tmpcount + 1 } hc
  have hfind : hsobject_find_attribute o2 (tmp_attribute_name ext (reg.tmpcount + 1)) =
      some o.attributes.length := by
    simp only [hsobject_find_attribute, h2]
    exact first_index_append_last _ _ _ hfresh (by simp [h3])
  have hget : o2.attributes[o.attributes.length]? = some a2 := by
    rw [h2]; simp
  obtain ⟨b, reg3, hr1, hr2, -, -⟩ := userattribute_remove_erases _ reg.tmp_object
    o.attributes.length o2 a2 h1 hget h4
  have hlt : reg.tmp_object < (dispatch identifier
      (ext.tmp_object_path ++ [OBJECT_PATH_SEPARATOR] ++
        tmp_attribute_name ext (reg.tmpcount + 1))
      (command :: args)
      { reg with
        objects := reg.objects.set reg.tmp_object { o with attributes := o.attributes ++ [a] },
        heap := reg.heap ++ extra, tmpcount := reg.tmpcount + 1 }).2.2.objects.length := by
    rcases Nat.lt_or_ge reg.tmp_object _ with h | h
    · exact h
    · rw [List.getElem?_eq_none h] at h1; cases h1
  simp only [tmpattribute_command, hc, h1, hfind, Option.map_some', hr1]
  refine ⟨_, { o2 with attributes := o2.attributes.eraseIdx o.attributes.length }, rfl, ?_, ?_,
    rfl⟩
  · simp only [hr2, List.getElem?_set_self hlt]
  · simp only [h2, eraseIdx_append_last]

/-! ## Commands called with too few arguments -/

/-- Claim C29. Each command called with too few arguments (the command name
counts) returns need-more-args, writes nothing, dispatches nothing and leaves
the registry as it was: get and userattribute_remove below 2 arguments, set
and userattribute below 3, substitute, compare, sprintf and the
temporary-attribute command below 4. -/
theorem commands_need_more_args (ext : Externals) (dispatch : Dispatcher) (reg : Registry)
    (argv : List CStr) :
    (argv.length < 2 →
      hsattribute_get_command reg argv = some ⟨HERBST_NEED_MORE_ARGS, [], reg, []⟩ ∧
      userattribute_remove_command reg argv = some ⟨HERBST_NEED_MORE_ARGS, [], reg, []⟩) ∧
    (argv.length < 3 →
      hsattribute_set_command ext reg argv = some ⟨HERBST_NEED_MORE_ARGS, [], reg, []⟩ ∧
      userattribute_command ext reg argv = some ⟨HERBST_NEED_MORE_ARGS, [], reg, []⟩) ∧
    (argv.length < 4 →
      substitute_command dispatch reg argv = some ⟨HERBST_NEED_MORE_ARGS, [], reg, []⟩ ∧
      compare_command ext reg argv = some ⟨HERBST_NEED_MORE_ARGS, [], reg, []⟩ ∧
      sprintf_command dispatch reg argv = some ⟨HERBST_NEED_MORE_ARGS, [], reg, []⟩ ∧
      tmpattribute_command ext dispatch reg argv =
        some ⟨HERBST_NEED_MORE_ARGS, [], reg, []⟩) := by
  rcases argv with _ | ⟨a, _ | ⟨b, _ | ⟨c, _ | ⟨d, t⟩⟩⟩⟩ <;>
    refine ⟨fun h => ?_, fun h => ?_, fun h => ?_⟩ <;>
    first
      | (exfalso; simp only [List.length_cons, List.length_nil] at h; omega)
      | (refine ⟨rfl, rfl⟩)
      | (refine ⟨rfl, rfl, rfl, rfl⟩)

/-- Witness for claim C29: every command called with its name alone, and the
four-argument commands called with three words. -/
theorem commands_need_more_args_witness :
    (hsattribute_get_command sample_registry ["get".toList] =
        some ⟨HERBST_NEED_MORE_ARGS, [], sample_registry, []⟩ ∧
      userattribute_remove_command sample_registry ["get".toList] =
        some ⟨HERBST_NEED_MORE_ARGS, [], sample_registry, []⟩) ∧
    (hsattribute_set_command sample_ext sample_registry ["set".toList, "settings.gap".toList] =
        some ⟨HERBST_NEED_MORE_ARGS, [], sample_registry, []⟩ ∧
      userattribute_command sample_ext sample_registry ["set".toList, "settings.gap".toList] =
        some ⟨HERBST_NEED_MORE_ARGS, [], sample_registry, []⟩) ∧
    (substitute_command idle_dispatcher sample_registry
        ["substitute".toList, "X".toList, "settings.gap".toList] =
        some ⟨HERBST_NEED_MORE_ARGS, [], sample_registry, []⟩ ∧
      compare_command sample_ext sample_registry
        ["substitute".toList, "X".toList, "settings.gap".toList] =
        some ⟨HERBST_NEED_MORE_ARGS, [], sample_registry, []⟩ ∧
      sprintf_command idle_dispatcher sample_registry
        ["substitute".toList, "X".toList, "settings.gap".toList] =
        some ⟨HERBST_NEED_MORE_ARGS, [], sample_registry, []⟩ ∧
      tmpattribute_command sample_ext idle_dispatcher sample_registry
        ["substitute".toList, "X".toList, "settings.gap".toList] =
        some ⟨HERBST_NEED_MORE_ARGS, [], sample_registry, []⟩) :=
  ⟨(commands_need_more_args sample_ext idle_dispatcher sample_registry ["get".toList]).1
      (by decide),
    (commands_need_more_args sample_ext idle_dispatcher sample_registry
      ["set".toList, "settings.gap".toList]).2.1 (by decide),
    (commands_need_more_args sample_ext idle_dispatcher sample_registry
      ["substitute".toList, "X".toList, "settings.gap".toList]).2.2 (by decide)⟩

/-! ## The combined command on an object path with a value -/

/-- Claim C26, evaluated on the code: when `path` resolves entirely to a node and
a new value is given, `attr_command` writes the "Can not assign value"
diagnostic and leaves the registry as it was, but the status it returns is 0,
the status of success. -/
theorem attr_command_object_value_returns_zero (ext : Externals) (reg : Registry)
    (cmd path value : CStr) (rest : List CStr) (r : ParseResult)
    (hr : hsobject_parse_path_verbose reg.objects path = some r) (hall : r.unparsable = []) :
    attr_command ext reg (cmd :: path :: value :: rest) =
      some ⟨0, can_not_assign_message cmd value path, reg, []⟩ := by
  simp [attr_command, hr, hall]

/-- Claim C26 on the sample registry: `attr settings 5` returns 0. -/
theorem attr_command_object_value_returns_zero_witness :
    attr_command sample_ext sample_registry ["attr".toList, "settings".toList, "5".toList] =
      some ⟨0, can_not_assign_message "attr".toList "5".toList "settings".toList,
        sample_registry, []⟩ :=
  attr_command_object_value_returns_zero sample_ext sample_registry "attr".toList
    "settings".toList "5".toList []
    ⟨2, [], []⟩ rfl rfl

/-! ## Substitution of one attribute -/

theorem attribute_path_output (objs : Objects) (path : CStr) (A : Nat × Nat) (out : CStr)
    (h : hsattribute_parse_path_verbose objs path = some (some A, out)) : out = [] := by
  simp only [hsattribute_parse_path_verbose] at h
  cases hr : hsobject_parse_path_verbose objs path with
  | none => rw [hr] at h; cases h
  | some r =>
    rw [hr] at h
    simp only at h
    split at h
    · cases h
    · cases ho : objs[r.obj]? with
      | none => rw [ho] at h; cases h
      | some o =>
        rw [ho] at h
        simp only at h
        cases hf : hsobject_find_attribute o r.unparsable with
        | none => rw [hf] at h; cases h
        | some i =>
          rw [hf] at h
          simp only [Option.some.injEq, Prod.mk.injEq] at h
          exact h.2.symm

theorem serialized_at_some (reg : Registry) (path text : CStr)
    (h : serialized_at reg path = some text) :
    ∃ obj idx, hsattribute_parse_path_verbose reg.objects path = some (some (obj, idx), []) ∧
      (reg.attribute obj idx).bind (hsattribute_to_string reg.heap) = some text := by
  unfold serialized_at at h
  split at h
  · rename_i obj idx out hp
    have := attribute_path_output _ _ _ _ hp
    subst this
    exact ⟨obj, idx, hp, h⟩
  · cases h

/-- Claim C23. `substitute_command` with at least four arguments: when
`argv[2]` does not resolve to an attribute it returns invalid-argument with the
resolver's text, dispatches nothing and leaves the registry as it was; when
`argv[2]` resolves to an attribute that serializes to `text`, it makes exactly
one call of `call_command_substitute`, with the identifier `argv[1]`, the
replacement `text` and the words `argv[3..]`, and returns that call's status,
output and registry. -/
theorem substitute_command_dispatches (dispatch : Dispatcher) (reg : Registry)
    (cmd identifier attrpath command : CStr) (args : List CStr) :
    (∀ out, hsattribute_parse_path_verbose reg.objects attrpath = some (none, out) →
      substitute_command dispatch reg (cmd :: identifier :: attrpath :: command :: args) =
        some ⟨HERBST_INVALID_ARGUMENT, out, reg, []⟩) ∧
    (∀ text, serialized_at reg attrpath = some text →
      substitute_command dispatch reg (cmd :: identifier :: attrpath :: command :: args) =
        some ⟨(dispatch identifier text (command :: args) reg).1,
          (dispatch identifier text (command :: args) reg).2.1,
          (dispatch identifier text (command :: args) reg).2.2,
          [(identifier, text, command :: args)]⟩) := by
  constructor
  · intro out h
    simp only [substitute_command, h]
  · intro text h
    obtain ⟨obj, idx, hp, hs⟩ := serialized_at_some reg attrpath text h
    simp only [substitute_command, hp, hs, List.nil_append]

/-- Witness for claim C23: `substitute X settings.nope echo X` and
`substitute X settings.title echo X` in the sample registry. -/
theorem substitute_command_dispatches_witness :
    substitute_command idle_dispatcher sample_registry
        ["substitute".toList, "X".toList, "settings.nope".toList, "echo".toList, "X".toList] =
      some ⟨HERBST_INVALID_ARGUMENT,
        unknown_attribute_message "settings.nope".toList "nope".toList, sample_registry, []⟩ ∧
    substitute_command idle_dispatcher sample_registry
        ["substitute".toList, "X".toList, "settings.title".toList, "echo".toList, "X".toList] =
      some ⟨0, [], sample_registry,
        [("X".toList, "xterm".toList, ["echo".toList, "X".toList])]⟩ :=
  ⟨(substitute_command_dispatches idle_dispatcher sample_registry "substitute".toList
      "X".toList "settings.nope".toList "echo".toList ["X".toList]).1 _ rfl,
   (substitute_command_dispatches idle_dispatcher sample_registry "substitute".toList
      "X".toList "settings.title".toList "echo".toList ["X".toList]).2 "xterm".toList
      (by decide)⟩

/-! ## Linking objects -/

theorem unlink_helper_filter (f : HSObjectChild → Bool) (l : List HSObjectChild) :
    hsobject_unlink_helper f l = l.filter (fun oc => !f oc) := by
  induction l with
  | nil => rfl
  | cons oc rest ih =>
    by_cases h : f oc = true
    · simp [hsobject_unlink_helper, h, ih]
    · simp [hsobject_unlink_helper, h, ih]

theorem unlink_helper_nodup (f : HSObjectChild → Bool) (l : List HSObjectChild)
    (h : (l.map (fun oc => oc.name)).Nodup) :
    ((hsobject_unlink_helper f l).map (fun oc => oc.name)).Nodup := by
  rw [unlink_helper_filter]
  exact h.sublist ((List.filter_sublist l).map _)

theorem unlink_by_name_absent (name : CStr) (l : List HSObjectChild) :
    name ∉ (hsobject_unlink_helper (child_check_name name) l).map (fun oc => oc.name) := by
  rw [unlink_helper_filter]
  simp [child_check_name]

theorem change_first_child_names (found : HSObjectChild → Bool) (child : Nat)
    (l : List HSObjectChild) :
    (change_first found (fun oc => { oc with child := child }) l).map (fun oc => oc.name) =
      l.map (fun oc => oc.name) := by
  induction l with
  | nil => rfl
  | cons oc rest ih =>
    by_cases h : found oc = true
    · simp [change_first, h]
    · simp [change_first, h, ih]

theorem find_name_none (name : CStr) (l : List HSObjectChild)
    (h : l.find? (child_check_name name) = none) : name ∉ l.map (fun oc => oc.name) := by
  simp only [List.find?_eq_none, child_check_name, decide_eq_true_eq] at h
  simp only [List.mem_map, not_exists, not_and]
  intro oc hoc e
  exact h oc hoc e

theorem find_name_some (name : CStr) (l : List HSObjectChild)
    (h : name ∈ l.map (fun oc => oc.name)) : ∃ oc, l.find? (child_check_name name) = some oc := by
  cases hf : l.find? (child_check_name name) with
  | none => exact absurd h (find_name_none name l hf)
  | some oc => exact ⟨oc, rfl⟩

theorem rename_first_names_mem (oldname newname x : CStr) (l : List HSObjectChild)
    (h : x ∈ (change_first (child_check_name oldname) (fun oc => { oc with name := newname })
      l).map (fun oc => oc.name)) :
    x = newname ∨ x ∈ l.map (fun oc => oc.name) := by
  induction l with
  | nil => simp [change_first] at h
  | cons oc rest ih =>
    by_cases hc : child_check_name oldname oc = true
    · simp only [change_first, hc, if_true, List.map_cons, List.mem_cons] at h
      rcases h with h | h
      · exact Or.inl h
      · exact Or.inr (List.mem_cons_of_mem _ h)
    · simp only [change_first, hc, Bool.false_eq_true, if_false, List.map_cons,
        List.mem_cons] at h
      rcases h with h | h
      · exact Or.inr (h ▸ List.mem_cons_self _ _)
      · rcases ih h with h | h
        · exact Or.inl h
        · exact Or.inr (List.mem_cons_of_mem _ h)

theorem rename_first_nodup (oldname newname : CStr) (l : List HSObjectChild)
    (hnd : (l.map (fun oc => oc.name)).Nodup) (hnew : newname ∉ l.map (fun oc => oc.name)) :
    ((change_first (child_check_name oldname) (fun oc => { oc with name := newname })
      l).map (fun oc => oc.name)).Nodup := by
  induction l with
  | nil => simp [change_first]
  | cons oc rest ih =>
    simp only [List.map_cons, List.nodup_cons, List.mem_cons, not_or] at hnd hnew
    by_cases hc : child_check_name oldname oc = true
    · simp only [change_first, hc, if_true, List.map_cons, List.nodup_cons]
      exact ⟨hnew.2, hnd.2⟩
    · simp only [change_first, hc, Bool.false_eq_true, if_false, List.map_cons,
        List.nodup_cons]
      refine ⟨fun hmem => ?_, ih hnd.2 hnew.2⟩
      rcases rename_first_names_mem oldname newname _ rest hmem with h | h
      · exact hnew.1 h.symm
      · exact hnd.1 h

theorem link_nodup (parent : HSObject) (child : Nat) (name : CStr)
    (hnd : (child_names parent).Nodup) : (child_names (hsobject_link parent child name)).Nodup := by
  unfold child_names at *
  unfold hsobject_link
  cases hf : parent.children.find? (child_check_name name) with
  | none =>
    simp only [List.map_append, List.map_cons, List.map_nil]
    have := find_name_none name _ hf
    rw [List.nodup_append]
    refine ⟨hnd, List.nodup_singleton _, ?_⟩
    intro a ha hb
    simp only [List.mem_singleton] at hb
    exact this (hb ▸ ha)
  | some oc =>
    simp only [change_first_child_names]
    exact hnd

/-- Claim C30. If the names in a node's child list are pairwise distinct, they
are pairwise distinct after `hsobject_link`, after `hsobject_unlink`, after
`hsobject_unlink_by_name`, after `hsobject_link_rename` when a child has the
old name (the call then completes), and after `hsobject_link_rename_object`. -/
theorem link_operations_keep_names_distinct (parent : HSObject)
    (hnd : (child_names parent).Nodup) (child : Nat) (name oldname newname : CStr) :
    (child_names (hsobject_link parent child name)).Nodup ∧
    (child_names (hsobject_unlink parent child)).Nodup ∧
    (child_names (hsobject_unlink_by_name parent name)).Nodup ∧
    (oldname ∈ child_names parent →
      ∃ p, hsobject_link_rename parent oldname newname = some p ∧ (child_names p).Nodup) ∧
    (child_names (hsobject_link_rename_object parent child newname)).Nodup := by
  refine ⟨link_nodup parent child name hnd, unlink_helper_nodup _ _ hnd,
    unlink_helper_nodup _ _ hnd, ?_, ?_⟩
  · intro hold
    by_cases he : oldname = newname
    · exact ⟨parent, by simp [hsobject_link_rename, he], hnd⟩
    · have hmem : oldname ∈ (hsobject_unlink_helper (child_check_name newname)
          parent.children).map (fun oc => oc.name) := by
        rw [unlink_helper_filter]
        simp only [child_names, List.mem_map] at hold
        obtain ⟨oc, hoc, hn⟩ := hold
        simp only [List.mem_map, List.mem_filter, child_check_name, Bool.not_eq_true',
          decide_eq_false_iff_not]
        exact ⟨oc, ⟨hoc, fun e => he (hn.symm.trans e)⟩, hn⟩
      obtain ⟨oc, hoc⟩ := find_name_some oldname _ hmem
      have hren : ∃ p, hsobject_link_rename parent oldname newname = some p ∧
          p.children = change_first (child_check_name oldname)
            (fun oc => { oc with name := newname })
            (hsobject_unlink_helper (child_check_name newname) parent.children) := by
        simp only [hsobject_link_rename, he, if_false, hsobject_unlink_by_name, hoc]
        exact ⟨_, rfl, rfl⟩
      obtain ⟨p, hp, hch⟩ := hren
      refine ⟨p, hp, ?_⟩
      unfold child_names
      rw [hch]
      exact rename_first_nodup oldname newname _ (unlink_helper_nodup _ _ hnd)
        (unlink_by_name_absent newname _)
  · exact link_nodup _ child newname (unlink_helper_nodup _ _ hnd)

/-- Witness for claim C30: the root of the sample registry, with the children
`tmp` and `settings`; `settings` is renamed to `tmp`. -/
theorem link_operations_keep_names_distinct_witness :
    (child_names (hsobject_link ⟨[], [⟨"tmp".toList, 1⟩, ⟨"settings".toList, 2⟩]⟩ 3
      "tmp".toList)).Nodup ∧
    (child_names (hsobject_unlink ⟨[], [⟨"tmp".toList, 1⟩, ⟨"settings".toList, 2⟩]⟩ 3)).Nodup ∧
    (child_names (hsobject_unlink_by_name ⟨[], [⟨"tmp".toList, 1⟩, ⟨"settings".toList, 2⟩]⟩
      "tmp".toList)).Nodup ∧
    (∃ p, hsobject_link_rename ⟨[], [⟨"tmp".toList, 1⟩, ⟨"settings".toList, 2⟩]⟩
        "settings".toList "tmp".toList = some p ∧ (child_names p).Nodup) ∧
    (child_names (hsobject_link_rename_object
      ⟨[], [⟨"tmp".toList, 1⟩, ⟨"settings".toList, 2⟩]⟩ 3 "tmp".toList)).Nodup :=
  have h := link_operations_keep_names_distinct
    ⟨[], [⟨"tmp".toList, 1⟩, ⟨"settings".toList, 2⟩]⟩ (by decide) 3 "tmp".toList
    "settings".toList "tmp".toList
  ⟨h.1, h.2.1, h.2.2.1, h.2.2.2.1 (by decide), h.2.2.2.2⟩

/-! ## Comparison -/

theorem sscanf_lld_show (v : Int) (hlo : -(2 ^ 63) ≤ v) (hhi : v < 2 ^ 63) :
    sscanf_lld (show_int v) = some v := by
  obtain ⟨h1, h2, h3⟩ := toDigits_spec v.natAbs
  obtain ⟨s1, s2⟩ := scan_toDigits v.natAbs
  by_cases hneg : v < 0
  · have hsp : isspace '-' = false := by decide
    simp only [sscanf_lld, show_int, if_pos hneg, List.dropWhile, hsp, scan_sign, if_true,
      s2, if_neg h2, h3]
    congr 1
    omega
  · simp only [sscanf_lld, show_int, if_neg hneg, s1, s2, if_neg h2, h3, Bool.false_eq_true,
      if_false]
    congr 1
    omega

/-- The loop over the table of `compare_command` finds the relation the
operator names, and -1 for any other operator. -/
theorem compare_lookup_spec (l r : Int) (op : CStr) :
    compare_lookup (compare_table l r) op =
      match named_relation op with
      | some rel => if rel l r = true then 0 else 1
      | none => -1 := by
  simp only [compare_lookup, compare_table, List.foldl, named_relation]
  by_cases h1 : op = "=".toList
  · subst h1; simp
  by_cases h2 : op = "!=".toList
  · subst h2; simp
  by_cases h3 : op = "le".toList
  · subst h3; simp
  by_cases h4 : op = "lt".toList
  · subst h4; simp
  by_cases h5 : op = "ge".toList
  · subst h5; simp
  by_cases h6 : op = "gt".toList
  · subst h6; simp
  simp only [String.toList] at h1 h2 h3 h4 h5 h6
  simp [h1, h2, h3, h4, h5, h6, Ne.symm h1, Ne.symm h2, Ne.symm h3, Ne.symm h4, Ne.symm h5,
    Ne.symm h6]

theorem compare_equality_none (equals : Bool) (op : CStr) (h1 : op ≠ "=".toList)
    (h2 : op ≠ "!=".toList) : compare_equality equals op = none := by
  unfold compare_equality
  rw [if_neg h1, if_neg h2]

/-- Every run of `compare_command` that completes leaves the registry as it
was and dispatches nothing. -/
theorem compare_command_pure (ext : Externals) (reg : Registry) (argv : List CStr)
    (res : CommandResult) (h : compare_command ext reg argv = some res) :
    res.reg = reg ∧ res.dispatched = [] := by
  unfold compare_command at h
  repeat' (first | split at h | (dsimp only at h; split at h))
  all_goals first
    | (cases h; exact ⟨rfl, rfl⟩)
    | cases h

/-- Claim C25. For an attribute that `path` resolves to: on an integer kind
every operator outside `=`, `!=`, `le`, `lt`, `ge`, `gt` gets invalid-argument
(whether or not the constant parses); on bool, color, string and computed
string every operator other than `=` and `!=` gets invalid-argument; on string
and computed string `=` returns 0 when the serialized value equals the constant
and 1 otherwise; and the call completes with the registry as it was. -/
theorem compare_command_operators (ext : Externals) (reg : Registry)
    (cmd path op rvalue : CStr) (rest : List CStr) (obj idx : Nat) (out : CStr)
    (a : HSAttribute)
    (hp : hsattribute_parse_path_verbose reg.objects path = some (some (obj, idx), out))
    (ha : reg.attribute obj idx = some a) :
    ((compare_lvalue a.value).isSome = true → named_relation op = none →
      (compare_command ext reg (cmd :: path :: op :: rvalue :: rest)).map (fun x => x.status) =
        some HERBST_INVALID_ARGUMENT) ∧
    (compare_lvalue a.value = none → op ≠ "=".toList → op ≠ "!=".toList →
      (compare_command ext reg (cmd :: path :: op :: rvalue :: rest)).map (fun x => x.status) =
        some HERBST_INVALID_ARGUMENT) ∧
    (a.type = .STRING ∨ a.type = .CUSTOM →
      ∃ text, hsattribute_to_string reg.heap a = some text ∧
        (compare_command ext reg (cmd :: path :: "=".toList :: rvalue :: rest)).map
          (fun x => x.status) = some (if text = rvalue then 0 else 1)) ∧
    (∃ res, compare_command ext reg (cmd :: path :: op :: rvalue :: rest) = some res ∧
      res.reg = reg ∧ res.dispatched = []) := by
  have hout := attribute_path_output _ _ _ _ hp
  subst hout
  refine ⟨?_, ?_, ?_, ?_⟩
  · intro hl hop
    have hlook : ∀ l r, compare_lookup (compare_table l r) op = -1 := by
      intro l r
      have := compare_lookup_spec l r op
      rw [hop] at this
      exact this
    cases hv : a.value <;> rw [hv] at hl <;>
      simp only [compare_lvalue, Option.isSome_none, Option.isSome_some, Bool.false_eq_true,
        reduceCtorEq] at hl <;>
      cases hs : sscanf_lld rvalue <;>
      simp only [compare_command, hp, ha, hv, hs, compare_lvalue, hlook, if_true,
        Option.map_some']
  · intro hl h1 h2
    have hce := fun e => compare_equality_none e op h1 h2
    cases hv : a.value <;> rw [hv] at hl <;>
      simp only [compare_lvalue, reduceCtorEq] at hl
    · simp only [compare_command, hp, ha, hv, hce]
      split <;> rfl
    · simp only [compare_command, hp, ha, hv, hce, Option.map_some']
    · simp only [compare_command, hp, ha, hv, hce, Option.map_some']
    · simp only [compare_command, hp, ha, hv, hce, Option.map_some']
  · intro hty
    cases hv : a.value <;>
      simp only [HSAttribute.type, hv, HSAttributeValue.type, reduceCtorEq, or_self] at hty
    · rename_i text
      refine ⟨text, by simp only [hsattribute_to_string, hv], ?_⟩
      simp only [compare_command, hp, ha, hv, compare_equality, if_true, Option.map_some',
        List.nil_append]
      by_cases h : text = rvalue <;> simp [h]
    · rename_i text
      refine ⟨text, by simp only [hsattribute_to_string, hv], ?_⟩
      simp only [compare_command, hp, ha, hv, compare_equality, if_true, Option.map_some',
        List.nil_append]
      by_cases h : text = rvalue <;> simp [h]
  · have hsome : ∃ res, compare_command ext reg (cmd :: path :: op :: rvalue :: rest) =
        some res := by
      simp only [compare_command, hp, ha]
      repeat' split
      all_goals exact ⟨_, rfl⟩
    obtain ⟨res, hres⟩ := hsome
    exact ⟨res, hres, compare_command_pure ext reg _ res hres⟩

/-- Witness for claim C25: `gap = 7` with the operator `eq`, the string `title`
with the operator `lt`, and `title = xterm` compared with `xterm`. -/
theorem compare_command_operators_witness :
    (compare_command sample_ext scenario_registry
        ["compare".toList, "settings.gap".toList, "eq".toList, "9".toList]).map
      (fun x => x.status) = some HERBST_INVALID_ARGUMENT ∧
    (compare_command sample_ext sample_registry
        ["compare".toList, "settings.title".toList, "lt".toList, "xterm".toList]).map
      (fun x => x.status) = some HERBST_INVALID_ARGUMENT ∧
    (∃ text, hsattribute_to_string sample_registry.heap title_attr = some text ∧
      (compare_command sample_ext sample_registry
          ["compare".toList, "settings.title".toList, "=".toList, "xterm".toList]).map
        (fun x => x.status) = some (if text = "xterm".toList then 0 else 1)) :=
  ⟨(compare_command_operators sample_ext scenario_registry "compare".toList
      "settings.gap".toList "eq".toList "9".toList [] 1 0 [] { gap_attr with value := .i 7 }
      rfl rfl).1 rfl rfl,
   (compare_command_operators sample_ext sample_registry "compare".toList
      "settings.title".toList "lt".toList "xterm".toList [] 2 1 [] title_attr
      rfl rfl).2.1 rfl (by decide) (by decide),
   (compare_command_operators sample_ext sample_registry "compare".toList
      "settings.title".toList "lt".toList "xterm".toList [] 2 1 [] title_attr
      rfl rfl).2.2.1 (Or.inl rfl)⟩

/-! ## The combined command on attribute paths -/

/-- Claim C27. For a path whose object resolution leaves a remainder:
when the path names an attribute, `attr_command` with a new value gives
the result of `hsattribute_set_command` (status, text and registry) and
`attr_command` with the path alone gives the result of
`hsattribute_get_command` (status 0 and the same value text); when the path
names no attribute, all four calls return invalid-argument and leave the
registry as it was, the text of `attr_command` being the text of the object
resolution followed by the text of the dedicated command.  In every case the
combined command returns the status and leaves the registry of the dedicated
one. -/
theorem attr_command_agrees_with_get_set (ext : Externals) (reg : Registry)
    (cmd cmd2 path value : CStr) (rest rest2 : List CStr) (r : ParseResult)
    (hr : hsobject_parse_path_verbose reg.objects path = some r)
    (hpart : r.unparsable ≠ []) :
    (∀ A out, hsattribute_parse_path_verbose reg.objects path = some (some A, out) →
      attr_command ext reg (cmd :: path :: value :: rest) =
        hsattribute_set_command ext reg (cmd2 :: path :: value :: rest2) ∧
      attr_command ext reg [cmd, path] = hsattribute_get_command reg (cmd2 :: path :: rest2)) ∧
    (∀ out, hsattribute_parse_path_verbose reg.objects path = some (none, out) →
      attr_command ext reg (cmd :: path :: value :: rest) =
        some ⟨HERBST_INVALID_ARGUMENT, r.output ++ out, reg, []⟩ ∧
      hsattribute_set_command ext reg (cmd2 :: path :: value :: rest2) =
        some ⟨HERBST_INVALID_ARGUMENT, out, reg, []⟩ ∧
      attr_command ext reg [cmd, path] =
        some ⟨HERBST_INVALID_ARGUMENT, r.output ++ out, reg, []⟩ ∧
      hsattribute_get_command reg (cmd2 :: path :: rest2) =
        some ⟨HERBST_INVALID_ARGUMENT, out, reg, []⟩) ∧
    (attr_command ext reg (cmd :: path :: value :: rest)).map (fun x => (x.status, x.reg)) =
      (hsattribute_set_command ext reg (cmd2 :: path :: value :: rest2)).map
        (fun x => (x.status, x.reg)) ∧
    (attr_command ext reg [cmd, path]).map (fun x => (x.status, x.reg)) =
      (hsattribute_get_command reg (cmd2 :: path :: rest2)).map (fun x => (x.status, x.reg)) := by
  have hfound : ∀ A out, hsattribute_parse_path_verbose reg.objects path = some (some A, out) →
      attr_command ext reg (cmd :: path :: value :: rest) =
        hsattribute_set_command ext reg (cmd2 :: path :: value :: rest2) ∧
      attr_command ext reg [cmd, path] =
        hsattribute_get_command reg (cmd2 :: path :: rest2) := by
    rintro ⟨obj, idx⟩ out hp
    have hout := attribute_path_output _ _ _ _ hp
    subst hout
    constructor
    · simp only [attr_command, hsattribute_set_command, hr, hp, hpart, ne_eq, not_false_eq_true,
        if_true, List.getD_cons_succ, List.getD_cons_zero, List.getElem?_cons_succ,
        List.getElem?_cons_zero, List.nil_append]
      cases assign_attribute_at ext reg obj idx value <;> rfl
    · simp only [attr_command, hsattribute_get_command, hr, hp, hpart, ne_eq, not_false_eq_true,
        if_true, List.getD_cons_succ, List.getD_cons_zero, List.getElem?_cons_succ,
        List.getElem?_nil, List.nil_append]

  have hmissing : ∀ out, hsattribute_parse_path_verbose reg.objects path = some (none, out) →
      attr_command ext reg (cmd :: path :: value :: rest) =
        some ⟨HERBST_INVALID_ARGUMENT, r.output ++ out, reg, []⟩ ∧
      hsattribute_set_command ext reg (cmd2 :: path :: value :: rest2) =
        some ⟨HERBST_INVALID_ARGUMENT, out, reg, []⟩ ∧
      attr_command ext reg [cmd, path] =
        some ⟨HERBST_INVALID_ARGUMENT, r.output ++ out, reg, []⟩ ∧
      hsattribute_get_command reg (cmd2 :: path :: rest2) =
        some ⟨HERBST_INVALID_ARGUMENT, out, reg, []⟩ := by
    intro out hp
    refine ⟨?_, ?_, ?_, ?_⟩ <;>
      simp only [attr_command, hsattribute_set_command, hsattribute_get_command, hr, hp, hpart,
        ne_eq, not_false_eq_true, if_true, List.getD_cons_succ, List.getD_cons_zero]
  refine ⟨hfound, hmissing, ?_, ?_⟩
  · cases hp : hsattribute_parse_path_verbose reg.objects path with
    | none =>
      simp only [attr_command, hsattribute_set_command, hr, hp, hpart, ne_eq,
        not_false_eq_true, if_true, List.getD_cons_succ, List.getD_cons_zero]
    | some res =>
      obtain ⟨A, out⟩ := res
      cases A with
      | none =>
        obtain ⟨h1, h2, -, -⟩ := hmissing out hp
        rw [h1, h2]; rfl
      | some A => rw [(hfound A out hp).1]
  · cases hp : hsattribute_parse_path_verbose reg.objects path with
    | none =>
      simp only [attr_command, hsattribute_get_command, hr, hp, hpart, ne_eq,
        not_false_eq_true, if_true, List.getD_cons_succ, List.getD_cons_zero]
    | some res =>
      obtain ⟨A, out⟩ := res
      cases A with
      | none =>
        obtain ⟨-, -, h1, h2⟩ := hmissing out hp
        rw [h1, h2]; rfl
      | some A => rw [(hfound A out hp).2]

/-- Witness for claim C27: `settings.gap` (an attribute) and `settings.nope` (no
attribute) in the scenario registry. -/
theorem attr_command_agrees_with_get_set_witness :
    (attr_command sample_ext scenario_registry
        ["attr".toList, "settings.gap".toList, "9".toList] =
      hsattribute_set_command sample_ext scenario_registry
        ["set".toList, "settings.gap".toList, "9".toList] ∧
    attr_command sample_ext scenario_registry ["attr".toList, "settings.gap".toList] =
      hsattribute_get_command scenario_registry ["get".toList, "settings.gap".toList]) ∧
    (attr_command sample_ext scenario_registry
        ["attr".toList, "settings.nope".toList, "9".toList]).map (fun x => (x.status, x.reg)) =
      (hsattribute_set_command sample_ext scenario_registry
        ["set".toList, "settings.nope".toList, "9".toList]).map (fun x => (x.status, x.reg)) ∧
    hsattribute_get_command scenario_registry ["get".toList, "settings.gap".toList] =
      some ⟨0, "7".toList, scenario_registry, []⟩ :=
  ⟨(attr_command_agrees_with_get_set sample_ext scenario_registry "attr".toList "set".toList
      "settings.gap".toList "9".toList [] []
      ⟨1, "gap".toList, invalid_path_message "settings.gap".toList "gap".toList "settings".toList⟩
      rfl (by decide)).1 (1, 0) [] rfl,
   (attr_command_agrees_with_get_set sample_ext scenario_registry "attr".toList "set".toList
      "settings.nope".toList "9".toList [] []
      ⟨1, "nope".toList,
        invalid_path_message "settings.nope".toList "nope".toList "settings".toList⟩
      rfl (by decide)).2.2.1,
   rfl⟩

/-! ## Listing an object -/

theorem foldl_print_child_name (children : List HSObjectChild) :
    ∀ output : CStr, children.foldl print_child_name output =
      output ++ (children.map child_line).flatten := by
  induction children with
  | nil => intro output; simp
  | cons oc rest ih =>
    intro output
    simp only [List.foldl_cons, ih, List.map_cons, List.flatten_cons, print_child_name,
      child_line, List.append_assoc]

theorem list_attributes_lines (heap : GHeap) (attrs : List HSAttribute) :
    ∀ output : CStr,
      (∀ a ∈ attrs, (hsattribute_is_read_only a).isSome = true ∧
        (hsattribute_to_string heap a).isSome = true) →
      list_attributes heap attrs output =
        some (output ++ (attrs.map (attribute_line heap)).flatten) := by
  induction attrs with
  | nil => intro output _; simp [list_attributes]
  | cons a rest ih =>
    intro output h
    obtain ⟨h1, h2⟩ := h a (List.mem_cons_self _ _)
    obtain ⟨ro, hro⟩ := Option.isSome_iff_exists.mp h1
    obtain ⟨text, htext⟩ := Option.isSome_iff_exists.mp h2
    simp only [list_attributes, hro, htext]
    rw [ih _ (fun b hb => h b (List.mem_cons_of_mem _ hb))]
    congr 1
    simp only [List.map_cons, List.flatten_cons, attribute_line, hro, htext, Option.getD_some,
      Option.some.injEq, List.append_assoc]
    cases ro <;> by_cases hs : a.type = .STRING <;>
      simp [hs]

/-- Claim C28. When `path` resolves entirely to a node whose attributes can all
be read, `attr_command` with the path alone returns 0, leaves the registry as
it was and prints: the number of children, one line per child in link order
with the name followed by the separator, the number of attributes, and one
line per attribute in table order with its type indicator, `-` or `w` as
`hsattribute_is_read_only` says, its name and its serialized value, which is in
double quotes exactly when the type is `HSATTR_TYPE_STRING`. -/
theorem attr_command_lists_object (ext : Externals) (reg : Registry) (cmd path : CStr)
    (r : ParseResult) (o : HSObject)
    (hr : hsobject_parse_path_verbose reg.objects path = some r) (hall : r.unparsable = [])
    (ho : reg.objects[r.obj]? = some o)
    (hattrs : ∀ a ∈ o.attributes, (hsattribute_is_read_only a).isSome = true ∧
      (hsattribute_to_string reg.heap a).isSome = true) :
    attr_command ext reg [cmd, path] = some ⟨0, listing_text reg.heap o, reg, []⟩ := by
  have hlist : list_object reg.heap o = some (listing_text reg.heap o) := by
    simp only [list_object, foldl_print_child_name]
    rw [list_attributes_lines reg.heap o.attributes _ hattrs]
    congr 1
    unfold listing_text
    cases hc : o.children <;> cases hat : o.attributes <;>
      simp [List.isEmpty]
  simp [attr_command, hr, hall, ho, hlist]

/-- Witness for claim C28: `attr settings` in the sample registry. -/
theorem attr_command_lists_object_witness :
    attr_command sample_ext sample_registry ["attr".toList, "settings".toList] =
      some ⟨0, listing_text sample_registry.heap
        { attributes := [gap_attr, title_attr], children := [⟨"gap".toList, 3⟩] },
        sample_registry, []⟩ ∧
    listing_text sample_registry.heap
        { attributes := [gap_attr, title_attr], children := [⟨"gap".toList, 3⟩] } =
      "1 children:".toList ++ [newline] ++ "  gap.".toList ++ [newline] ++ [newline]
        ++ "2 attributes:".toList ++ [newline] ++ " .---- type".toList ++ [newline]
        ++ " | .-- writeable".toList ++ [newline] ++ " V V".toList ++ [newline]
        ++ " i w gap = 5".toList ++ [newline]
        ++ " s - title = ".toList ++ [dquote] ++ "xterm".toList ++ [dquote] ++ [newline] :=
  ⟨attr_command_lists_object sample_ext sample_registry "attr".toList "settings".toList
      ⟨2, [], []⟩ { attributes := [gap_attr, title_attr], children := [⟨"gap".toList, 3⟩] }
      rfl rfl rfl (by decide),
    by decide⟩

/-! ## Formats with doubled escape characters, and formats that are refused -/

theorem sprintf_loop_items (reg : Registry) (fmt : CStr) (more : List CStr) (rest : CStr)
    (hmore : more ≠ []) :
    ∀ (items : List FormatItem) (pre : List CStr) (i : Nat) (repl : CStr),
      (∀ it ∈ items, it.ok reg = true) →
      sprintf_loop reg fmt (pre ++ format_paths items ++ more) (format_source items ++ rest)
          i pre.length repl =
        sprintf_loop reg fmt (pre ++ format_paths items ++ more) rest
          (i + (format_source items).length) (pre.length + (format_paths items).length)
          (repl ++ format_result items) := by
  intro items
  induction items with
  | nil => intro pre i repl _; simp [format_source, format_paths, format_result]
  | cons it tail ih =>
    intro pre i repl hok
    have hit := hok it (List.mem_cons_self _ _)
    have htail : ∀ x ∈ tail, x.ok reg = true := fun x hx => hok x (List.mem_cons_of_mem _ hx)
    cases it with
    | lit c =>
      simp only [FormatItem.ok, decide_eq_true_eq] at hit
      have hrec := ih pre (i + 1) (repl ++ [c]) htail
      simp only [format_source, format_paths, format_result, FormatItem.source,
        FormatItem.paths, List.nil_append, List.cons_append, List.length_cons]
      rw [sprintf_loop.eq_def]
      simp only [if_neg hit]
      rw [hrec]
      simp [Nat.add_assoc, Nat.add_comm 1]
    | percent =>
      have hrec := ih pre (i + 2) (repl ++ "%%".toList) htail
      simp only [format_source, format_paths, format_result, FormatItem.source,
        FormatItem.paths, List.nil_append, List.cons_append, List.length_cons]
      rw [sprintf_loop.eq_def]
      simp only [if_true]
      rw [hrec]
      simp [Nat.add_assoc, Nat.add_comm 2]
    | value path text =>
      simp only [FormatItem.ok, decide_eq_true_eq] at hit
      obtain ⟨obj, idx, hp, hs⟩ := serialized_at_some reg path text hit
      have hrec := ih (pre ++ [path]) (i + 2) (repl ++ text) htail
      have hparams : pre ++ format_paths (FormatItem.value path text :: tail) ++ more =
          pre ++ [path] ++ format_paths tail ++ more := by
        simp [format_paths, FormatItem.paths]
      rw [hparams]
      simp only [format_source, format_result, FormatItem.source, List.cons_append,
        List.nil_append, List.length_cons]
      have hs' : ('s' : Char) ≠ FORMAT_CHAR := by decide
      have hget : (pre ++ [path] ++ format_paths tail ++ more).getD pre.length [] = path := by
        have : (pre ++ [path] ++ format_paths tail ++ more)[pre.length]? = some path := by
          rw [List.append_assoc, List.append_assoc, List.getElem?_append_right (Nat.le_refl _)]
          simp
        rw [List.getD_eq_getElem?_getD, this]
        rfl
      have hlen : ¬ (pre.length + 1 ≥ (pre ++ [path] ++ format_paths tail ++ more).length) := by
        have : 0 < more.length := List.length_pos.mpr hmore
        simp only [List.length_append, List.length_cons, List.length_nil]
        omega
      rw [sprintf_loop.eq_def]
      simp only [if_true, hs', if_false, hlen, hget, hp, hs]
      have hl : (pre ++ [path]).length = pre.length + 1 := by simp
      rw [hl] at hrec
      rw [hrec]
      simp [format_paths, FormatItem.paths, Nat.add_assoc, Nat.add_comm 1, Nat.add_comm 2]

theorem sprintf_command_of_error (dispatch : Dispatcher) (reg : Registry)
    (cmd identifier format : CStr) (params : List CStr) (out : CStr) (hparams : params ≠ [])
    (h : sprintf_loop reg format params format 0 0 [] = some (.error out)) :
    sprintf_command dispatch reg (cmd :: identifier :: format :: params) =
      some ⟨HERBST_INVALID_ARGUMENT, out, reg, []⟩ := by
  cases params with
  | nil => exact absurd rfl hparams
  | cons param params => simp only [sprintf_command, h]

theorem format_result_length (items : List FormatItem) :
    (format_result items).length = (format_meaning items).length + escape_count items := by
  induction items with
  | nil => rfl
  | cons it tail ih =>
    cases it with
    | lit c => simp only [format_result, format_meaning, escape_count, List.length_cons, ih]; omega
    | percent =>
      simp only [format_result, format_meaning, escape_count, List.length_cons,
        List.length_append, ih]
      have : "%%".toList.length = 2 := rfl
      omega
    | value path text =>
      simp only [format_result, format_meaning, escape_count, List.length_append, ih]
      omega

/-- Claim C21, evaluated on the code: for a format made of literal characters,
doubled escape characters and placeholders whose paths serialize, followed by
those paths and a command, `sprintf_command` dispatches the command with the
replacement `format_result`, in which every doubled escape character of the
format is still two escape characters; the replacement is longer than the
text the format stands for by one character per doubled escape. -/
theorem sprintf_command_keeps_doubled_escape (dispatch : Dispatcher) (reg : Registry)
    (cmd identifier : CStr) (items : List FormatItem) (command : CStr) (args : List CStr)
    (hok : ∀ it ∈ items, it.ok reg = true) :
    sprintf_command dispatch reg
        (cmd :: identifier :: format_source items :: (format_paths items ++ command :: args)) =
      some ⟨(dispatch identifier (format_result items) (command :: args) reg).1,
        (dispatch identifier (format_result items) (command :: args) reg).2.1,
        (dispatch identifier (format_result items) (command :: args) reg).2.2,
        [(identifier, format_result items, command :: args)]⟩ ∧
    (format_result items).length = (format_meaning items).length + escape_count items := by
  refine ⟨?_, format_result_length items⟩
  have hloop := sprintf_loop_items reg (format_source items) (command :: args) []
    (List.cons_ne_nil _ _) items [] 0 [] hok
  simp only [List.nil_append, List.length_nil, Nat.zero_add, List.append_nil] at hloop
  have hend : ∀ (fmt : CStr) (params : List CStr) (i n : Nat) (repl : CStr),
      sprintf_loop reg fmt params [] i n repl = some (.ok (repl, n)) := by
    intros; simp only [sprintf_loop]
  rw [hend] at hloop
  have hdrop : (format_paths items ++ command :: args).drop (format_paths items).length =
      command :: args := List.drop_left _ _
  cases hparams : format_paths items ++ command :: args with
  | nil =>
    have := congrArg List.length hparams
    simp at this
  | cons param params =>
    rw [hparams] at hloop hdrop
    simp only [sprintf_command, hloop, hdrop]

/-- Claim C21 on the sample registry: `sprintf X 100%% echo X` dispatches `echo X`
with the replacement `100%%`, of five characters, where the format stands
for the four characters `100%`. -/
theorem sprintf_command_keeps_doubled_escape_witness :
    sprintf_command idle_dispatcher sample_registry
        ["sprintf".toList, "X".toList, "100%%".toList, "echo".toList, "X".toList] =
      some ⟨0, [], sample_registry,
        [("X".toList, "100%%".toList, ["echo".toList, "X".toList])]⟩ ∧
    (format_result [.lit '1', .lit '0', .lit '0', .percent]).length =
      (format_meaning [.lit '1', .lit '0', .lit '0', .percent]).length + 1 :=
  sprintf_command_keeps_doubled_escape idle_dispatcher sample_registry "sprintf".toList
    "X".toList [.lit '1', .lit '0', .lit '0', .percent] "echo".toList ["X".toList] (by decide)

/-- Claim C22. Let the format begin with literal characters, doubled escape
characters and placeholders whose paths are given and serialize.  If it goes
on with an escape character that ends the format or is followed by a character
other than `s` and the escape character, or with a placeholder when the only
word left is the last one (taken as the command), or with a placeholder whose
path does not resolve to an attribute, then `sprintf_command` returns
invalid-argument, dispatches nothing and leaves the registry as it was; in the
last case its text is the text of the attribute resolution. -/
theorem sprintf_command_rejects (dispatch : Dispatcher) (reg : Registry)
    (cmd identifier : CStr) (items : List FormatItem)
    (hok : ∀ it ∈ items, it.ok reg = true) :
    (∀ (rest command : CStr) (args : List CStr), bad_escape rest = true →
      ∃ out, sprintf_command dispatch reg
          (cmd :: identifier :: (format_source items ++ rest) ::
            (format_paths items ++ command :: args)) =
        some ⟨HERBST_INVALID_ARGUMENT, out, reg, []⟩) ∧
    (∀ (tail command : CStr),
      ∃ out, sprintf_command dispatch reg
          (cmd :: identifier :: (format_source items ++ FORMAT_CHAR :: 's' :: tail) ::
            (format_paths items ++ [command])) =
        some ⟨HERBST_INVALID_ARGUMENT, out, reg, []⟩) ∧
    (∀ (tail path out command : CStr) (args : List CStr),
      hsattribute_parse_path_verbose reg.objects path = some (none, out) →
      sprintf_command dispatch reg
          (cmd :: identifier :: (format_source items ++ FORMAT_CHAR :: 's' :: tail) ::
            (format_paths items ++ path :: command :: args)) =
        some ⟨HERBST_INVALID_ARGUMENT, out, reg, []⟩) := by
  have hs' : ('s' : Char) ≠ FORMAT_CHAR := by decide
  refine ⟨?_, ?_, ?_⟩
  · intro rest command args hbad
    have hloop := sprintf_loop_items reg (format_source items ++ rest) (command :: args) rest
      (List.cons_ne_nil _ _) items [] 0 [] hok
    simp only [List.nil_append, List.length_nil, Nat.zero_add] at hloop
    have herr : ∃ out, sprintf_loop reg (format_source items ++ rest)
        (format_paths items ++ command :: args) (format_source items ++ rest) 0 0 [] =
          some (.error out) := by
      rw [hloop]
      rcases rest with _ | ⟨c, _ | ⟨d, t⟩⟩
      · simp [bad_escape] at hbad
      · simp only [bad_escape, decide_eq_true_eq] at hbad
        subst hbad
        rw [sprintf_loop.eq_def]
        simp only [if_true]
        exact ⟨_, rfl⟩
      · simp only [bad_escape, Bool.and_eq_true, decide_eq_true_eq] at hbad
        obtain ⟨⟨hc, hd1⟩, hd2⟩ := hbad
        subst hc
        rw [sprintf_loop.eq_def]
        simp only [if_true, if_neg hd1, if_neg hd2]
        exact ⟨_, rfl⟩
    obtain ⟨out, hout⟩ := herr
    exact ⟨out, sprintf_command_of_error dispatch reg cmd identifier _ _ out (by simp) hout⟩
  · intro tail command
    have hloop := sprintf_loop_items reg (format_source items ++ FORMAT_CHAR :: 's' :: tail)
      [command] (FORMAT_CHAR :: 's' :: tail) (List.cons_ne_nil _ _) items [] 0 [] hok
    simp only [List.nil_append, List.length_nil, Nat.zero_add] at hloop
    have hlen : (format_paths items).length + 1 ≥ (format_paths items ++ [command]).length := by
      simp
    have herr : ∃ out, sprintf_loop reg (format_source items ++ FORMAT_CHAR :: 's' :: tail)
        (format_paths items ++ [command]) (format_source items ++ FORMAT_CHAR :: 's' :: tail)
        0 0 [] = some (.error out) := by
      rw [hloop, sprintf_loop.eq_def]
      simp only [if_true, hs', if_false, if_pos hlen]
      exact ⟨_, rfl⟩
    obtain ⟨out, hout⟩ := herr
    exact ⟨out, sprintf_command_of_error dispatch reg cmd identifier _ _ out (by simp) hout⟩
  · intro tail path out command args hp
    have hloop := sprintf_loop_items reg (format_source items ++ FORMAT_CHAR :: 's' :: tail)
      (path :: command :: args) (FORMAT_CHAR :: 's' :: tail) (List.cons_ne_nil _ _) items [] 0 []
      hok
    simp only [List.nil_append, List.length_nil, Nat.zero_add] at hloop
    have hlen : ¬ ((format_paths items).length + 1 ≥
        (format_paths items ++ path :: command :: args).length) := by
      simp only [List.length_append, List.length_cons]
      omega
    have hget : (format_paths items ++ path :: command :: args).getD
        (format_paths items).length [] = path := by
      rw [List.getD_eq_getElem?_getD, List.getElem?_append_right (Nat.le_refl _)]
      simp
    refine sprintf_command_of_error dispatch reg cmd identifier _ _ out (by simp) ?_
    rw [hloop, sprintf_loop.eq_def]
    simp only [if_true, hs', if_false, hlen, hget, hp]

/-- Witness for claim C22 in the sample registry: the formats `%d`, `50%`,
`%s%s` with one path, and `%s` with the path `settings.nope`. -/
theorem sprintf_command_rejects_witness :
    (∃ out, sprintf_command idle_dispatcher sample_registry
        ["sprintf".toList, "X".toList, "%d".toList, "echo".toList, "X".toList] =
      some ⟨HERBST_INVALID_ARGUMENT, out, sample_registry, []⟩) ∧
    (∃ out, sprintf_command idle_dispatcher sample_registry
        ["sprintf".toList, "X".toList, "50%".toList, "echo".toList, "X".toList] =
      some ⟨HERBST_INVALID_ARGUMENT, out, sample_registry, []⟩) ∧
    (∃ out, sprintf_command idle_dispatcher sample_registry
        ["sprintf".toList, "X".toList, "%s%s".toList, "settings.title".toList, "echo".toList] =
      some ⟨HERBST_INVALID_ARGUMENT, out, sample_registry, []⟩) ∧
    sprintf_command idle_dispatcher sample_registry
        ["sprintf".toList, "X".toList, "%s".toList, "settings.nope".toList, "echo".toList,
          "X".toList] =
      some ⟨HERBST_INVALID_ARGUMENT,
        unknown_attribute_message "settings.nope".toList "nope".toList, sample_registry, []⟩ :=
  ⟨(sprintf_command_rejects idle_dispatcher sample_registry "sprintf".toList "X".toList []
      (by decide)).1 "%d".toList "echo".toList ["X".toList] (by decide),
   (sprintf_command_rejects idle_dispatcher sample_registry "sprintf".toList "X".toList
      [.lit '5', .lit '0'] (by decide)).1 "%".toList "echo".toList ["X".toList] (by decide),
   (sprintf_command_rejects idle_dispatcher sample_registry "sprintf".toList "X".toList
      [.value "settings.title".toList "xterm".toList] (by decide)).2.1 [] "echo".toList,
   (sprintf_command_rejects idle_dispatcher sample_registry "sprintf".toList "X".toList []
      (by decide)).2.2 [] "settings.nope".toList _ "echo".toList ["X".toList] rfl⟩

/-! ## The child list as a finite map -/

theorem find_child_eq (o : HSObject) (name : CStr) :
    hsobject_find_child o name = find_in o.children name := rfl

theorem find_in_cons (oc : HSObjectChild) (l : List HSObjectChild) (m : CStr) :
    find_in (oc :: l) m = if oc.name = m then some oc.child else find_in l m := by
  by_cases h : oc.name = m <;> simp [find_in, List.find?_cons, h]

theorem find_in_none (l : List HSObjectChild) (m : CStr)
    (h : m ∉ l.map (fun oc => oc.name)) : find_in l m = none := by
  induction l with
  | nil => rfl
  | cons oc rest ih =>
    simp only [List.map_cons, List.mem_cons, not_or] at h
    rw [find_in_cons, if_neg (fun e => h.1 e.symm), ih h.2]

theorem find_in_some_mem (l : List HSObjectChild) (m : CStr) (c : Nat)
    (h : find_in l m = some c) : ∃ oc ∈ l, oc.name = m ∧ oc.child = c := by
  induction l with
  | nil => cases h
  | cons oc rest ih =>
    rw [find_in_cons] at h
    by_cases hn : oc.name = m
    · rw [if_pos hn] at h
      exact ⟨oc, List.mem_cons_self _ _, hn, Option.some.inj h⟩
    · rw [if_neg hn] at h
      obtain ⟨x, hx, h1, h2⟩ := ih h
      exact ⟨x, List.mem_cons_of_mem _ hx, h1, h2⟩

theorem find_in_unlink_name (n m : CStr) (l : List HSObjectChild) :
    find_in (hsobject_unlink_helper (child_check_name n) l) m =
      if m = n then none else find_in l m := by
  induction l with
  | nil => simp [hsobject_unlink_helper, find_in]
  | cons oc rest ih =>
    by_cases hc : oc.name = n
    · have : child_check_name n oc = true := by simp [child_check_name, hc]
      simp only [hsobject_unlink_helper, this, if_true, ih, find_in_cons]
      by_cases hm : m = n
      · simp [hm]
      · have : ¬ oc.name = m := fun e => hm (e.symm.trans hc)
        simp [hm, this]
    · have : child_check_name n oc = false := by simp [child_check_name, hc]
      simp only [hsobject_unlink_helper, this, Bool.false_eq_true, if_false, find_in_cons, ih]
      by_cases hm : m = n
      · subst hm
        simp [hc]
      · simp [hm]

theorem find_in_set_child (n m : CStr) (c : Nat) (l : List HSObjectChild)
    (h : n ∈ l.map (fun oc => oc.name)) :
    find_in (change_first (child_check_name n) (fun oc => { oc with child := c }) l) m =
      if m = n then some c else find_in l m := by
  induction l with
  | nil => simp at h
  | cons oc rest ih =>
    by_cases hc : oc.name = n
    · have : child_check_name n oc = true := by simp [child_check_name, hc]
      simp only [change_first, this, if_true, find_in_cons]
      by_cases hm : m = n
      · simp [hm, hc]
      · have : ¬ oc.name = m := fun e => hm (e.symm.trans hc)
        simp [hm, this]
    · have : child_check_name n oc = false := by simp [child_check_name, hc]
      simp only [List.map_cons, List.mem_cons] at h
      have hrest : n ∈ rest.map (fun oc => oc.name) := by
        rcases h with h | h
        · exact absurd h.symm hc
        · exact h
      simp only [change_first, this, Bool.false_eq_true, if_false, find_in_cons, ih hrest]
      by_cases hm : m = n
      · subst hm
        simp [hc]
      · simp [hm]

theorem find_in_append_new (n m : CStr) (c : Nat) (l : List HSObjectChild)
    (h : n ∉ l.map (fun oc => oc.name)) :
    find_in (l ++ [⟨n, c⟩]) m = if m = n then some c else find_in l m := by
  induction l with
  | nil =>
    by_cases hm : m = n
    · simp [find_in, hm]
    · have : ¬ n = m := fun e => hm e.symm
      simp [find_in, hm, this]
  | cons oc rest ih =>
    simp only [List.map_cons, List.mem_cons, not_or] at h
    simp only [List.cons_append, find_in_cons, ih h.2]
    by_cases hm : m = n
    · subst hm
      have : ¬ oc.name = m := fun e => h.1 e.symm
      simp [this]
    · simp [hm]

/-- The lookups after `hsobject_link`. -/
theorem find_in_link (parent : HSObject) (c : Nat) (n m : CStr) :
    find_in (hsobject_link parent c n).children m =
      if m = n then some c else find_in parent.children m := by
  unfold hsobject_link
  cases hf : parent.children.find? (child_check_name n) with
  | none => exact find_in_append_new n m c _ (find_name_none n _ hf)
  | some oc =>
    have hmem : n ∈ parent.children.map (fun oc => oc.name) := by
      have h1 := List.find?_some hf
      have h2 := List.mem_of_find?_eq_some hf
      simp only [child_check_name, decide_eq_true_eq] at h1
      exact List.mem_map.mpr ⟨oc, h2, h1⟩
    exact find_in_set_child n m c _ hmem

theorem change_first_length (found : HSObjectChild → Bool)
    (change : HSObjectChild → HSObjectChild) (l : List HSObjectChild) :
    (change_first found change l).length = l.length := by
  induction l with
  | nil => rfl
  | cons oc rest ih =>
    by_cases h : found oc = true
    · simp [change_first, h]
    · simp [change_first, h, ih]

/-- Claim C38. `hsobject_link(p, c, n)` makes `hsobject_find_child(p, n)` give
`c` and leaves the child found under every other name; when `n` was absent the
entry is appended to the list, and when it was present the names keep their
positions.  After `hsobject_unlink_by_name(p, n)` the name `n` finds nothing,
after `hsobject_unlink(p, c)` no entry refers to `c`, and both leave exactly
the entries that do not match, in their order.  (Distinct names are not
needed for any of this.) -/
theorem link_operations_update_delete (parent : HSObject) (c : Nat) (n : CStr) :
    hsobject_find_child (hsobject_link parent c n) n = some c ∧
    (∀ m, m ≠ n →
      hsobject_find_child (hsobject_link parent c n) m = hsobject_find_child parent m) ∧
    (n ∉ child_names parent →
      (hsobject_link parent c n).children = parent.children ++ [⟨n, c⟩]) ∧
    (n ∈ child_names parent →
      child_names (hsobject_link parent c n) = child_names parent) ∧
    hsobject_find_child (hsobject_unlink_by_name parent n) n = none ∧
    (∀ oc ∈ (hsobject_unlink parent c).children, oc.child ≠ c) ∧
    (hsobject_unlink_by_name parent n).children =
      parent.children.filter (fun oc => decide (oc.name ≠ n)) ∧
    (hsobject_unlink parent c).children =
      parent.children.filter (fun oc => decide (oc.child ≠ c)) := by
  refine ⟨?_, ?_, ?_, ?_, ?_, ?_, ?_, ?_⟩
  · rw [find_child_eq, find_in_link, if_pos rfl]
  · intro m hm
    rw [find_child_eq, find_in_link, if_neg hm, find_child_eq]
  · intro h
    have : parent.children.find? (child_check_name n) = none := by
      cases hf : parent.children.find? (child_check_name n) with
      | none => rfl
      | some oc =>
        have h1 := List.find?_some hf
        have h2 := List.mem_of_find?_eq_some hf
        simp only [child_check_name, decide_eq_true_eq] at h1
        exact absurd (List.mem_map.mpr ⟨oc, h2, h1⟩) h
    simp only [hsobject_link, this]
  · intro h
    obtain ⟨oc, hoc⟩ := find_name_some n _ h
    simp only [hsobject_link, hoc, child_names, change_first_child_names]
  · rw [find_child_eq]
    simp only [hsobject_unlink_by_name, find_in_unlink_name, if_true]
  · intro oc hoc
    simp only [hsobject_unlink, unlink_helper_filter, List.mem_filter, child_check_object,
      Bool.not_eq_true', decide_eq_false_iff_not] at hoc
    exact hoc.2
  · simp only [hsobject_unlink_by_name, unlink_helper_filter, child_check_name]
    congr 1
    funext oc
    by_cases h : oc.name = n <;> simp [h]
  · simp only [hsobject_unlink, unlink_helper_filter, child_check_object]
    congr 1
    funext oc
    by_cases h : oc.child = c <;> simp [h]

/-- Witness for claim C38: the root of the sample registry, with the children
`tmp` (1) and `settings` (2). -/
theorem link_operations_update_delete_witness :
    (hsobject_link ⟨[], [⟨"tmp".toList, 1⟩, ⟨"settings".toList, 2⟩]⟩ 3 "new".toList).children =
      [⟨"tmp".toList, 1⟩, ⟨"settings".toList, 2⟩, ⟨"new".toList, 3⟩] ∧
    child_names (hsobject_link ⟨[], [⟨"tmp".toList, 1⟩, ⟨"settings".toList, 2⟩]⟩ 3
      "tmp".toList) = child_names ⟨[], [⟨"tmp".toList, 1⟩, ⟨"settings".toList, 2⟩]⟩ ∧
    hsobject_find_child (hsobject_link ⟨[], [⟨"tmp".toList, 1⟩, ⟨"settings".toList, 2⟩]⟩ 3
      "tmp".toList) "tmp".toList = some 3 :=
  ⟨(link_operations_update_delete ⟨[], [⟨"tmp".toList, 1⟩, ⟨"settings".toList, 2⟩]⟩ 3
      "new".toList).2.2.1 (by decide),
   (link_operations_update_delete ⟨[], [⟨"tmp".toList, 1⟩, ⟨"settings".toList, 2⟩]⟩ 3
      "tmp".toList).2.2.2.1 (by decide),
   (link_operations_update_delete ⟨[], [⟨"tmp".toList, 1⟩, ⟨"settings".toList, 2⟩]⟩ 3
      "tmp".toList).1⟩

/-! ## Renaming a link -/

theorem find_in_rename (oldname newname m : CStr) (l : List HSObjectChild)
    (hnd : (l.map (fun oc => oc.name)).Nodup) (hnew : newname ∉ l.map (fun oc => oc.name))
    (hne : oldname ≠ newname) :
    find_in (change_first (child_check_name oldname) (fun oc => { oc with name := newname }) l) m =
      if m = newname then find_in l oldname
      else if m = oldname then none else find_in l m := by
  induction l with
  | nil => simp [change_first, find_in]
  | cons oc rest ih =>
    simp only [List.map_cons, List.nodup_cons, List.mem_cons, not_or] at hnd hnew
    have ih := ih hnd.2 hnew.2
    by_cases hc : oc.name = oldname
    · have hcc : child_check_name oldname oc = true := by simp [child_check_name, hc]
      have hold : find_in rest oldname = none := find_in_none rest oldname (hc ▸ hnd.1)
      simp only [change_first, hcc, if_true, find_in_cons, if_pos hc]
      by_cases h1 : m = newname
      · subst h1; simp
      · have h1' : ¬ newname = m := fun e => h1 e.symm
        by_cases h2 : m = oldname
        · subst h2; simp [h1, h1', hold]
        · have h2' : ¬ oc.name = m := fun e => h2 (e.symm.trans hc)
          simp [h1, h1', h2, h2']
    · have hcc : child_check_name oldname oc = false := by simp [child_check_name, hc]
      simp only [change_first, hcc, Bool.false_eq_true, if_false, find_in_cons, ih, if_neg hc]
      by_cases h3 : oc.name = m
      · have h1 : ¬ m = newname := fun e => hnew.1 (e.symm.trans h3.symm)
        have h2 : ¬ m = oldname := fun e => hc (h3.trans e)
        simp [h3, h1, h2]
      · simp [h3]

theorem unlink_object_absent (c : Nat) (l : List HSObjectChild)
    (h : c ∉ l.map (fun oc => oc.child)) :
    hsobject_unlink_helper (child_check_object c) l = l := by
  rw [unlink_helper_filter, List.filter_eq_self]
  intro oc hoc
  simp only [child_check_object, Bool.not_eq_true', decide_eq_false_iff_not]
  intro e
  exact h (List.mem_map.mpr ⟨oc, hoc, e⟩)

theorem find_in_unlink_object (oldname m : CStr) (c : Nat) (l : List HSObjectChild)
    (hnd : (l.map (fun oc => oc.name)).Nodup) (hobj : (l.map (fun oc => oc.child)).Nodup)
    (hc : find_in l oldname = some c) :
    find_in (hsobject_unlink_helper (child_check_object c) l) m =
      if m = oldname then none else find_in l m := by
  induction l with
  | nil => cases hc
  | cons oc rest ih =>
    simp only [List.map_cons, List.nodup_cons] at hnd hobj
    rw [find_in_cons] at hc
    by_cases hn : oc.name = oldname
    · rw [if_pos hn] at hc
      have hcc : oc.child = c := Option.some.inj hc
      have hchk : child_check_object c oc = true := by simp [child_check_object, hcc]
      have hrest : hsobject_unlink_helper (child_check_object c) rest = rest :=
        unlink_object_absent c rest (hcc ▸ hobj.1)
      simp only [hsobject_unlink_helper, hchk, if_true, hrest, find_in_cons]
      by_cases hm : m = oldname
      · subst hm
        simp only [if_true]
        exact find_in_none rest m (hn ▸ hnd.1)
      · have : ¬ oc.name = m := fun e => hm (e.symm.trans hn)
        simp [hm, this]
    · rw [if_neg hn] at hc
      obtain ⟨x, hx, -, hxc⟩ := find_in_some_mem rest oldname c hc
      have hne : ¬ oc.child = c := by
        intro e
        exact hobj.1 (List.mem_map.mpr ⟨x, hx, hxc.trans e.symm⟩)
      have hchk : child_check_object c oc = false := by simp [child_check_object, hne]
      simp only [hsobject_unlink_helper, hchk, Bool.false_eq_true, if_false, find_in_cons,
        ih hnd.2 hobj.2 hc]
      by_cases hm : m = oldname
      · subst hm
        simp [hn]
      · simp [hm]

/-- Claim C39. For a parent with pairwise distinct child names in which every
object is linked at most once, and names `old ≠ new` with `old` present:
`hsobject_link_rename(parent, old, new)` completes, afterwards `new` finds the
object that `old` found before, `old` finds nothing and every other name finds
what it found before; `hsobject_link_rename` with equal names changes nothing;
and `hsobject_link_rename_object` applied to the object found under `old`
gives the same lookups as `hsobject_link_rename`. -/
theorem link_rename_is_map_rename (parent : HSObject) (oldname newname : CStr)
    (hnd : (child_names parent).Nodup)
    (hobj : (parent.children.map (fun oc => oc.child)).Nodup)
    (hne : oldname ≠ newname) (hold : oldname ∈ child_names parent) :
    hsobject_link_rename parent oldname oldname = some parent ∧
    ∃ p c, hsobject_link_rename parent oldname newname = some p ∧
      hsobject_find_child parent oldname = some c ∧
      hsobject_find_child p newname = some c ∧
      hsobject_find_child p oldname = none ∧
      (∀ m, m ≠ oldname → m ≠ newname →
        hsobject_find_child p m = hsobject_find_child parent m) ∧
      (∀ m, hsobject_find_child (hsobject_link_rename_object parent c newname) m =
        hsobject_find_child p m) := by
  refine ⟨by simp [hsobject_link_rename], ?_⟩
  have hmem : oldname ∈ (hsobject_unlink_helper (child_check_name newname)
      parent.children).map (fun oc => oc.name) := by
    rw [unlink_helper_filter]
    simp only [child_names, List.mem_map] at hold
    obtain ⟨oc, hoc, hn⟩ := hold
    simp only [List.mem_map, List.mem_filter, child_check_name, Bool.not_eq_true',
      decide_eq_false_iff_not]
    exact ⟨oc, ⟨hoc, fun e => hne (hn.symm.trans e)⟩, hn⟩
  obtain ⟨oc, hoc⟩ := find_name_some oldname _ hmem
  have hren : ∃ p, hsobject_link_rename parent oldname newname = some p ∧
      p.children = change_first (child_check_name oldname)
        (fun oc => { oc with name := newname })
        (hsobject_unlink_helper (child_check_name newname) parent.children) := by
    simp only [hsobject_link_rename, hne, if_false, hsobject_unlink_by_name, hoc]
    exact ⟨_, rfl, rfl⟩
  obtain ⟨p, hp, hch⟩ := hren
  have hfound : ∃ c, find_in parent.children oldname = some c := by
    obtain ⟨x, hx⟩ := find_name_some oldname _ hold
    refine ⟨x.child, ?_⟩
    unfold find_in
    have : (fun (oc : HSObjectChild) => decide (oc.name = oldname)) = child_check_name oldname :=
      rfl
    rw [this, hx]
    rfl
  obtain ⟨c, hc⟩ := hfound
  have hlook : ∀ m, find_in p.children m =
      if m = newname then some c else if m = oldname then none else find_in parent.children m := by
    intro m
    rw [hch, find_in_rename oldname newname m _ (unlink_helper_nodup _ _ hnd)
      (unlink_by_name_absent newname _) hne]
    simp only [find_in_unlink_name, if_neg hne, hc]
    by_cases h1 : m = newname
    · simp [h1]
    · by_cases h2 : m = oldname
      · simp [h1, h2]
      · simp [h1, h2]
  have hobjlook : ∀ m, find_in (hsobject_link_rename_object parent c newname).children m =
      if m = newname then some c else if m = oldname then none else find_in parent.children m := by
    intro m
    unfold hsobject_link_rename_object
    rw [find_in_link]
    simp only [hsobject_unlink, find_in_unlink_object oldname m c parent.children hnd hobj hc]
  refine ⟨p, c, hp, hc, ?_, ?_, ?_, ?_⟩
  · rw [find_child_eq, hlook, if_pos rfl]
  · rw [find_child_eq, hlook, if_neg hne, if_pos rfl]
  · intro m h1 h2
    rw [find_child_eq, hlook, if_neg h2, if_neg h1, find_child_eq]
  · intro m
    rw [find_child_eq, find_child_eq, hlook, hobjlook]

/-- Witness for claim C39: the root of the sample registry (`tmp` is object 1,
`settings` object 2) with `settings` renamed to `tmp`. -/
theorem link_rename_is_map_rename_witness :
    ∃ p c, hsobject_link_rename ⟨[], [⟨"tmp".toList, 1⟩, ⟨"settings".toList, 2⟩]⟩
        "settings".toList "tmp".toList = some p ∧
      hsobject_find_child ⟨[], [⟨"tmp".toList, 1⟩, ⟨"settings".toList, 2⟩]⟩
        "settings".toList = some c ∧
      hsobject_find_child p "tmp".toList = some c ∧
      hsobject_find_child p "settings".toList = none ∧
      (∀ m, m ≠ "settings".toList → m ≠ "tmp".toList →
        hsobject_find_child p m =
          hsobject_find_child ⟨[], [⟨"tmp".toList, 1⟩, ⟨"settings".toList, 2⟩]⟩ m) ∧
      (∀ m, hsobject_find_child (hsobject_link_rename_object
          ⟨[], [⟨"tmp".toList, 1⟩, ⟨"settings".toList, 2⟩]⟩ c "tmp".toList) m =
        hsobject_find_child p m) :=
  (link_rename_is_map_rename ⟨[], [⟨"tmp".toList, 1⟩, ⟨"settings".toList, 2⟩]⟩
    "settings".toList "tmp".toList (by decide) (by decide) (by decide) (by decide)).2

/-! ## The rectangle of a floating client -/

theorem CLAMP_le (x low high : Int) (h : low ≤ high) : CLAMP x low high ≤ high := by
  unfold CLAMP
  split
  · exact Int.le_refl _
  · split <;> omega

theorem CLAMP_inside (x low high : Int) (h1 : low ≤ x) (h2 : x ≤ high) : CLAMP x low high = x := by
  unfold CLAMP
  rw [if_neg (by omega), if_neg (by omega)]

/-- What `Client::resize_floating` computes: the monitor's `y` is added to the
`x` of the rectangle and no monitor origin is added to its `y`. -/
theorem resize_floating_eq (c : Client) (m : Monitor) :
    c.resize_floating (some m) =
      some ⟨CLAMP (c.float_size_.x + m.rect.x + m.rect.y + m.pad_left)
          (m.rect.x + m.pad_left - c.float_size_.width + g_monitor_float_treshold)
          (m.rect.x + m.rect.width - m.pad_left - m.pad_right - g_monitor_float_treshold),
        CLAMP (c.float_size_.y + m.pad_up)
          (m.rect.y + m.pad_up - c.float_size_.height + g_monitor_float_treshold)
          (m.rect.y + m.rect.height - m.pad_up - m.pad_down - g_monitor_float_treshold),
        c.float_size_.width, c.float_size_.height⟩ := rfl

/-- The upper bounds on the position hold whenever the clamping interval of the
coordinate is not empty. -/
theorem resize_floating_upper_bounds (c : Client) (m : Monitor) :
    ∃ rect, c.resize_floating (some m) = some rect ∧
      (m.rect.x + m.pad_left - c.float_size_.width + g_monitor_float_treshold ≤
          m.rect.x + m.rect.width - m.pad_left - m.pad_right - g_monitor_float_treshold →
        rect.x ≤ m.rect.x + m.rect.width - m.pad_left - m.pad_right - g_monitor_float_treshold) ∧
      (m.rect.y + m.pad_up - c.float_size_.height + g_monitor_float_treshold ≤
          m.rect.y + m.rect.height - m.pad_up - m.pad_down - g_monitor_float_treshold →
        rect.y ≤ m.rect.y + m.rect.height - m.pad_up - m.pad_down - g_monitor_float_treshold) :=
  ⟨_, resize_floating_eq c m, fun h => CLAMP_le _ _ _ h, fun h => CLAMP_le _ _ _ h⟩

/-- Within the clamping bounds the result is `x = fx + mx + my + pad_left` and
`y = fy + pad_up`, with the size unchanged. -/
theorem resize_floating_inside (c : Client) (m : Monitor)
    (h1 : m.rect.x + m.pad_left - c.float_size_.width + g_monitor_float_treshold ≤
      c.float_size_.x + m.rect.x + m.rect.y + m.pad_left)
    (h2 : c.float_size_.x + m.rect.x + m.rect.y + m.pad_left ≤
      m.rect.x + m.rect.width - m.pad_left - m.pad_right - g_monitor_float_treshold)
    (h3 : m.rect.y + m.pad_up - c.float_size_.height + g_monitor_float_treshold ≤
      c.float_size_.y + m.pad_up)
    (h4 : c.float_size_.y + m.pad_up ≤
      m.rect.y + m.rect.height - m.pad_up - m.pad_down - g_monitor_float_treshold) :
    c.resize_floating (some m) =
      some ⟨c.float_size_.x + m.rect.x + m.rect.y + m.pad_left, c.float_size_.y + m.pad_up,
        c.float_size_.width, c.float_size_.height⟩ := by
  rw [resize_floating_eq, CLAMP_inside _ _ _ h1 h2, CLAMP_inside _ _ _ h3 h4]

/-- Claim C40, evaluated on the code: on a monitor of 1920 by 1080 pixels at
(0, 10) without padding, the floating rectangle (5, 5, 100, 100) with the
monitor origin and padding added, (5, 15), lies within the clamping bounds, so
that is the position to hand on; `Client::resize_floating` hands on the
position (15, 5). -/
theorem resize_floating_adds_monitor_y_to_x :
    sample_client.resize_floating (some sample_monitor) = some ⟨15, 5, 100, 100⟩ ∧
    CLAMP (sample_client.float_size_.x + sample_monitor.rect.x + sample_monitor.pad_left)
        (sample_monitor.rect.x + sample_monitor.pad_left - sample_client.float_size_.width
          + g_monitor_float_treshold)
        (sample_monitor.rect.x + sample_monitor.rect.width - sample_monitor.pad_left
          - sample_monitor.pad_right - g_monitor_float_treshold) = 5 ∧
    CLAMP (sample_client.float_size_.y + sample_monitor.rect.y + sample_monitor.pad_up)
        (sample_monitor.rect.y + sample_monitor.pad_up - sample_client.float_size_.height
          + g_monitor_float_treshold)
        (sample_monitor.rect.y + sample_monitor.rect.height - sample_monitor.pad_up
          - sample_monitor.pad_down - g_monitor_float_treshold) = 15 := by
  refine ⟨by decide, by decide, by decide⟩

/-! ## Separators around an attribute path -/

/-- With more fuel and another original path the loop of
`hsobject_parse_path_verbose` reaches the same object and remainder. -/
theorem parse_path_loop_mono (objs : Objects) (orig orig2 : CStr) :
    ∀ (fuel fuel2 obj : Nat) (last path : CStr) (r : ParseResult), fuel ≤ fuel2 →
      parse_path_loop objs orig fuel obj last path = some r →
      ∃ out, parse_path_loop objs orig2 fuel2 obj last path = some ⟨r.obj, r.unparsable, out⟩ := by
  intro fuel
  induction fuel with
  | zero =>
    intro fuel2 obj last path r _ h
    rw [parse_path_loop] at h
    by_cases hp : path = []
    · simp only [hp, if_true, Option.some.injEq] at h
      subst h
      exact ⟨[], by rw [parse_path_loop.eq_def]; simp [hp]⟩
    · simp [hp] at h
  | succ k ih =>
    intro fuel2 obj last path r hle h
    rw [parse_path_loop] at h
    by_cases hp : path = []
    · simp only [hp, if_true, Option.some.injEq] at h
      subst h
      exact ⟨[], by rw [parse_path_loop.eq_def]; simp [hp]⟩
    · simp only [hp, if_false] at h
      obtain ⟨j, rfl⟩ : ∃ j, fuel2 = j + 1 := ⟨fuel2 - 1, by omega⟩
      rw [parse_path_loop]
      simp only [hp, if_false]
      cases ho : objs[obj]? with
      | none => rw [ho] at h; cases h
      | some o =>
        rw [ho] at h
        simp only at h ⊢
        cases hc : hsobject_find_child o (curname_of path) with
        | none =>
          rw [hc] at h
          simp only [Option.some.injEq] at h
          subst h
          exact ⟨_, rfl⟩
        | some child =>
          rw [hc] at h
          exact ih j child _ _ r (by omega) h

theorem skip_separators_replicate (k : Nat) (p : CStr) :
    skip_separators (List.replicate k OBJECT_PATH_SEPARATOR ++ p) = skip_separators p := by
  induction k with
  | zero => rfl
  | succ n ih =>
    rw [List.replicate_succ, List.cons_append]
    simp only [skip_separators, List.dropWhile, decide_True] at ih ⊢
    exact ih

theorem curname_append_sep (path : CStr) :
    curname_of (path ++ [OBJECT_PATH_SEPARATOR]) = curname_of path := by
  induction path with
  | nil => simp [curname_of, List.takeWhile]
  | cons c t ih =>
    by_cases hc : c = OBJECT_PATH_SEPARATOR
    · simp [curname_of, List.takeWhile, hc]
    · simp only [curname_of] at ih
      simp [curname_of, List.takeWhile, hc, ih]

theorem skip_separators_append_sep (d : CStr) (h : skip_separators d ≠ []) :
    skip_separators (d ++ [OBJECT_PATH_SEPARATOR]) =
      skip_separators d ++ [OBJECT_PATH_SEPARATOR] := by
  induction d with
  | nil => simp [skip_separators] at h
  | cons c t ih =>
    by_cases hc : c = OBJECT_PATH_SEPARATOR
    · subst hc
      simp only [skip_separators, List.dropWhile, decide_True, List.cons_append] at h ih ⊢
      exact ih h
    · simp [skip_separators, List.dropWhile, hc]

theorem curname_length_le (path : CStr) : (curname_of path).length ≤ path.length :=
  (List.takeWhile_prefix _).length_le

/-- A separator appended to the path stays in a non-empty remainder. -/
theorem parse_path_loop_append_sep (objs : Objects) (orig orig2 : CStr) :
    ∀ (fuel obj : Nat) (last path : CStr) (r : ParseResult),
      parse_path_loop objs orig fuel obj last path = some r → r.unparsable ≠ [] →
      ∃ out, parse_path_loop objs orig2 fuel obj last (path ++ [OBJECT_PATH_SEPARATOR]) =
        some ⟨r.obj, r.unparsable ++ [OBJECT_PATH_SEPARATOR], out⟩ := by
  intro fuel
  induction fuel with
  | zero =>
    intro obj last path r h hne
    rw [parse_path_loop] at h
    by_cases hp : path = []
    · simp only [hp, if_true, Option.some.injEq] at h
      subst h
      exact absurd rfl hne
    · simp [hp] at h
  | succ k ih =>
    intro obj last path r h hne
    rw [parse_path_loop] at h
    by_cases hp : path = []
    · simp only [hp, if_true, Option.some.injEq] at h
      subst h
      exact absurd rfl hne
    · simp only [hp, if_false] at h
      rw [parse_path_loop]
      have hp2 : path ++ [OBJECT_PATH_SEPARATOR] ≠ [] := by simp
      simp only [hp2, if_false, curname_append_sep]
      cases ho : objs[obj]? with
      | none => rw [ho] at h; cases h
      | some o =>
        rw [ho] at h
        simp only at h ⊢
        cases hc : hsobject_find_child o (curname_of path) with
        | none =>
          rw [hc] at h
          simp only [Option.some.injEq] at h
          subst h
          exact ⟨_, rfl⟩
        | some child =>
          rw [hc] at h
          simp only at h ⊢
          have hskip : skip_separators (path.drop (curname_of path).length) ≠ [] := by
            intro e
            rw [e, parse_path_loop.eq_def] at h
            simp only [if_true, Option.some.injEq] at h
            subst h
            exact hne rfl
          rw [List.drop_append_of_le_length (curname_length_le path),
            skip_separators_append_sep _ hskip]
          exact ih child _ _ r h hne

/-- With more fuel the loop of `hsobject_parse_path_verbose` gives the same
result. -/
theorem parse_path_loop_fuel (objs : Objects) (orig : CStr) :
    ∀ (fuel fuel2 obj : Nat) (last path : CStr) (r : ParseResult), fuel ≤ fuel2 →
      parse_path_loop objs orig fuel obj last path = some r →
      parse_path_loop objs orig fuel2 obj last path = some r := by
  intro fuel
  induction fuel with
  | zero =>
    intro fuel2 obj last path r _ h
    rw [parse_path_loop] at h
    by_cases hp : path = []
    · simp only [hp, if_true, Option.some.injEq] at h
      subst h
      rw [parse_path_loop.eq_def]; simp [hp]
    · simp [hp] at h
  | succ k ih =>
    intro fuel2 obj last path r hle h
    rw [parse_path_loop] at h
    by_cases hp : path = []
    · simp only [hp, if_true, Option.some.injEq] at h
      subst h
      rw [parse_path_loop.eq_def]; simp [hp]
    · simp only [hp, if_false] at h
      obtain ⟨j, rfl⟩ : ∃ j, fuel2 = j + 1 := ⟨fuel2 - 1, by omega⟩
      rw [parse_path_loop]
      simp only [hp, if_false]
      cases ho : objs[obj]? with
      | none => rw [ho] at h; cases h
      | some o =>
        rw [ho] at h
        simp only at h ⊢
        cases hc : hsobject_find_child o (curname_of path) with
        | none => rw [hc] at h; exact h
        | some child =>
          rw [hc] at h
          exact ih j child _ _ r (by omega) h

theorem curname_of_no_separator (path : CStr) (h : OBJECT_PATH_SEPARATOR ∉ path) :
    curname_of path = path := by
  induction path with
  | nil => rfl
  | cons c t ih =>
    simp only [List.mem_cons, not_or] at h
    have hc : ¬ c = OBJECT_PATH_SEPARATOR := fun e => h.1 e.symm
    simp only [curname_of] at ih
    simp [curname_of, List.takeWhile, hc, ih h.2]

/-- A separator appended to the path stays in a non-empty, separator-free
remainder, and the diagnostic names the same missing child and object. -/
theorem parse_path_loop_append_sep_text (objs : Objects) (orig orig2 : CStr) :
    ∀ (fuel obj : Nat) (last path : CStr) (r : ParseResult),
      parse_path_loop objs orig fuel obj last path = some r → r.unparsable ≠ [] →
      OBJECT_PATH_SEPARATOR ∉ r.unparsable →
      ∃ lastname, r.output = invalid_path_message orig r.unparsable lastname ∧
        parse_path_loop objs orig2 fuel obj last (path ++ [OBJECT_PATH_SEPARATOR]) =
          some ⟨r.obj, r.unparsable ++ [OBJECT_PATH_SEPARATOR],
            invalid_path_message orig2 r.unparsable lastname⟩ := by
  intro fuel
  induction fuel with
  | zero =>
    intro obj last path r h hne _
    rw [parse_path_loop] at h
    by_cases hp : path = []
    · simp only [hp, if_true, Option.some.injEq] at h
      subst h
      exact absurd rfl hne
    · simp [hp] at h
  | succ k ih =>
    intro obj last path r h hne hsep
    rw [parse_path_loop] at h
    by_cases hp : path = []
    · simp only [hp, if_true, Option.some.injEq] at h
      subst h
      exact absurd rfl hne
    · simp only [hp, if_false] at h
      rw [parse_path_loop]
      have hp2 : path ++ [OBJECT_PATH_SEPARATOR] ≠ [] := by simp
      simp only [hp2, if_false, curname_append_sep]
      cases ho : objs[obj]? with
      | none => rw [ho] at h; cases h
      | some o =>
        rw [ho] at h
        simp only at h ⊢
        cases hc : hsobject_find_child o (curname_of path) with
        | none =>
          rw [hc] at h
          simp only [Option.some.injEq] at h
          subst h
          simp only at hsep
          rw [curname_of_no_separator path hsep]
          exact ⟨last, rfl, rfl⟩
        | some child =>
          rw [hc] at h
          simp only at h ⊢
          have hskip : skip_separators (path.drop (curname_of path).length) ≠ [] := by
            intro e
            rw [e, parse_path_loop.eq_def] at h
            simp only [if_true, Option.some.injEq] at h
            subst h
            exact hne rfl
          rw [List.drop_append_of_le_length (curname_length_le path),
            skip_separators_append_sep _ hskip]
          exact ih child _ _ r h hne hsep

/-- What it means for a path to resolve to an attribute. -/
theorem attribute_path_found (objs : Objects) (p : CStr) (A : Nat × Nat) (out : CStr)
    (h : hsattribute_parse_path_verbose objs p = some (some A, out)) :
    ∃ r o, hsobject_parse_path_verbose objs p = some r ∧
      OBJECT_PATH_SEPARATOR ∉ r.unparsable ∧ objs[r.obj]? = some o ∧
      hsobject_find_attribute o r.unparsable = some A.2 ∧ A.1 = r.obj := by
  simp only [hsattribute_parse_path_verbose] at h
  cases hr : hsobject_parse_path_verbose objs p with
  | none => rw [hr] at h; cases h
  | some r =>
    rw [hr] at h
    simp only at h
    by_cases hs : OBJECT_PATH_SEPARATOR ∈ r.unparsable
    · rw [if_pos hs] at h; cases h
    · rw [if_neg hs] at h
      cases ho : objs[r.obj]? with
      | none => rw [ho] at h; cases h
      | some o =>
        rw [ho] at h
        simp only at h
        cases hf : hsobject_find_attribute o r.unparsable with
        | none => rw [hf] at h; cases h
        | some i =>
          rw [hf] at h
          simp only [Option.some.injEq, Prod.mk.injEq] at h
          obtain ⟨h1, -⟩ := h
          subst h1
          exact ⟨r, o, rfl, hs, ho, hf, rfl⟩

/-- Counterexample to claim C34: in the sample registry `settings.title` resolves
to the attribute `title` of `settings`, and `settings.title.` resolves to no
attribute. -/
theorem trailing_separator_loses_attribute :
    hsattribute_parse_path_verbose sample_objects "settings.title".toList =
      some (some (2, 1), []) ∧
    hsattribute_parse_path_verbose sample_objects "settings.title.".toList =
      some (none,
        invalid_path_message "settings.title.".toList "title".toList "settings".toList) := by
  refine ⟨rfl, rfl⟩

/-- Claim C34, amended. When a path resolves to the attribute `A`, the path
with separators in front resolves to `A` too.  When the name of `A` (the
remainder of the object resolution) is not empty, the path with a separator
appended resolves to no attribute, and the text is that of the object
resolution, `Invalid path "<path with the separator>": No child "<name>" in
object <last>` with a newline, `<last>` being the object the resolution of the
path itself names; when the name is empty the path with a separator appended
still resolves to `A`. -/
theorem attribute_path_separators (objs : Objects) (p : CStr) (A : Nat × Nat) (out : CStr)
    (h : hsattribute_parse_path_verbose objs p = some (some A, out)) :
    (∀ k, hsattribute_parse_path_verbose objs (List.replicate k OBJECT_PATH_SEPARATOR ++ p) =
      some (some A, [])) ∧
    ∃ r, hsobject_parse_path_verbose objs p = some r ∧
      (r.unparsable ≠ [] →
        ∃ lastname,
          r.output =
            "Invalid path ".toList ++ [dquote] ++ p ++ [dquote] ++ ": ".toList
              ++ "No child ".toList ++ [dquote] ++ r.unparsable ++ [dquote]
              ++ " in object ".toList ++ lastname ++ [newline] ∧
          hsattribute_parse_path_verbose objs (p ++ [OBJECT_PATH_SEPARATOR]) =
            some (none,
              "Invalid path ".toList ++ [dquote] ++ (p ++ [OBJECT_PATH_SEPARATOR]) ++ [dquote]
                ++ ": ".toList ++ "No child ".toList ++ [dquote] ++ r.unparsable ++ [dquote]
                ++ " in object ".toList ++ lastname ++ [newline])) ∧
      (r.unparsable = [] →
        hsattribute_parse_path_verbose objs (p ++ [OBJECT_PATH_SEPARATOR]) =
          some (some A, [])) := by
  obtain ⟨r, o, hr, hs, ho, hf, hA⟩ := attribute_path_found objs p A out h
  obtain ⟨a1, a2⟩ := A
  simp only at hf hA
  subst hA
  have hloop : parse_path_loop objs p p.length hsobject_root "root".toList (skip_separators p) =
      some r := hr
  refine ⟨?_, r, hr, ?_, ?_⟩
  · intro k
    obtain ⟨out2, h2⟩ := parse_path_loop_mono objs p (List.replicate k OBJECT_PATH_SEPARATOR ++ p)
      p.length (List.replicate k OBJECT_PATH_SEPARATOR ++ p).length hsobject_root "root".toList
      (skip_separators p) r (by simp) hloop
    have hq : hsobject_parse_path_verbose objs (List.replicate k OBJECT_PATH_SEPARATOR ++ p) =
        some ⟨r.obj, r.unparsable, out2⟩ := by
      unfold hsobject_parse_path_verbose
      rw [skip_separators_replicate]
      exact h2
    simp only [hsattribute_parse_path_verbose, hq, hs, if_false, ho, hf]
  · intro hne
    have hskip : skip_separators p ≠ [] := by
      intro e
      rw [e, parse_path_loop.eq_def] at hloop
      simp only [if_true, Option.some.injEq] at hloop
      subst hloop
      exact hne rfl
    obtain ⟨lastname, hout, h2⟩ := parse_path_loop_append_sep_text objs p
      (p ++ [OBJECT_PATH_SEPARATOR]) p.length hsobject_root "root".toList (skip_separators p) r
      hloop hne hs
    have h3 := parse_path_loop_fuel objs (p ++ [OBJECT_PATH_SEPARATOR]) p.length
      (p ++ [OBJECT_PATH_SEPARATOR]).length hsobject_root "root".toList _ _ (by simp) h2
    have hq : hsobject_parse_path_verbose objs (p ++ [OBJECT_PATH_SEPARATOR]) =
        some ⟨r.obj, r.unparsable ++ [OBJECT_PATH_SEPARATOR],
          invalid_path_message (p ++ [OBJECT_PATH_SEPARATOR]) r.unparsable lastname⟩ := by
      unfold hsobject_parse_path_verbose
      rw [skip_separators_append_sep _ hskip]
      exact h3
    refine ⟨lastname, hout, ?_⟩
    simp only [hsattribute_parse_path_verbose, hq, List.mem_append, List.mem_singleton, or_true,
      if_true]
    rfl
  · intro he
    have hspec := parse_path_verbose_spec objs p
    have hspec2 := parse_path_verbose_spec objs (p ++ [OBJECT_PATH_SEPARATOR])
    have hseg : segments (p ++ [OBJECT_PATH_SEPARATOR]) = segments p :=
      segments_append_replicate 1 p
    rw [hseg] at hspec2
    cases hres : resolve_segments objs hsobject_root "root".toList (segments p) with
    | none =>
      rw [hres] at hspec
      simp only at hspec
      rw [hr] at hspec
      cases hspec
    | some res =>
      obtain ⟨n, l, rem⟩ := res
      rw [hres] at hspec hspec2
      obtain ⟨u, e1, e2, -, -, -⟩ := hspec
      obtain ⟨u2, f1, -, -, f4, -⟩ := hspec2
      rw [hr] at e1
      simp only [Option.some.injEq] at e1
      subst e1
      simp only at he ho hf
      subst he
      have hrem : rem = [] := by rw [← e2, segments_nil]
      subst hrem
      rw [f4 rfl] at f1
      simp only [hsattribute_parse_path_verbose, f1, leftover_message, List.not_mem_nil,
        if_false, ho, hf]

/-- Witness for the amended claim C34: `settings.title` in the sample registry
with two separators in front and with a separator appended. -/
theorem attribute_path_separators_witness :
    hsattribute_parse_path_verbose sample_objects
        (List.replicate 2 OBJECT_PATH_SEPARATOR ++ "settings.title".toList) =
      some (some (2, 1), []) ∧
    hsattribute_parse_path_verbose sample_objects
        ("settings.title".toList ++ [OBJECT_PATH_SEPARATOR]) =
      some (none,
        "Invalid path ".toList ++ [dquote] ++ "settings.title.".toList ++ [dquote]
          ++ ": No child ".toList ++ [dquote] ++ "title".toList ++ [dquote]
          ++ " in object settings".toList ++ [newline]) :=
  have h := attribute_path_separators sample_objects "settings.title".toList (2, 1) [] rfl
  ⟨h.1 2, by
    obtain ⟨r, hr, h1, -⟩ := h.2
    have hr2 : hsobject_parse_path_verbose sample_objects "settings.title".toList =
        some ⟨2, "title".toList,
          invalid_path_message "settings.title".toList "title".toList "settings".toList⟩ := rfl
    rw [hr2] at hr
    simp only [Option.some.injEq] at hr
    subst hr
    obtain ⟨lastname, hl, hres⟩ := h1 (by decide)
    have hlast : lastname = "settings".toList :=
      (List.append_cancel_left (List.append_cancel_right hl)).symm
    rw [hres, hlast]
    rfl⟩

/-! ## The backup of the old value, and the name of a temporary attribute -/

/-- For bool, int and uint the first switch writes `old_value` before it
compares, whenever the string parses. -/
theorem assign_store_integers (ext : Externals) (heap : GHeap) (attr : HSAttribute) (s : CStr)
    (v : HSAttributeValue)
    (hkind : attr.type = .BOOL ∨ attr.type = .INT ∨ attr.type = .UINT)
    (hparse : parse_new_value ext attr.value s = some v) :
    assign_store ext heap attr s =
      some ⟨false, decide (attr.value = v), some attr.value, v, []⟩ := by
  obtain ⟨name, value, up, oc, cc, ac, ua⟩ := attr
  simp only at hparse ⊢
  cases value <;> simp only [HSAttribute.type, HSAttributeValue.type, reduceCtorEq, or_self,
    or_false, false_or] at hkind <;>
    simp only [assign_store, hparse, ATTR_DO_ASSIGN_COMPARE] <;>
    split <;> simp_all

/-- Claim C36, evaluated on the code.  A string attribute with `always_callback`
set that is assigned the string it holds: the first switch leaves `old_value`
unwritten, the call goes on, and both the release of `old_value.str` (validator
accepts) and the rollback from `old_value.str` (validator rejects) use it.  A
colour attribute with `always_callback` set that is assigned its unparsed text:
`old_value` is unwritten and the rollback after a rejection restores the colour
from it. -/
theorem old_value_used_unwritten :
    (assign_store sample_ext [] wmname_attr "LG3D".toList).map
        (fun st => (st.error, st.nothing_to_do, st.old_value)) = some (false, true, none) ∧
    assign_free [] wmname_attr "LG3D".toList none none = none ∧
    assign_restore [] guarded_wmname_attr none none = none ∧
    hsattribute_assign sample_ext [] guarded_wmname_attr "LG3D".toList = none ∧
    (assign_store sample_ext color_heap callback_color_attr "#000000".toList).map
        (fun st => (st.error, st.nothing_to_do, st.old_value)) = some (false, true, none) ∧
    hsattribute_assign sample_ext color_heap callback_color_attr "#000000".toList = none := by
  refine ⟨by decide, by decide, rfl, rfl, by decide, rfl⟩

/-- The status and the counter of a call of `tmpattribute_command` that
dispatched its command: the status is the one the command returned, and the
counter is one less than the command left it, the command having been started
with the counter one above the value before the call. -/
theorem tmpattribute_status_and_counter (ext : Externals) (dispatch : Dispatcher)
    (reg : Registry) (cmd type_str identifier command : CStr) (args : List CStr)
    (r : CommandResult)
    (h : tmpattribute_command ext dispatch reg (cmd :: type_str :: identifier :: command :: args)
      = some r)
    (hd : r.dispatched ≠ []) :
    ∃ reg1 : Registry, reg1.tmpcount = reg.tmpcount + 1 ∧
      r.status = (dispatch identifier
        (ext.tmp_object_path ++ [OBJECT_PATH_SEPARATOR] ++
          tmp_attribute_name ext (reg.tmpcount + 1)) (command :: args) reg1).1 ∧
      r.reg.tmpcount = (dispatch identifier
        (ext.tmp_object_path ++ [OBJECT_PATH_SEPARATOR] ++
          tmp_attribute_name ext (reg.tmpcount + 1)) (command :: args) reg1).2.2.tmpcount - 1 := by
  simp only [tmpattribute_command] at h
  cases hc : hsattribute_create ext { reg with tmpcount := reg.tmpcount + 1 } reg.tmp_object
      (tmp_attribute_name ext (reg.tmpcount + 1)) type_str with
  | none => rw [hc] at h; cases h
  | some res =>
    obtain ⟨idx, out, reg1⟩ := res
    rw [hc] at h
    cases idx with
    | none =>
      simp only [Option.some.injEq] at h
      subst h
      exact absurd rfl hd
    | some i =>
      have hcount : reg1.tmpcount = reg.tmpcount + 1 := by
        simp only [hsattribute_create] at hc
        split at hc
        · cases hc
        · split at hc
          · cases hc
          · simp only [Option.some.injEq, Prod.mk.injEq] at hc
            obtain ⟨-, -, hc⟩ := hc
            subst hc
            rfl
      refine ⟨reg1, hcount, ?_⟩
      simp only at h
      split at h
      · cases h
      · rename_i o ho
        split at h
        · cases h
        · rename_i b reg3 hrem
          simp only [Option.some.injEq] at h
          subst h
          refine ⟨rfl, ?_⟩
          simp only
          congr 1
          simp only [userattribute_remove] at hrem
          split at hrem
          · cases hrem
          · split at hrem
            · cases hrem
            · split at hrem
              · simp only [Option.some.injEq, Prod.mk.injEq] at hrem
                rw [← hrem.2]
              · split at hrem
                · cases hrem
                · simp only [Option.some.injEq, Prod.mk.injEq] at hrem
                  rw [← hrem.2]

/-- Claim C35, evaluated on the code: the scratch object holds the user
attribute `my_tmp1`; the name generated for the first temporary attribute is
`my_tmp1` as well, and while the inner command runs the scratch object holds
two attributes of that name (the probing command returns their number). -/
theorem tmp_name_clashes_with_existing_attribute :
    tmp_attribute_name sample_ext (tmp_clash_registry.tmpcount + 1) = "my_tmp1".toList ∧
    tmp_clash_registry.objects[1]?.map (fun o => o.attributes.map (fun a => a.name)) =
      some ["my_tmp1".toList] ∧
    (tmpattribute_command sample_ext probe_dispatcher tmp_clash_registry
        ["tmp".toList, "int".toList, "X".toList, "echo".toList, "X".toList]).map
      (fun r => (r.status, r.dispatched)) =
      some (2, [("X".toList, "tmp.my_tmp1".toList, ["echo".toList, "X".toList])]) := by
  refine ⟨by decide, by decide, rfl⟩

/-! ## The validator's answer -/

theorem GHeap.str_set_self (h : GHeap) (p : Nat) (x : Option CStr) (hp : p < h.length) :
    GHeap.str (h.set p x) p = x := by
  simp [GHeap.str, List.getElem?_set_self hp]

theorem g_string_assign_append_live (h : GHeap) (x : Option CStr) (p : Nat) (s : CStr)
    (hp : (GHeap.str h p).isSome) :
    g_string_assign (h ++ [x]) p s = some (h.set p (some s) ++ [x]) := by
  have hlt := GHeap.str_lt_of_isSome h p hp
  unfold g_string_assign
  rw [GHeap.str_append_lt h x p hlt]
  cases hs : GHeap.str h p with
  | none => simp [hs] at hp
  | some v => simp only [List.set_append_left _ _ hlt]

/-- What the second half of `hsattribute_assign` does with the answer of
`on_change`, when `old_value` holds the value the attribute had. -/
theorem assign_validate_on_change (heap : GHeap) (attr : HSAttribute) (s : CStr) (st : Stored)
    (f : HSAttributeValue → Option CStr → Option CStr)
    (hf : attr.on_change = some f)
    (hk : attr.type ≠ .CUSTOM ∧ attr.type ≠ .CUSTOM_INT)
    (hty : st.value.type = attr.type)
    (hup : unparsed_ok heap attr = true)
    (hold : st.old_value = some attr.value)
    (hcol : attr.type = .COLOR → attr.unparsed_value.isSome = true) :
    ∃ r, assign_validate heap attr s st = some r ∧
      r.calls = [Call.on_change st.value (seen_unparsed attr s)] ∧
      (is_rejection (f st.value (seen_unparsed attr s)) = false →
        r.status = 0 ∧ r.attr.value = st.value ∧ r.output = st.output) ∧
      (is_rejection (f st.value (seen_unparsed attr s)) = true →
        r.status = HERBST_INVALID_ARGUMENT ∧ r.attr.value = attr.value ∧
        r.output = st.output ++ "Can not write attribute ".toList ++ [dquote] ++ attr.name
          ++ [dquote] ++ ": ".toList
          ++ truncate_newline ((f st.value (seen_unparsed attr s)).getD []) ++ [newline]) := by
  obtain ⟨name, value, up, oc, cc, ac, ua⟩ := attr
  obtain ⟨e, n, ov', sv, so⟩ := st
  simp only [HSAttribute.type] at hf hty hk hcol hold
  subst hf hold
  cases up with
  | none =>
    simp only [seen_unparsed, Option.map_none']
    cases hrej : is_rejection (f sv none) <;>
    cases value <;> cases sv <;>
      simp only [HSAttributeValue.type, reduceCtorEq, ne_eq, not_true_eq_false, and_false,
        false_and] at hty hk <;>
      simp_all [assign_validate, ask_attribute, assign_free, assign_restore, HSAttribute.type,
        HSAttributeValue.type]
  | some p =>
    simp only [seen_unparsed, Option.map_some']
    have hp : (GHeap.str heap p).isSome = true := by simpa [unparsed_ok] using hup
    have hlt := GHeap.str_lt_of_isSome heap p hp
    have hp2 : (GHeap.str (heap.set p (some s)) p).isSome = true := by
      rw [GHeap.str_set_self heap p _ hlt]; rfl
    cases hrej : is_rejection (f sv (some s)) <;>
    cases value <;> cases sv <;>
      simp only [HSAttributeValue.type, reduceCtorEq, ne_eq, not_true_eq_false, and_false,
        false_and] at hty hk <;>
      simp_all [assign_validate, ask_attribute, assign_free, assign_restore, HSAttribute.type,
        HSAttributeValue.type, g_string_new, GHeap.str_append_length, g_string_free_fresh,
        g_string_assign_fresh, g_string_free_append_live heap _ p hp,
        g_string_assign_append_live heap _ p s hp,
        g_string_free_append_live (heap.set p (some s)) _ p hp2]

theorem truncate_newline_spec (m : CStr) :
    truncate_newline (m ++ [newline]) = m ∧
    (m.getLast? ≠ some newline → truncate_newline m = m) := by
  constructor
  · simp [truncate_newline]
  · intro h
    simp [truncate_newline, h]

/-- Claim C32. For a writeable bool, int or uint attribute with `always_callback`
set and a value string that parses to `v` (which may be the current value),
`hsattribute_assign` completes and calls `on_change` exactly once, on the
attribute holding `v`; when `on_change` accepts, the call returns 0 and the
attribute holds `v`. -/
theorem always_callback_asks_validator (ext : Externals) (heap : GHeap) (attr : HSAttribute)
    (s : CStr) (f : HSAttributeValue → Option CStr → Option CStr) (v : HSAttributeValue)
    (hkind : attr.type = .BOOL ∨ attr.type = .INT ∨ attr.type = .UINT)
    (hf : attr.on_change = some f) (hac : attr.always_callback = true)
    (hup : unparsed_ok heap attr = true)
    (hparse : parse_new_value ext attr.value s = some v) :
    ∃ r, hsattribute_assign ext heap attr s = some r ∧
      r.calls = [Call.on_change v (seen_unparsed attr s)] ∧
      (is_rejection (f v (seen_unparsed attr s)) = false → r.status = 0 ∧ r.attr.value = v) := by
  have hk : attr.type ≠ .CUSTOM ∧ attr.type ≠ .CUSTOM_INT := by
    rcases hkind with h | h | h <;> simp [h]
  have hw := writeable_of_on_change attr f hf hk
  have hst := assign_store_integers ext heap attr s v hkind hparse
  have hty := parse_new_value_type ext attr.value v s hparse
  have hcol : attr.type = .COLOR → attr.unparsed_value.isSome = true := by
    intro h; rcases hkind with h2 | h2 | h2 <;> rw [h2] at h <;> cases h
  rw [assign_unfold_validate ext heap attr s _ hw hst rfl (Or.inl hac)]
  obtain ⟨r, h1, h2, h3, -⟩ := assign_validate_on_change heap attr s
    ⟨false, decide (attr.value = v), some attr.value, v, []⟩ f hf hk hty hup rfl hcol
  exact ⟨r, h1, h2, fun hacc => ⟨(h3 hacc).1, (h3 hacc).2.1⟩⟩

/-- Witness for claim C32: `gap = 5` with `always_callback` set, assigned `5`. -/
theorem always_callback_asks_validator_witness :
    ∃ r, hsattribute_assign sample_ext [] callback_gap_attr "5".toList = some r ∧
      r.calls = [Call.on_change (.i 5) none] ∧ r.status = 0 ∧ r.attr.value = .i 5 :=
  have ⟨r, h1, h2, h3⟩ := always_callback_asks_validator sample_ext [] callback_gap_attr
    "5".toList ATTR_ACCEPT_ALL (.i 5) (Or.inr (Or.inl rfl)) rfl rfl rfl (by decide)
  ⟨r, h1, h2, (h3 rfl).1, (h3 rfl).2⟩

/-- Claim C33. For an attribute of a computed kind without `on_change`:
`hsattribute_is_read_only` holds exactly when `change_custom` is NULL; when
`change_custom` is set, the first switch neither parses nor compares, and
`hsattribute_assign` calls `change_custom` exactly once, with the value string
as given, returns 0 when the answer is NULL or empty and invalid-argument with
the "Can not write attribute" text otherwise; the stored getter is untouched. -/
theorem computed_attribute_assign (ext : Externals) (heap : GHeap) (attr : HSAttribute)
    (s : CStr) (hkind : attr.type = .CUSTOM ∨ attr.type = .CUSTOM_INT)
    (hoc : attr.on_change = none) (hup : unparsed_ok heap attr = true) :
    hsattribute_is_read_only attr = some attr.change_custom.isNone ∧
    assign_store ext heap attr s = some ⟨false, false, none, attr.value, []⟩ ∧
    ∀ g, attr.change_custom = some g →
      ∃ r, hsattribute_assign ext heap attr s = some r ∧
        r.calls = [Call.change_custom s] ∧ r.attr.value = attr.value ∧
        (is_rejection (g s) = false → r.status = 0 ∧ r.output = []) ∧
        (is_rejection (g s) = true → r.status = HERBST_INVALID_ARGUMENT ∧
          r.output = "Can not write attribute ".toList ++ [dquote] ++ attr.name ++ [dquote]
            ++ ": ".toList ++ truncate_newline ((g s).getD []) ++ [newline]) := by
  obtain ⟨name, value, up, oc, cc, ac, ua⟩ := attr
  simp only [HSAttribute.type] at hkind hoc
  subst hoc
  refine ⟨?_, ?_, ?_⟩
  · cases value <;> simp only [HSAttributeValue.type, reduceCtorEq, or_self, or_false,
      false_or] at hkind <;>
      simp [hsattribute_is_read_only, HSAttribute.type, HSAttributeValue.type]
  · cases value <;> simp only [HSAttributeValue.type, reduceCtorEq, or_self, or_false,
      false_or] at hkind <;> rfl
  · intro g hg
    simp only at hg
    subst hg
    cases up with
    | none =>
      cases hrej : is_rejection (g s) <;>
      cases value <;> simp only [HSAttributeValue.type, reduceCtorEq, or_self, or_false,
        false_or] at hkind <;>
        simp_all [hsattribute_assign, hsattribute_is_read_only, assign_store, assign_validate,
          ask_attribute, assign_free, assign_restore, HSAttribute.type, HSAttributeValue.type]
    | some p =>
      have hp : (GHeap.str heap p).isSome = true := by simpa [unparsed_ok] using hup
      cases hrej : is_rejection (g s) <;>
      cases value <;> simp only [HSAttributeValue.type, reduceCtorEq, or_self, or_false,
        false_or] at hkind <;>
        simp_all [hsattribute_assign, hsattribute_is_read_only, assign_store, assign_validate,
          ask_attribute, assign_free, assign_restore, HSAttribute.type, HSAttributeValue.type,
          g_string_new, GHeap.str_append_length, g_string_free_fresh,
          g_string_free_append_live heap _ p hp]

/-- Witness for claim C33: the computed attribute `geometry` assigned `bad` and
assigned `640x480`. -/
theorem computed_attribute_assign_witness :
    hsattribute_is_read_only geometry_attr = some false ∧
    (∃ r, hsattribute_assign sample_ext [] geometry_attr "bad".toList = some r ∧
      r.calls = [Call.change_custom "bad".toList] ∧
      r.status = HERBST_INVALID_ARGUMENT ∧
      r.output = "Can not write attribute ".toList ++ [dquote] ++ "geometry".toList ++ [dquote]
        ++ ": bad geometry".toList ++ [newline]) ∧
    (∃ r, hsattribute_assign sample_ext [] geometry_attr "640x480".toList = some r ∧
      r.calls = [Call.change_custom "640x480".toList] ∧ r.status = 0) :=
  ⟨(computed_attribute_assign sample_ext [] geometry_attr "bad".toList (Or.inl rfl) rfl rfl).1,
   have ⟨r, h1, h2, _, _, h5⟩ :=
     (computed_attribute_assign sample_ext [] geometry_attr "bad".toList (Or.inl rfl) rfl
       rfl).2.2 _ rfl
   ⟨r, h1, h2, (h5 (by decide)).1, (h5 (by decide)).2.trans (by decide)⟩,
   have ⟨r, h1, h2, _, h4, _⟩ :=
     (computed_attribute_assign sample_ext [] geometry_attr "640x480".toList (Or.inl rfl) rfl
       rfl).2.2 _ rfl
   ⟨r, h1, h2, (h4 (by decide)).1⟩⟩

/-- Claim C37. For a writeable attribute of a non-computed kind whose value
string parsed, whose call reaches the validator and whose `old_value` was
written: when `on_change` answers with a non-empty message the call returns
invalid-argument, writes exactly `Can not write attribute "<name>": <message>`
and a newline, the message with one trailing newline removed, and the old
value is stored again; when the answer is NULL or empty the call returns 0,
writes nothing and the new value stays stored. -/
theorem validator_answer_decides (ext : Externals) (heap : GHeap) (attr : HSAttribute)
    (s : CStr) (f : HSAttributeValue → Option CStr → Option CStr) (st : Stored)
    (hf : attr.on_change = some f)
    (hk : attr.type ≠ .CUSTOM ∧ attr.type ≠ .CUSTOM_INT)
    (hup : unparsed_ok heap attr = true)
    (hst : assign_store ext heap attr s = some st) (herr : st.error = false)
    (hgo : attr.always_callback = true ∨ st.nothing_to_do = false)
    (hback : st.old_value = some attr.value) :
    ∃ r, hsattribute_assign ext heap attr s = some r ∧
      (∀ msg, f st.value (seen_unparsed attr s) = some msg → msg ≠ [] →
        r.status = HERBST_INVALID_ARGUMENT ∧ r.attr.value = attr.value ∧
        r.output = "Can not write attribute ".toList ++ [dquote] ++ attr.name ++ [dquote]
          ++ ": ".toList ++ truncate_newline msg ++ [newline]) ∧
      (f st.value (seen_unparsed attr s) = none ∨ f st.value (seen_unparsed attr s) = some [] →
        r.status = 0 ∧ r.attr.value = st.value ∧ r.output = []) ∧
      (∀ m : CStr, truncate_newline (m ++ [newline]) = m) ∧
      (∀ m : CStr, m.getLast? ≠ some newline → truncate_newline m = m) := by
  have hw := writeable_of_on_change attr f hf hk
  obtain ⟨-, i2, i3⟩ := assign_store_inv ext heap attr s st hk hst
  have hcol := fun hc => color_unparsed_of_store ext heap attr s st hc hst herr
  have hty : st.value.type = attr.type := by
    cases hn : st.nothing_to_do with
    | true => rw [(i2 herr hn).1]; rfl
    | false => exact parse_new_value_type ext attr.value st.value s (i3 herr hn).1
  have hout : st.output = [] := by
    cases hn : st.nothing_to_do with
    | true => exact (i2 herr hn).2
    | false => exact (i3 herr hn).2.2
  rw [assign_unfold_validate ext heap attr s st hw hst herr hgo]
  obtain ⟨r, h1, -, h3, h4⟩ := assign_validate_on_change heap attr s st f hf hk hty hup hback hcol
  refine ⟨r, h1, ?_, ?_, fun m => (truncate_newline_spec m).1,
    fun m => (truncate_newline_spec m).2⟩
  · intro msg hmsg hne
    have hrej : is_rejection (f st.value (seen_unparsed attr s)) = true := by
      rw [hmsg]
      simp [is_rejection, List.length_pos.mpr hne]
    obtain ⟨a, b, c⟩ := h4 hrej
    refine ⟨a, b, ?_⟩
    rw [c, hout, hmsg]
    simp
  · intro hacc
    have hrej : is_rejection (f st.value (seen_unparsed attr s)) = false := by
      rcases hacc with h | h <;> rw [h] <;> simp [is_rejection]
    obtain ⟨a, b, c⟩ := h3 hrej
    exact ⟨a, b, c.trans hout⟩

/-- Witness for claim C37: `gap = 5` with the validator that answers `no`,
assigned `7`. -/
theorem validator_answer_decides_witness :
    ∃ r, hsattribute_assign sample_ext [] guarded_gap_attr "7".toList = some r ∧
      r.status = HERBST_INVALID_ARGUMENT ∧ r.attr.value = .i 5 ∧
      r.output = "Can not write attribute ".toList ++ [dquote] ++ "gap".toList ++ [dquote]
        ++ ": no".toList ++ [newline] :=
  have ⟨r, h1, h2, _⟩ := validator_answer_decides sample_ext [] guarded_gap_attr "7".toList
    reject_all ⟨false, false, some (.i 5), .i 7, []⟩ rfl (by decide) rfl rfl rfl (Or.inr rfl) rfl
  ⟨r, h1, (h2 "no".toList rfl (by decide)).1, (h2 "no".toList rfl (by decide)).2.1,
    (h2 "no".toList rfl (by decide)).2.2.trans (by decide)⟩

/-! ## The proxies of the theme -/

theorem addProxyTarget_fold (scheme : SchemeRef) (it : Nat) (decs : List SchemeRef) :
    ∀ (tbl : ProxyTargets) (r : SchemeRef) (k : Nat),
      (decs.foldl (fun tbl target => addProxyTarget tbl scheme it target) tbl) r k =
        if r = scheme ∧ k = it then tbl r k ++ decs else tbl r k := by
  induction decs with
  | nil => intro tbl r k; simp
  | cons d rest ih =>
    intro tbl r k
    rw [List.foldl_cons, ih]
    by_cases h : r = scheme ∧ k = it
    · simp [addProxyTarget, h]
    · simp [addProxyTarget, h]

theorem makeProxyFor_range (scheme : SchemeRef) (decs : List SchemeRef) (n : Nat) :
    ∀ (tbl : ProxyTargets) (r : SchemeRef) (k : Nat),
      ((List.range n).foldl
        (fun tbl it => decs.foldl (fun tbl target => addProxyTarget tbl scheme it target) tbl)
        tbl) r k =
        if r = scheme ∧ k < n then tbl r k ++ decs else tbl r k := by
  induction n with
  | zero => intro tbl r k; simp
  | succ m ih =>
    intro tbl r k
    rw [List.range_succ, List.foldl_append, List.foldl_cons, List.foldl_nil,
      addProxyTarget_fold, ih]
    by_cases hr : r = scheme
    · by_cases h1 : k = m
      · have h2 : ¬ k < m := by omega
        have h3 : k < m + 1 := by omega
        simp [hr, h1]
      · by_cases h2 : k < m
        · have h3 : k < m + 1 := by omega
          simp [hr, h1, h2, h3]
        · have h3 : ¬ k < m + 1 := by omega
          simp [hr, h1, h2, h3]
    · simp [hr]

/-- The proxy targets after `makeProxyFor`: the targets are added, in order, to
every attribute of `proxyAttributes_` of the scheme. -/
theorem makeProxyFor_apply (tbl : ProxyTargets) (scheme : SchemeRef) (decs : List SchemeRef)
    (r : SchemeRef) (k : Nat) :
    DecorationScheme.makeProxyFor tbl scheme decs r k =
      if r = scheme ∧ k < proxyAttributes_.length then tbl r k ++ decs else tbl r k :=
  makeProxyFor_range scheme decs proxyAttributes_.length tbl r k

theorem theme_targets_of_member (s : SchemeState) (k : Nat) (hk : k < proxyAttributes_.length) :
    Theme.Theme (.theme_member s) k =
      [.dec_member Type_Tiling s, .dec_member Type_Floating s] := by
  cases s <;>
    simp [Theme.Theme, DecTriple.DecTriple, makeProxyFor_apply, hk, Type_Count, List.range_succ]

theorem theme_targets_of_dec_member (i : Nat) (s : SchemeState) (k : Nat) :
    Theme.Theme (.dec_member i s) k = [] := by
  simp [Theme.Theme, DecTriple.DecTriple, makeProxyFor_apply, Type_Count, List.range_succ]

/-- Claim C31. In the theme built by `Theme::Theme`, every scheme attribute of
the top-level `active`, `normal` and `urgent` schemes has exactly two proxy
targets, in this order: the scheme of the same state of the tiling triple,
then that of the floating triple; these targets own their values.  A write of
`v` to such an attribute, forwarded as the specification describes, leaves
both targets holding `v`, and a read of the proxy then returns `v`. -/
theorem theme_scheme_proxies {α : Type} (s : SchemeState) (k : Nat)
    (hk : k < proxyAttributes_.length) (vals : SchemeValues α) (v : α) :
    Theme.Theme (.theme_member s) k =
      [.dec_member Type_Tiling s, .dec_member Type_Floating s] ∧
    Theme.Theme (.dec_member Type_Tiling s) k = [] ∧
    Theme.Theme (.dec_member Type_Floating s) k = [] ∧
    proxy_write Theme.Theme 2 vals (.theme_member s) k v (.dec_member Type_Tiling s) k = v ∧
    proxy_write Theme.Theme 2 vals (.theme_member s) k v (.dec_member Type_Floating s) k = v ∧
    proxy_read Theme.Theme 2 (proxy_write Theme.Theme 2 vals (.theme_member s) k v)
      (.theme_member s) k = some v := by
  have h1 := theme_targets_of_member s k hk
  have h2 := theme_targets_of_dec_member Type_Tiling s k
  have h3 := theme_targets_of_dec_member Type_Floating s k
  refine ⟨h1, h2, h3, ?_, ?_, ?_⟩ <;>
    simp only [Type_Tiling, Type_Floating] at h1 h2 h3 ⊢ <;>
    simp [proxy_write, proxy_read, h1, h2, h3]

/-- Witness for claim C31: `border_width` of the top-level `active` scheme,
with every scheme holding 2, is set to 4. -/
theorem theme_scheme_proxies_witness :
    Theme.Theme (.theme_member .active) 0 =
      [.dec_member Type_Tiling .active, .dec_member Type_Floating .active] ∧
    proxy_write Theme.Theme 2 (fun _ _ => (2 : Nat)) (.theme_member .active) 0 4
      (.dec_member Type_Tiling .active) 0 = 4 ∧
    proxy_write Theme.Theme 2 (fun _ _ => (2 : Nat)) (.theme_member .active) 0 4
      (.dec_member Type_Floating .active) 0 = 4 ∧
    proxy_read Theme.Theme 2
      (proxy_write Theme.Theme 2 (fun _ _ => (2 : Nat)) (.theme_member .active) 0 4)
      (.theme_member .active) 0 = some 4 :=
  have h := theme_scheme_proxies .active 0 (by decide) (fun _ _ => (2 : Nat)) 4
  ⟨h.1, h.2.2.2.1, h.2.2.2.2.1, h.2.2.2.2.2⟩

/-- The names generated for different values of the counter differ, so the
temporary attributes of nested invocations have pairwise distinct names. -/
theorem tmp_attribute_name_injective (ext : Externals) (a b : Int)
    (ha : -(2 ^ 31) ≤ a ∧ a < 2 ^ 31) (hb : -(2 ^ 31) ≤ b ∧ b < 2 ^ 31)
    (h : tmp_attribute_name ext a = tmp_attribute_name ext b) : a = b := by
  unfold tmp_attribute_name at h
  have h2 : show_int a = show_int b := List.append_cancel_left h
  have h3 := sscanf_d_show a ha.1 ha.2
  rw [h2, sscanf_d_show b hb.1 hb.2] at h3
  exact (Option.some.inj h3).symm

/-- The sample registry with a command that does nothing: `tmp int X echo X`
completes with one dispatch and the scratch object as empty as before. -/
theorem tmpattribute_restores_scratch_sample :
    ∃ (r : CommandResult) (o3 : HSObject),
      tmpattribute_command sample_ext idle_dispatcher sample_registry
        ["tmp".toList, "int".toList, "X".toList, "echo".toList, "X".toList] = some r ∧
      r.reg.objects[1]? = some o3 ∧ o3.attributes = [] ∧
      r.dispatched = [("X".toList, "tmp.my_tmp1".toList, ["echo".toList, "X".toList])] :=
  tmpattribute_restores_scratch sample_ext idle_dispatcher sample_registry "tmp".toList
    "int".toList "X".toList "echo".toList ["X".toList] ⟨[], []⟩ .INT "0".toList rfl rfl
    (by decide)
    (fun idx out reg1 h => by
      have h2 : hsattribute_create sample_ext { sample_registry with tmpcount := 0 + 1 } 1
          (tmp_attribute_name sample_ext (0 + 1)) "int".toList =
          some (some 0, [],
            { sample_registry with
              objects := sample_registry.objects.set 1
                { attributes := [initial_attribute "my_tmp1".toList (.i 0) none],
                  children := [] },
              tmpcount := 1 }) := rfl
      have h3 := h2.symm.trans h
      simp only [Option.some.injEq, Prod.mk.injEq] at h3
      obtain ⟨-, -, h3⟩ := h3
      subst h3
      exact ⟨_, _, rfl, rfl, rfl, rfl⟩)

end Herbstluft
